import Mathlib

/-!
# RANKSCIENCE wallet ledger and task lifecycle

A shallow embedding of the ledger, assignment and submission handlers of
`src/backend/server.js`.

Conventions of the embedding.

* A value of a table or of a request body is a decimal, an exact rational.
  A JavaScript number is a double, the rational it equals: a decimal enters
  the arithmetic as the double nearest to it, `fl`, and `+`, `-`, `*` are the
  exact operation followed by `fl`.  A number handed to a query or a response
  is written as the shortest decimal that reads back as the same double, which
  for a decimal of at most 15 digits is the decimal itself: so the value
  recorded is the decimal the handler computed.
* `user_products.manual_bonus` and `user_products.custom_price` are
  `DECIMAL(12,2)` and keep 2 decimals of what is written to them; amounts are
  taken to be within the range of that type.
* A table is the list of its rows in storage order.  `SELECT ... LIMIT 1` is
  the first matching row, `UPDATE ... WHERE c` rewrites every row satisfying
  `c`, `INSERT` appends a row.
* `CURDATE()` and `NOW()` are read from a `Clock` argument.
* A handler that rolls back returns the store it was given.  Storage failures
  other than the ones the code provokes itself appear only in the handlers
  "under a storage failure", which take the failing step as an argument.
-/

namespace RankScience

/-! ## Numeric primitives -/

/-- `x.toFixed(2)` for the double of value `x`, and the rounding of a decimal
written to a column of 2 decimals: the nearest multiple of 1/100, a tie going
away from zero (`toFixed` formats `-x` when `x < 0` and picks the larger
`n`). -/
def round2 (x : ℚ) : ℚ :=
  if 0 ≤ x then (⌊x * 100 + 1 / 2⌋ : ℚ) / 100
  else -((⌊(-x) * 100 + 1 / 2⌋ : ℚ) / 100)

/-- The integer nearest to `x`, a tie going to the even one. -/
def roundEven (x : ℚ) : ℤ :=
  if x - ⌊x⌋ < 1 / 2 then ⌊x⌋
  else if 1 / 2 < x - ⌊x⌋ then ⌊x⌋ + 1
  else if ⌊x⌋ % 2 = 0 then ⌊x⌋ else ⌊x⌋ + 1

/-- The double nearest to `x` (IEEE 754 binary64, round to nearest, ties to
even): `x` is scaled to a significand of 53 bits, which is rounded to an
integer.  Exponents are not bounded: no amount is near the ends of the
range. -/
def fl (x : ℚ) : ℚ :=
  if x = 0 then 0
  else (roundEven (x / (2 : ℚ) ^ (Int.log 2 |x| - 52)) : ℚ) * (2 : ℚ) ^ (Int.log 2 |x| - 52)

/-- The JavaScript sum `a + b` of two decimals. -/
def jsAdd (a b : ℚ) : ℚ :=
  fl (fl a + fl b)

/-- The JavaScript difference `a - b` of two decimals. -/
def jsSub (a b : ℚ) : ℚ :=
  fl (fl a - fl b)

/-- The JavaScript product `a * b` of two decimals. -/
def jsMul (a b : ℚ) : ℚ :=
  fl (fl a * fl b)

/-- The running total `t += x` over the decimals of a list, from the double
`t`. -/
def jsSumFrom (t : ℚ) (l : List ℚ) : ℚ :=
  l.foldl (fun acc x => fl (acc + fl x)) t

/-- The value a `DECIMAL(12,2)` column keeps of a decimal written to it. -/
def decimal2 (x : ℚ) : ℚ :=
  round2 x

/-- JavaScript `a || b` on nullable numbers: `a`, unless `a` is
null/undefined or `0`, in which case `b`. -/
def jsOr (a b : Option ℚ) : Option ℚ :=
  match a with
  | some v => if v = 0 then b else some v
  | none => b

/-- `Number(a)` for a nullable number that is not `undefined`:
`Number(null) = 0`. -/
def jsNumber (a : Option ℚ) : ℚ :=
  match a with
  | some v => v
  | none => 0

/-- `level || 1` for a nullable user level. -/
def levelOr1 (level : Option Nat) : Nat :=
  match level with
  | some l => if l = 0 then 1 else l
  | none => 1

/-! ## Data model -/

/-- Values of `user_products.status`. -/
inductive AssignmentStatus where
  | pending
  | completed
  deriving DecidableEq, Repr

/-- Values of `products.status` (the toggle handler writes only these). -/
inductive ProductStatus where
  | active
  | inactive
  deriving DecidableEq, Repr

/-- Values of `users.status`. -/
inductive UserStatus where
  | active
  | inactive
  deriving DecidableEq, Repr

/-- Values of `withdrawals.status`. -/
inductive WithdrawalStatus where
  | pending
  | approved
  | rejected
  deriving DecidableEq, Repr

/-- The enum of `balance_events.type`. -/
inductive EventType where
  | assignment_debit
  | submission_credit
  | manual_adjustment
  | deposit
  deriving DecidableEq, Repr

/-- The text of an assignment status as JavaScript sees it. -/
def AssignmentStatus.text : AssignmentStatus → String
  | .pending => "pending"
  | .completed => "completed"

/-- The text of a product status as JavaScript sees it. -/
def ProductStatus.text : ProductStatus → String
  | .active => "active"
  | .inactive => "inactive"

/-- A row of `users` (the columns the engines read or write). -/
structure User where
  id : Nat
  level : Option Nat
  wallet_balance : ℚ
  commission_earned : ℚ
  tasks_completed_at_level : Nat
  total_tasks_completed : Nat
  is_admin : Bool
  status : Option UserStatus
  deriving DecidableEq

/-- A row of `products`. -/
structure Product where
  id : Nat
  name : String
  level1_price : Option ℚ
  level2_price : Option ℚ
  level3_price : Option ℚ
  level4_price : Option ℚ
  level5_price : Option ℚ
  status : ProductStatus
  deriving DecidableEq

/-- A row of `user_products`.  `manual_bonus` is read only through
`Number(manual_bonus || 0)`, so `NULL` and `0` are one value. -/
structure UserProduct where
  id : Nat
  user_id : Nat
  product_id : Nat
  assigned_date : Nat
  status : AssignmentStatus
  amount_earned : ℚ
  commission_earned : ℚ
  manual_bonus : ℚ
  custom_price : Option ℚ
  is_manual : Bool
  submitted_at : Option Nat
  deriving DecidableEq

/-- The `details` text of a balance event, by template. -/
inductive EventDetails where
  | submitted (tasks : Nat)
  | assigned (dailyLimit : Int)
  | manualAssignment (productName : String)
  | manualRefund (productName : String)
  | depositOf (amount : ℚ)
  deriving DecidableEq

/-- A row of `balance_events`. -/
structure BalanceEvent where
  user_id : Nat
  type : EventType
  amount : ℚ
  reference_date : Option Nat
  details : EventDetails
  deriving DecidableEq

/-- A row of `withdrawals`. -/
structure Withdrawal where
  id : Nat
  user_id : Nat
  amount : ℚ
  status : WithdrawalStatus
  processed_date : Option Nat
  admin_notes : String
  deriving DecidableEq

/-- A row of `commission_rates`. -/
structure CommissionRate where
  level : Nat
  rate : ℚ
  deriving DecidableEq

/-- A row of `level_settings`. -/
structure LevelSettings where
  level : Nat
  daily_task_limit : Option Int
  deriving DecidableEq

/-- The persistent store. -/
structure Store where
  users : List User
  products : List Product
  user_products : List UserProduct
  balance_events : List BalanceEvent
  withdrawals : List Withdrawal
  commission_rates : List CommissionRate
  level_settings : List LevelSettings
  deriving DecidableEq

/-- The readings of `CURDATE()` and `NOW()` during one request. -/
structure Clock where
  today : Nat
  now : Nat

/-- The value of `row['level' + n + '_price']`: the column when `n` is 1..5,
`undefined` (here `none`) otherwise. -/
def Product.priceColumn (p : Product) (level : Nat) : Option ℚ :=
  match level with
  | 1 => p.level1_price
  | 2 => p.level2_price
  | 3 => p.level3_price
  | 4 => p.level4_price
  | 5 => p.level5_price
  | _ => none

/-! ## Queries shared by the handlers -/

/-- `SELECT ... FROM users WHERE id = ? LIMIT 1`. -/
def findUser (s : Store) (userId : Nat) : Option User :=
  s.users.find? (fun u => u.id = userId)

/-- `SELECT ... FROM products WHERE id = ? LIMIT 1`. -/
def findProduct (s : Store) (productId : Nat) : Option Product :=
  s.products.find? (fun p => p.id = productId)

/-- `SELECT rate FROM commission_rates WHERE level = ? LIMIT 1`. -/
def findRate (s : Store) (level : Nat) : Option CommissionRate :=
  s.commission_rates.find? (fun r => r.level = level)

/-- `FROM user_products up JOIN products p ON up.product_id = p.id`, restricted
to the assignment rows satisfying `cond`. -/
def joinProducts (s : Store) (cond : UserProduct → Bool) : List (UserProduct × Product) :=
  (s.user_products.filter cond).flatMap
    (fun up => (s.products.filter (fun p => p.id = up.product_id)).map (fun p => (up, p)))

/-- `UPDATE users SET ... WHERE id = ?`. -/
def updateUser (s : Store) (userId : Nat) (f : User → User) : Store :=
  { s with users := s.users.map (fun u => if u.id = userId then f u else u) }

/-- `UPDATE user_products SET ... WHERE id = ?`. -/
def updateUserProduct (s : Store) (upId : Nat) (f : UserProduct → UserProduct) : Store :=
  { s with user_products := s.user_products.map (fun r => if r.id = upId then f r else r) }

/-- `UPDATE user_products SET status = 'completed', amount_earned = ?,
commission_earned = ?, submitted_at = NOW()`, on one row. -/
def markCompleted (clk : Clock) (amount commission : ℚ) (r : UserProduct) : UserProduct :=
  { r with status := .completed, amount_earned := amount,
           commission_earned := commission, submitted_at := some clk.now }

/-- `INSERT INTO balance_events ...`. -/
def insertEvent (s : Store) (e : BalanceEvent) : Store :=
  { s with balance_events := s.balance_events ++ [e] }

/-! ## Single submission: `POST /api/user/submit-product/:id` -/

/-- The object mysql2 builds for one row of `SELECT up.*, p.*`: one key per
column name, a later column overwriting an earlier one of the same name.  Both
tables have `id` and `status`, so these two keys hold the product's values. -/
structure SubmitRow where
  id : Nat
  status : String
  user_id : Nat
  product_id : Nat
  manual_bonus : ℚ
  custom_price : Option ℚ
  product : Product

/-- The row object for an assignment joined with its product: the keys of
`up.*` first, then those of `p.*` written over them. -/
def joinStar (up : UserProduct) (p : Product) : SubmitRow :=
  let fromUp : SubmitRow :=
    { id := up.id, status := up.status.text, user_id := up.user_id,
      product_id := up.product_id, manual_bonus := up.manual_bonus,
      custom_price := up.custom_price, product := p }
  { fromUp with id := p.id, status := p.status.text }

/-- The responses of the single submission handler. -/
inductive SubmitOneResult where
  | notFound
  | alreadyCompleted
  | insufficientBalance (shortfall required currentBalance : ℚ)
  | ok (earned baseAmount commission bonus : ℚ)
  deriving DecidableEq

/-- The first row of the handler's join, `WHERE up.id = ? AND up.user_id = ?`. -/
def submitOneLookup (s : Store) (userId assignmentId : Nat) : Option (UserProduct × Product) :=
  (joinProducts s (fun up => up.id = assignmentId ∧ up.user_id = userId)).head?

/-- The price of `submitOne`: the custom price when it is not null, else the
column of the user's level, else (column null, undefined or 0) the level-1
price, else 0. -/
def submitOnePrice (row : SubmitRow) (userLevel : Nat) : ℚ :=
  match row.custom_price with
  | some c => jsNumber (jsOr (some c) (some 0))
  | none =>
    jsNumber (jsOr (jsOr (row.product.priceColumn userLevel) row.product.level1_price) (some 0))

/-- The commission rate of a level: the first rate row, 0.05 without one. -/
def rateOf (s : Store) (userLevel : Nat) : ℚ :=
  match findRate s userLevel with
  | some r => r.rate
  | none => 5 / 100

/-- The handler of `POST /api/user/submit-product/:id`. -/
def submitOne (s : Store) (clk : Clock) (userId assignmentId : Nat) : Store × SubmitOneResult :=
  match submitOneLookup s userId assignmentId with
  | none => (s, .notFound)
  | some (up, p) =>
    let row := joinStar up p
    if row.status = "completed" then (s, .alreadyCompleted)
    else
      let user := findUser s userId
      let userLevel := levelOr1 (match user with | some u => u.level | none => none)
      let currentBalance : ℚ := match user with | some u => u.wallet_balance | none => 0
      let price := submitOnePrice row userLevel
      if currentBalance < 0 then
        (s, .insufficientBalance |currentBalance| price currentBalance)
      else
        let rate := rateOf s userLevel
        let commission := round2 (jsMul price rate)
        let manualBonus := row.manual_bonus
        let baseAmount := round2 (jsAdd price manualBonus)
        let earned := round2 (jsAdd baseAmount commission)
        let s1 := updateUserProduct s assignmentId (markCompleted clk baseAmount commission)
        let s2 := updateUser s1 userId (fun u =>
          { u with wallet_balance := u.wallet_balance + earned,
                   commission_earned := u.commission_earned + commission,
                   tasks_completed_at_level := u.tasks_completed_at_level + 1,
                   total_tasks_completed := u.total_tasks_completed + 1 })
        (s2, .ok earned baseAmount commission manualBonus)

/-! ## Batch submission: `POST /api/user/submit-today` -/

/-- The responses of the batch submission handler. -/
inductive SubmitTodayResult where
  | userNotFound
  | noPendingTasks
  | ok (tasksSubmitted : Nat) (totalPrice totalManualBonus totalCommission totalCredit : ℚ)
  deriving DecidableEq

/-- The running sums of the batch loop, doubles. -/
structure BatchTotals where
  totalPrice : ℚ
  totalManualBonus : ℚ
  totalCommission : ℚ
  deriving DecidableEq

/-- The rows the batch handler selects: the user's assignments dated today
whose status is not completed, joined with their products. -/
def submitTodayRows (s : Store) (clk : Clock) (userId : Nat) : List (UserProduct × Product) :=
  joinProducts s (fun up =>
    up.user_id = userId ∧ up.assigned_date = clk.today ∧ up.status ≠ .completed)

/-- The price of one batch row: the custom price when it is not null, else
`Number(row[priceColumn] || 0)`. -/
def batchRowPrice (up : UserProduct) (p : Product) (userLevel : Nat) : ℚ :=
  match up.custom_price with
  | some c => jsNumber (jsOr (some c) (some 0))
  | none => jsNumber (jsOr (p.priceColumn userLevel) (some 0))

/-- One iteration of the batch loop: the row is rewritten and the sums grow. -/
def submitTodayStep (clk : Clock) (userLevel : Nat) (rate : ℚ)
    (acc : Store × BatchTotals) (row : UserProduct × Product) : Store × BatchTotals :=
  let rowPrice := batchRowPrice row.1 row.2 userLevel
  let manualBonus := row.1.manual_bonus
  let rowBase := round2 (jsAdd rowPrice manualBonus)
  let rowCommission := round2 (jsMul rowPrice rate)
  (updateUserProduct acc.1 row.1.id (markCompleted clk rowBase rowCommission),
   { totalPrice := fl (acc.2.totalPrice + fl rowPrice),
     totalManualBonus := fl (acc.2.totalManualBonus + fl manualBonus),
     totalCommission := fl (acc.2.totalCommission + fl rowCommission) })

/-- The handler of `POST /api/user/submit-today`. -/
def submitAllToday (s : Store) (clk : Clock) (userId : Nat) : Store × SubmitTodayResult :=
  match findUser s userId with
  | none => (s, .userNotFound)
  | some userRow =>
    let userLevel := levelOr1 userRow.level
    let rate := rateOf s userLevel
    let rows := submitTodayRows s clk userId
    if rows.length = 0 then (s, .noPendingTasks)
    else
      let looped := rows.foldl (submitTodayStep clk userLevel rate) (s, ⟨0, 0, 0⟩)
      let totalPrice := round2 looped.2.totalPrice
      let totalManualBonus := round2 looped.2.totalManualBonus
      let totalCommission := round2 looped.2.totalCommission
      let totalCredit :=
        round2 (fl (jsAdd totalPrice totalManualBonus + fl totalCommission))
      let s2 := updateUser looped.1 userId (fun u =>
        { u with wallet_balance := u.wallet_balance + totalCredit,
                 commission_earned := u.commission_earned + totalCommission,
                 tasks_completed_at_level := u.tasks_completed_at_level + rows.length,
                 total_tasks_completed := u.total_tasks_completed + rows.length })
      let s3 := insertEvent s2
        { user_id := userId, type := .submission_credit, amount := totalCredit,
          reference_date := some clk.today, details := .submitted rows.length }
      (s3, .ok rows.length totalPrice totalManualBonus totalCommission totalCredit)

/-! ## Bulk assignment: `assignProductsToAllUsers` -/

/-- The failures of bulk assignment: the two thrown by the function itself and
the SQL error of a price column that does not exist. -/
inductive AssignError where
  | noValidProducts
  | noActiveProducts
  | unknownColumn
  deriving DecidableEq

/-- The counts bulk assignment returns. -/
structure AssignCounts where
  usersAssigned : Nat
  assignments : Nat
  deriving DecidableEq

deriving instance DecidableEq for Except

/-- `SELECT id, level FROM users WHERE is_admin = 0 AND
COALESCE(status, "active") = "active"`. -/
def activeUsers (s : Store) : List User :=
  s.users.filter (fun u =>
    u.is_admin = false ∧ (match u.status with | some st => st | none => .active) = .active)

/-- The ids kept of a requested selection: positive, each once. -/
def cleanedIds (productIds : List Int) : List Int :=
  (productIds.filter (fun i => 0 < i)).eraseDups

/-- The product pool: with a non-empty selection the active products whose id
is selected, otherwise all active products.  An empty list stands for an
absent selection (both take the same branch). -/
def eligibleProducts (s : Store) (productIds : List Int) : Except AssignError (List Product) :=
  if 0 < productIds.length then
    if (cleanedIds productIds).length = 0 then .error .noValidProducts
    else .ok (s.products.filter (fun p =>
      p.status = .active ∧ (p.id : Int) ∈ cleanedIds productIds))
  else .ok (s.products.filter (fun p => p.status = .active))

/-- `levelSettingsRows[0]?.daily_task_limit || 1` for
`SELECT daily_task_limit FROM level_settings WHERE level = ? LIMIT 1`
(a null level matches no row). -/
def dailyLimitOf (s : Store) (level : Option Nat) : Int :=
  match level with
  | none => 1
  | some l =>
    match s.level_settings.find? (fun ls => ls.level = l) with
    | some ls =>
      (match ls.daily_task_limit with
       | some d => if d = 0 then 1 else d
       | none => 1)
    | none => 1

/-- An id larger than every id in the table, as `AUTO_INCREMENT` yields. -/
def freshId (rows : List UserProduct) : Nat :=
  (rows.map (fun r => r.id)).foldr max 0 + 1

/-- Modelled from the spec: the unique key of `user_products`, declared in a
schema that is not part of the sources ("uniqueness is enforced per (user,
product, date) for automatic assignment").  `INSERT IGNORE` of a pending
automatic row for today: dropped when a row with the same user, product and
date exists, appended otherwise; the flag is `affectedRows > 0`. -/
def insertIgnore (s : Store) (clk : Clock) (userId productId : Nat) : Store × Bool :=
  if s.user_products.any (fun r =>
      r.user_id = userId ∧ r.product_id = productId ∧ r.assigned_date = clk.today) then
    (s, false)
  else
    ({ s with user_products := s.user_products ++
        [{ id := freshId s.user_products, user_id := userId, product_id := productId,
           assigned_date := clk.today, status := .pending, amount_earned := 0,
           commission_earned := 0, manual_bonus := 0, custom_price := none,
           is_manual := false, submitted_at := none }] }, true)

/-- The product at `Math.floor(Math.random() * productRows.length)`; the draw
`r` is reduced into the range of indices. -/
def pickProduct (p0 : Product) (rest : List Product) (r : Nat) : Product :=
  (p0 :: rest).getD (r % (rest.length + 1)) p0

/-- The slot loop of one user: `n` draws starting at draw number `k`, one
insert attempt each; returns the store and the number of rows inserted. -/
def insertSlots (clk : Clock) (rnd : Nat → Nat) (p0 : Product) (rest : List Product)
    (userId : Nat) : Nat → Nat → Store → Store × Nat
  | 0, _, s => (s, 0)
  | n + 1, k, s =>
    let r := insertIgnore s clk userId (pickProduct p0 rest (rnd k)).id
    let more := insertSlots clk rnd p0 rest userId n (k + 1) r.1
    (more.1, (if r.2 then 1 else 0) + more.2)

/-- `SELECT id FROM balance_events WHERE user_id = ? AND type =
"assignment_debit" AND reference_date = CURDATE() LIMIT 1` finds a row. -/
def debitExists (s : Store) (clk : Clock) (userId : Nat) : Bool :=
  s.balance_events.any (fun e =>
    e.user_id = userId ∧ e.type = .assignment_debit ∧ e.reference_date = some clk.today)

/-- `COALESCE(SUM(p.levelN_price), 0)` over the user's rows of today with
`is_manual = 0`, joined with their products; `SUM` skips nulls. -/
def assignedTotal (s : Store) (clk : Clock) (userId level : Nat) : ℚ :=
  ((joinProducts s (fun up =>
      up.user_id = userId ∧ up.assigned_date = clk.today ∧ up.is_manual = false)).map
    (fun row => jsNumber (row.2.priceColumn level))).sum

/-- The debit of one user after the slot loop.  The price column is named
from the raw level, so a level outside 1..5 makes the query fail. -/
def debitUser (s : Store) (clk : Clock) (user : User) (dailyLimit : Int) :
    Except AssignError Store :=
  if debitExists s clk user.id then .ok s
  else
    match user.level with
    | some l =>
      if 1 ≤ l ∧ l ≤ 5 then
        let total := assignedTotal s clk user.id l
        if total > 0 then
          .ok (insertEvent
            (updateUser s user.id (fun u => { u with wallet_balance := u.wallet_balance - total }))
            { user_id := user.id, type := .assignment_debit, amount := total,
              reference_date := some clk.today, details := .assigned dailyLimit })
        else .ok s
      else .error .unknownColumn
    | none => .error .unknownColumn

/-- The loop over the selected users.  `k` counts the draws made so far and
`total` the rows inserted so far.  A failing query ends the run; what was
written before it stays (no transaction spans the loop). -/
def assignLoop (clk : Clock) (rnd : Nat → Nat) (p0 : Product) (rest : List Product) :
    List User → Nat → Nat → Store → Store × Except AssignError Nat
  | [], _, total, s => (s, .ok total)
  | user :: users, k, total, s =>
    let dailyLimit := dailyLimitOf s user.level
    if dailyLimit ≤ 0 then assignLoop clk rnd p0 rest users k total s
    else
      let slots := insertSlots clk rnd p0 rest user.id dailyLimit.toNat k s
      match debitUser slots.1 clk user dailyLimit with
      | .error e => (slots.1, .error e)
      | .ok s2 =>
        assignLoop clk rnd p0 rest users (k + dailyLimit.toNat) (total + slots.2) s2

/-- The function `assignProductsToAllUsers(productIds)`; `rnd k` is the index
drawn by the `k`-th call of the random source. -/
def assignProductsToAllUsers (s : Store) (clk : Clock) (rnd : Nat → Nat)
    (productIds : List Int) : Store × Except AssignError AssignCounts :=
  let users := activeUsers s
  if users.length = 0 then (s, .ok { usersAssigned := 0, assignments := 0 })
  else
    match eligibleProducts s productIds with
    | .error e => (s, .error e)
    | .ok [] => (s, .error .noActiveProducts)
    | .ok (p0 :: rest) =>
      let looped := assignLoop clk rnd p0 rest users 0 0 s
      match looped.2 with
      | .error e => (looped.1, .error e)
      | .ok total => (looped.1, .ok { usersAssigned := users.length, assignments := total })

/-! ## Single assignment: `POST /api/admin/assign-product-to-user` -/

/-- The `customPrice` of the request body: absent (undefined, null or the
empty string), a value whose `Number(...)` is NaN, or a number. -/
inductive PriceArg where
  | absent
  | notANumber
  | num (q : ℚ)
  deriving DecidableEq

/-- The responses of the single assignment handler. -/
inductive AssignSingleResult where
  | missingField
  | userNotFound
  | productUnavailable
  | invalidCustomPrice
  | invalidProductPrice
  | ok
  deriving DecidableEq

/-- The bonus kept of `manualBonus`: the double `Number(manualBonus || 0)`
rounded by `toFixed(2)` when it is positive, otherwise 0 (`none` stands for an
absent or non-numeric bonus, both of which give 0). -/
def cleanBonus (manualBonus : Option ℚ) : ℚ :=
  let bonusRaw := fl (jsNumber (jsOr manualBonus (some 0)))
  if bonusRaw > 0 then round2 bonusRaw else 0

/-- `Number(productRow[priceColumn] || productRow.level1_price || 0)`. -/
def levelPrice (p : Product) (userLevel : Nat) : ℚ :=
  jsNumber (jsOr (jsOr (p.priceColumn userLevel) p.level1_price) (some 0))

/-- `SELECT id, manual_bonus, custom_price FROM user_products WHERE user_id = ?
AND product_id = ? AND DATE(assigned_date) = CURDATE() LIMIT 1`. -/
def findExisting (s : Store) (clk : Clock) (userId productId : Nat) : Option UserProduct :=
  s.user_products.find? (fun r =>
    r.user_id = userId ∧ r.product_id = productId ∧ r.assigned_date = clk.today)

/-- The deadband: a difference of absolute value below 0.005 becomes 0. -/
def deadband (amountDifference : ℚ) : ℚ :=
  if |amountDifference| < 5 / 1000 then 0 else amountDifference

/-- The wallet and ledger part of the single assignment. -/
def applyDifference (s : Store) (clk : Clock) (userId : Nat) (productName : String)
    (amountDifference : ℚ) : Store :=
  if amountDifference ≠ 0 then
    insertEvent
      (updateUser s userId (fun u =>
        { u with wallet_balance := u.wallet_balance - amountDifference }))
      { user_id := userId, type := .manual_adjustment, amount := |amountDifference|,
        reference_date := some clk.today,
        details := if amountDifference ≥ 0 then .manualAssignment productName
                   else .manualRefund productName }
  else s

/-- The upsert of the single assignment, once price and bonus are known:
`priceToUse` is the custom price or null.  The bonus is a value of 2 decimals
already; the custom price is rounded by its column. -/
def upsertAssignment (s : Store) (clk : Clock) (userRow : User) (productRow : Product)
    (price bonus : ℚ) (priceToUse : Option ℚ) : Store :=
  let baseAmount := round2 (jsAdd price bonus)
  match findExisting s clk userRow.id productRow.id with
  | some existing =>
    let previousBonus := existing.manual_bonus
    let previousPrice :=
      match existing.custom_price with
      | some c => c
      | none => levelPrice productRow (levelOr1 userRow.level)
    let previousBase := round2 (jsAdd previousPrice previousBonus)
    let amountDifference := round2 (jsSub baseAmount previousBase)
    let s1 := updateUserProduct s existing.id (fun r =>
      { r with status := .pending, manual_bonus := bonus,
               custom_price := priceToUse.map decimal2,
               is_manual := true, assigned_date := clk.today, amount_earned := 0,
               commission_earned := 0, submitted_at := none })
    applyDifference s1 clk userRow.id productRow.name (deadband amountDifference)
  | none =>
    let s1 : Store := { s with user_products := s.user_products ++
      [{ id := freshId s.user_products, user_id := userRow.id, product_id := productRow.id,
         assigned_date := clk.today, status := .pending, amount_earned := 0,
         commission_earned := 0, manual_bonus := bonus,
         custom_price := priceToUse.map decimal2,
         is_manual := true, submitted_at := none }] }
    applyDifference s1 clk userRow.id productRow.name (deadband baseAmount)

/-- The handler of `POST /api/admin/assign-product-to-user`. -/
def assignSingleTask (s : Store) (clk : Clock) (userId productId : Nat)
    (manualBonus : Option ℚ) (customPrice : PriceArg) : Store × AssignSingleResult :=
  if userId = 0 ∨ productId = 0 then (s, .missingField)
  else
    let bonus := cleanBonus manualBonus
    match findUser s userId with
    | none => (s, .userNotFound)
    | some userRow =>
      match findProduct s productId with
      | none => (s, .productUnavailable)
      | some productRow =>
        if productRow.status ≠ .active then (s, .productUnavailable)
        else
          match customPrice with
          | .notANumber => (s, .invalidCustomPrice)
          | .num customPriceNum =>
            if customPriceNum < 0 then (s, .invalidCustomPrice)
            else
              (upsertAssignment s clk userRow productRow customPriceNum bonus
                (some customPriceNum), .ok)
          | .absent =>
            let price := levelPrice productRow (levelOr1 userRow.level)
            if ¬ (price > 0) then (s, .invalidProductPrice)
            else (upsertAssignment s clk userRow productRow price bonus none, .ok)

/-! ## Deposit, balance override and withdrawals -/

/-- The responses of the deposit handler. -/
inductive DepositResult where
  | invalidAmount
  | failed
  | ok (newBalance : ℚ)
  deriving DecidableEq

/-- The handler of `POST /api/user/deposit` for a numeric amount.  Reading the
new balance of a user that does not exist throws after both writes. -/
def deposit (s : Store) (clk : Clock) (userId : Nat) (amount : ℚ) : Store × DepositResult :=
  if amount = 0 ∨ amount ≤ 0 then (s, .invalidAmount)
  else
    let s1 := updateUser s userId (fun u => { u with wallet_balance := u.wallet_balance + amount })
    let s2 := insertEvent s1
      { user_id := userId, type := .deposit, amount := amount,
        reference_date := some clk.today, details := .depositOf (round2 amount) }
    match findUser s2 userId with
    | some u => (s2, .ok u.wallet_balance)
    | none => (s2, .failed)

/-- The handler of `PUT /api/admin/users/:id/balance`. -/
def adminSetBalance (s : Store) (userId : Nat) (balance : ℚ) : Store :=
  updateUser s userId (fun u => { u with wallet_balance := balance })

/-- `UPDATE withdrawals SET ... WHERE id = ?`. -/
def updateWithdrawal (s : Store) (id : Nat) (f : Withdrawal → Withdrawal) : Store :=
  { s with withdrawals := s.withdrawals.map (fun w => if w.id = id then f w else w) }

/-- The handler of `PUT /api/admin/withdrawals/:id/approve`; `false` is the
404 response. -/
def approveWithdrawal (s : Store) (clk : Clock) (id : Nat) : Store × Bool :=
  match s.withdrawals.find? (fun w => w.id = id) with
  | none => (s, false)
  | some w =>
    let s1 := updateUser s w.user_id (fun u =>
      { u with wallet_balance := u.wallet_balance - w.amount })
    (updateWithdrawal s1 id (fun x =>
      { x with status := .approved, processed_date := some clk.now }), true)

/-- The handler of `PUT /api/admin/withdrawals/:id/reject`. -/
def rejectWithdrawal (s : Store) (clk : Clock) (id : Nat) (adminNotes : String) : Store :=
  updateWithdrawal s id (fun x =>
    { x with status := .rejected, processed_date := some clk.now, admin_notes := adminNotes })

/-- The wallet balance of a user, when the user exists. -/
def walletOf (s : Store) (userId : Nat) : Option ℚ :=
  (findUser s userId).map (fun u => u.wallet_balance)

/-! ## Prices as the specification words them, and sample stores -/

/-- The price of a row in the words of the specification's testable
property: the custom price if set, else the product's price column for the
user's level (an unset column counting as 0). -/
def claimedPrice (custom_price : Option ℚ) (p : Product) (userLevel : Nat) : ℚ :=
  match custom_price with
  | some c => c
  | none => jsNumber (p.priceColumn userLevel)

/-- The price of a row as the code resolves it by design: the custom price
if set, else the price column of the user's level if it is set and not 0,
else the level-1 price, 0 when that is unset too. -/
def resolvedPrice (custom_price : Option ℚ) (p : Product) (userLevel : Nat) : ℚ :=
  match custom_price with
  | some c => c
  | none =>
    match p.priceColumn userLevel with
    | some v => if v ≠ 0 then v else jsNumber p.level1_price
    | none => jsNumber p.level1_price

/-- A user of level 2 with an empty wallet. -/
def sampleUser : User :=
  { id := 1, level := some 2, wallet_balance := 0, commission_earned := 0,
    tasks_completed_at_level := 0, total_tasks_completed := 0, is_admin := false,
    status := some .active }

/-- A product priced 10.00 at level 2. -/
def sampleProduct : Product :=
  { id := 7, name := "P", level1_price := some 5, level2_price := some 10,
    level3_price := none, level4_price := none, level5_price := none, status := .active }

/-- A pending automatic assignment of `sampleProduct` to `sampleUser`. -/
def sampleAssignment : UserProduct :=
  { id := 3, user_id := 1, product_id := 7, assigned_date := 100, status := .pending,
    amount_earned := 0, commission_earned := 0, manual_bonus := 0, custom_price := none,
    is_manual := false, submitted_at := none }

/-- The scenario of the specification: level 2, `level2_price = 10.00`,
commission rate 0.05, no bonus. -/
def scenarioStore : Store :=
  { users := [sampleUser], products := [sampleProduct], user_products := [sampleAssignment],
    balance_events := [], withdrawals := [],
    commission_rates := [{ level := 2, rate := 5 / 100 }], level_settings := [] }

/-- The clock of the samples. -/
def sampleClock : Clock := { today := 100, now := 5000 }

/-- A store whose product has no price at level 2 but 10.00 at level 1. -/
def fallbackStore : Store :=
  { scenarioStore with
    products := [{ sampleProduct with level1_price := some 10, level2_price := some 0 }] }

/-- A store whose product is priced 4.10 at level 2. -/
def centStore : Store :=
  { scenarioStore with
    products := [{ sampleProduct with level2_price := some (41 / 10) }] }

/-- A store with two pending assignments of today for the user, of products
priced 10.00 and 2.90 at level 2. -/
def twoRowStore : Store :=
  { scenarioStore with
    products := [sampleProduct,
      { sampleProduct with id := 8, name := "Q", level2_price := some (29 / 10) }],
    user_products := [sampleAssignment, { sampleAssignment with id := 4, product_id := 8 }] }

/-- A store whose only assignment is already completed (earned 10.00, with
commission 0.50) and whose user holds the 10.50 credited for it. -/
def completedStore : Store :=
  { scenarioStore with
    users := [{ sampleUser with
                wallet_balance := 21 / 2, commission_earned := 1 / 2,
                tasks_completed_at_level := 1, total_tasks_completed := 1 }],
    user_products := [{ sampleAssignment with
                        status := .completed, amount_earned := 10,
                        commission_earned := 1 / 2, submitted_at := some 4000 }] }

/-- A store whose only assignment is a pending manual one with custom price
0 and no bonus, as the single assignment with `customPrice = 0` leaves it. -/
def zeroPriceStore : Store :=
  { scenarioStore with
    user_products := [{ sampleAssignment with custom_price := some 0, is_manual := true }] }

/-- The scenario store without any assignment. -/
def unassignedStore : Store :=
  { scenarioStore with user_products := [] }

/-- A store whose only assignment is a pending manual one with custom price
10.00. -/
def customPriceStore : Store :=
  { scenarioStore with
    user_products := [{ sampleAssignment with custom_price := some 10, is_manual := true }] }

/-- The scenario store with a pending withdrawal of 4.00 by user 1. -/
def withdrawalStore : Store :=
  { scenarioStore with
    withdrawals := [{ id := 1, user_id := 1, amount := 4, status := .pending,
                      processed_date := none, admin_notes := "" }] }

/-- The amount of a balance event with the sign of its effect on the wallet:
minus for an assignment debit, plus for a submission credit and a deposit,
and for a manual adjustment minus when it records an assignment and plus when
it records a refund. -/
def signedAmount (e : BalanceEvent) : ℚ :=
  match e.type with
  | .assignment_debit => -e.amount
  | .submission_credit => e.amount
  | .deposit => e.amount
  | .manual_adjustment =>
    match e.details with
    | .manualRefund _ => e.amount
    | _ => -e.amount

/-- The store `s1` comes from `s` by appending balance events such that every
user whose wallet differs has an event among the appended ones. -/
def Audited (s s1 : Store) : Prop :=
  ∃ l, s1.balance_events = s.balance_events ++ l ∧
    ∀ v, walletOf s1 v ≠ walletOf s v → ∃ e ∈ l, e.user_id = v

/-- The store `s1` comes from `s` by appending balance events of type `t`,
each of which accounts for the whole change of its user's wallet, and no other
wallet changed. -/
def Ledgered (t : EventType) (s s1 : Store) : Prop :=
  ∃ l, s1.balance_events = s.balance_events ++ l ∧
    (∀ e ∈ l, e.type = t ∧
      walletOf s1 e.user_id = (walletOf s e.user_id).map (fun w => w + signedAmount e)) ∧
    (∀ v, (∀ e ∈ l, e.user_id ≠ v) → walletOf s1 v = walletOf s v)

/-! ## Auxiliary functions of the proofs -/

/-- The `amount_earned` the batch loop writes for a selected row. -/
def batchRowBase (userLevel : Nat) (row : UserProduct × Product) : ℚ :=
  round2 (jsAdd (batchRowPrice row.1 row.2 userLevel) row.1.manual_bonus)

/-- The `commission_earned` the batch loop writes for a selected row. -/
def batchRowCommission (userLevel : Nat) (rate : ℚ) (row : UserProduct × Product) : ℚ :=
  round2 (jsMul (batchRowPrice row.1 row.2 userLevel) rate)

/-- The number of rows of a batch times the total of the absolute prices,
bonuses and commissions of its rows: the magnitude that bounds the rounding
error of the running sums. -/
def batchMagnitude (rows : List (UserProduct × Product)) (userLevel : Nat) (rate : ℚ) : ℚ :=
  (rows.length : ℚ) * (rows.map (fun row =>
    |batchRowPrice row.1 row.2 userLevel| + |row.1.manual_bonus|
      + |batchRowCommission userLevel rate row|)).sum

/-- What the batch loop over `rows` makes of one stored row: each selected
row in turn rewrites the stored rows carrying its id. -/
def batchRowAfter (clk : Clock) (userLevel : Nat) (rate : ℚ)
    (rows : List (UserProduct × Product)) (r : UserProduct) : UserProduct :=
  rows.foldl (fun r1 row =>
    if r1.id = row.1.id then
      markCompleted clk (batchRowBase userLevel row) (batchRowCommission userLevel rate row) r1
    else r1) r

/-- The scenario store with the wallet of user 1 at -5.00. -/
def negativeStore : Store :=
  { scenarioStore with users := [{ sampleUser with wallet_balance := -5 }] }

/-- The price a single assignment works with once its arguments are accepted:
the custom price when one is given, else the level price of the product. -/
def requestedPrice (p : Product) (userLevel : Nat) (customPrice : PriceArg) : ℚ :=
  match customPrice with
  | .num q => q
  | _ => levelPrice p userLevel

/-- The `custom_price` a single assignment leaves in its row: the custom
price as the column keeps it, or null. -/
def storedCustomPrice (customPrice : PriceArg) : Option ℚ :=
  match customPrice with
  | .num q => some (decimal2 q)
  | _ => none

/-- The base amount of a single assignment, `round2 (jsAdd price bonus)`. -/
def requestedBase (p : Product) (userLevel : Nat) (manualBonus : Option ℚ)
    (customPrice : PriceArg) : ℚ :=
  round2 (jsAdd (requestedPrice p userLevel customPrice) (cleanBonus manualBonus))

/-- The `previousBase` the single assignment computes from the row it finds;
0 when it finds none. -/
def previousBaseOf (p : Product) (userLevel : Nat) (existing : Option UserProduct) : ℚ :=
  match existing with
  | none => 0
  | some e =>
    round2 (jsAdd (match e.custom_price with
                   | some c => c
                   | none => levelPrice p userLevel) e.manual_bonus)

/-- The `priceToUse` of a single assignment: the custom price as the request
gives it, or null. -/
def priceToUseOf (customPrice : PriceArg) : Option ℚ :=
  match customPrice with
  | .num q => some q
  | _ => none

/-- The base amount a later single assignment computes from the row that a
single assignment with these arguments leaves: the custom price is read back
as its column keeps it. -/
def storedBase (p : Product) (userLevel : Nat) (manualBonus : Option ℚ)
    (customPrice : PriceArg) : ℚ :=
  round2 (jsAdd (match storedCustomPrice customPrice with
                 | some c => c
                 | none => levelPrice p userLevel) (cleanBonus manualBonus))

/-- The `amountDifference` of a single assignment with these arguments as it
reaches the deadband test: the base amount when no row exists, else the
difference in doubles of the base amount and the previous one, rounded to 2
decimals. -/
def differenceOf (p : Product) (userLevel : Nat) (manualBonus : Option ℚ)
    (customPrice : PriceArg) (existing : Option UserProduct) : ℚ :=
  match existing with
  | none => requestedBase p userLevel manualBonus customPrice
  | some e =>
    round2 (jsSub (requestedBase p userLevel manualBonus customPrice)
      (previousBaseOf p userLevel (some e)))

/-- The row the single assignment makes of an existing row. -/
def resetRow (clk : Clock) (bonus : ℚ) (priceToUse : Option ℚ) (r : UserProduct) : UserProduct :=
  { r with status := .pending, manual_bonus := bonus, custom_price := priceToUse,
           is_manual := true, assigned_date := clk.today, amount_earned := 0,
           commission_earned := 0, submitted_at := none }

/-- The row the single assignment inserts when it finds none. -/
def freshRow (s : Store) (clk : Clock) (userId productId : Nat) (bonus : ℚ)
    (priceToUse : Option ℚ) : UserProduct :=
  { id := freshId s.user_products, user_id := userId, product_id := productId,
    assigned_date := clk.today, status := .pending, amount_earned := 0,
    commission_earned := 0, manual_bonus := bonus, custom_price := priceToUse,
    is_manual := true, submitted_at := none }

/-- The event a single assignment writes for a non-zero difference. -/
def adjustmentEvent (clk : Clock) (userId : Nat) (productName : String) (d : ℚ) :
    BalanceEvent :=
  { user_id := userId, type := .manual_adjustment, amount := |d|,
    reference_date := some clk.today,
    details := if d ≥ 0 then .manualAssignment productName else .manualRefund productName }

/-- A run of single assignments of one product to one user, each with its own
bonus and custom price. -/
def assignRepeatedly (clk : Clock) (userId productId : Nat) :
    List (Option ℚ × PriceArg) → Store → Store
  | [], s => s
  | a :: rest, s =>
    assignRepeatedly clk userId productId rest
      (assignSingleTask s clk userId productId a.1 a.2).1

/-- Every call of the run answers `ok`. -/
def allAssignmentsSucceed (clk : Clock) (userId productId : Nat) :
    List (Option ℚ × PriceArg) → Store → Bool
  | [], _ => true
  | a :: rest, s =>
    decide ((assignSingleTask s clk userId productId a.1 a.2).2 = .ok) &&
    allAssignmentsSucceed clk userId productId rest
      (assignSingleTask s clk userId productId a.1 a.2).1

/-- The assignment table after the upsert of a single assignment: the row
found is rewritten in place, or a fresh row is appended. -/
def upsertRows (s : Store) (clk : Clock) (userId productId : Nat) (bonus : ℚ)
    (priceToUse : Option ℚ) : Store :=
  match findExisting s clk userId productId with
  | some existing => updateUserProduct s existing.id (resetRow clk bonus priceToUse)
  | none =>
    { s with user_products := s.user_products ++
        [freshRow s clk userId productId bonus priceToUse] }

/-- The price test of the single assignment: a custom price must be a number
that is not negative; without one the level price of the product must be
positive. -/
def priceAccepted (p : Product) (userLevel : Nat) (customPrice : PriceArg) : Bool :=
  match customPrice with
  | .notANumber => false
  | .num q => decide (0 ≤ q)
  | .absent => decide (levelPrice p userLevel > 0)

/-- The `amountDifference` of the single assignment as it reaches the
deadband test: `round2 (jsSub baseAmount previousBase)` when a row exists, the
base amount itself when none does. -/
def computedDifference (s : Store) (clk : Clock) (u : User) (p : Product)
    (price bonus : ℚ) : ℚ :=
  match findExisting s clk u.id p.id with
  | some existing =>
    round2 (jsSub (round2 (jsAdd price bonus))
      (round2 (jsAdd (match existing.custom_price with
                      | some c => c
                      | none => levelPrice p (levelOr1 u.level)) existing.manual_bonus)))
  | none => round2 (jsAdd price bonus)

/-- The key of the unique index of `user_products`. -/
def keyOf (r : UserProduct) : Nat × Nat × Nat :=
  (r.user_id, r.product_id, r.assigned_date)

/-- The assignment rows of `s1` that come after those of `s`. -/
def appendedRows (s s1 : Store) : List UserProduct :=
  s1.user_products.drop s.user_products.length

/-- The balance events of `s1` that come after those of `s`. -/
def appendedEvents (s s1 : Store) : List BalanceEvent :=
  s1.balance_events.drop s.balance_events.length

/-- The number of `assignment_debit` events of a user for a day. -/
def debitCount (s : Store) (userId day : Nat) : Nat :=
  (s.balance_events.filter (fun e =>
    e.user_id = userId ∧ e.type = .assignment_debit ∧ e.reference_date = some day)).length

/-- The event bulk assignment writes for a user debited `total`. -/
def debitEvent (clk : Clock) (userId : Nat) (dailyLimit : Int) (total : ℚ) : BalanceEvent :=
  { user_id := userId, type := .assignment_debit, amount := total,
    reference_date := some clk.today, details := .assigned dailyLimit }

/-- What a successful bulk run does for one processed user `u`, `l` being
the events the run appended: nothing when the user already had an
`assignment_debit` event today; otherwise the level is a valid price column
and, with `T` the level-priced total of the user's automatic rows of today,
one debit event of amount `T` and a wallet lowered by `T` when `T > 0`, and
nothing when `T` is not positive. -/
def DebitOutcome (clk : Clock) (s s1 : Store) (l : List BalanceEvent) (u : User) : Prop :=
  (debitExists s clk u.id = true →
    l.filter (fun e => e.user_id = u.id) = [] ∧ walletOf s1 u.id = walletOf s u.id) ∧
  (debitExists s clk u.id = false → ∃ lv, u.level = some lv ∧ 1 ≤ lv ∧ lv ≤ 5 ∧
    (0 < assignedTotal s1 clk u.id lv →
      l.filter (fun e => e.user_id = u.id)
        = [debitEvent clk u.id (dailyLimitOf s u.level) (assignedTotal s1 clk u.id lv)] ∧
      walletOf s1 u.id
        = (walletOf s u.id).map (fun w => w - assignedTotal s1 clk u.id lv)) ∧
    (¬ 0 < assignedTotal s1 clk u.id lv →
      l.filter (fun e => e.user_id = u.id) = [] ∧ walletOf s1 u.id = walletOf s u.id))

/-- The scenario store without assignments and with a daily limit of 0 for
level 2. -/
def limitZeroStore : Store :=
  { unassignedStore with level_settings := [{ level := 2, daily_task_limit := some 0 }] }

/-- The scenario store without assignments and with a daily limit of 3 for
level 2: one active user, one active product. -/
def limitThreeStore : Store :=
  { unassignedStore with level_settings := [{ level := 2, daily_task_limit := some 3 }] }

/-- The scenario store without assignments whose user is of level 3, at which
the product has no price. -/
def unpricedLevelStore : Store :=
  { unassignedStore with users := [{ sampleUser with level := some 3 }] }

/-- The results of the four steps assign, submit, assign again with the same
arguments, submit again. -/
structure ReassignRun where
  assigned : Store × AssignSingleResult
  submitted : Store × SubmitOneResult
  reassigned : Store × AssignSingleResult
  resubmitted : Store × SubmitOneResult

/-- The four requests in sequence, each on the store the previous one left. -/
def reassignRun (s : Store) (clk : Clock) (userId productId assignmentId : Nat)
    (manualBonus : Option ℚ) (customPrice : PriceArg) : ReassignRun :=
  let a := assignSingleTask s clk userId productId manualBonus customPrice
  let b := submitOne a.1 clk userId assignmentId
  let c := assignSingleTask b.1 clk userId productId manualBonus customPrice
  let d := submitOne c.1 clk userId assignmentId
  { assigned := a, submitted := b, reassigned := c, resubmitted := d }

/-- The scenario store without assignments after a deposit of 100.00 by user
1. -/
def fundedStore : Store :=
  (deposit unassignedStore sampleClock 1 100).1

/-- A second active product, priced 20.00 at level 2. -/
def secondProduct : Product :=
  { id := 8, name := "Q", level1_price := some 5, level2_price := some 20,
    level3_price := none, level4_price := none, level5_price := none, status := .active }

/-- The scenario store without assignments and with two active products. -/
def twoProductStore : Store :=
  { unassignedStore with products := [sampleProduct, secondProduct] }

/-- The store after a first bulk run on `twoProductStore` whose draw picks
the first product. -/
def afterFirstRun : Store :=
  (assignProductsToAllUsers twoProductStore sampleClock (fun _ => 0) []).1

/-- The number `x` has at most 2 decimal places: `100 x` is an integer. -/
def twoDecimals (x : ℚ) : Bool :=
  decide ((x * 100).den = 1)

/-- The credit recorded in the assignment row of id `upId`:
`amount_earned + commission_earned` of the first such row, 0 without one. -/
def writtenCredit (s : Store) (upId : Nat) : ℚ :=
  match s.user_products.find? (fun r => r.id = upId) with
  | some r => r.amount_earned + r.commission_earned
  | none => 0

/-- The `earned` of the single submission for a row at a level and a rate. -/
def submitOneEarned (row : UserProduct × Product) (userLevel : Nat) (rate : ℚ) : ℚ :=
  round2 (jsAdd
    (round2 (jsAdd (submitOnePrice (joinStar row.1 row.2) userLevel) row.1.manual_bonus))
    (round2 (jsMul (submitOnePrice (joinStar row.1 row.2) userLevel) rate)))

/-- The fields of a product edit, `PUT /api/admin/products/:id`: the name
(`none` when absent or empty), whether an image is uploaded, and the five
prices after `parseFloat` (`none` for NaN). -/
structure ProductEdit where
  name : Option String
  hasImage : Bool
  level1Price : Option ℚ
  level2Price : Option ℚ
  level3Price : Option ℚ
  level4Price : Option ℚ
  level5Price : Option ℚ

/-- A price column after the edit: the new value when one is given. -/
def setPrice (new old : Option ℚ) : Option ℚ :=
  match new with
  | some v => some v
  | none => old

/-- The `SET` list of the edit applied to a product row. -/
def applyEdit (e : ProductEdit) (p : Product) : Product :=
  { p with name := (match e.name with | some n => n | none => p.name),
           level1_price := setPrice e.level1Price p.level1_price,
           level2_price := setPrice e.level2Price p.level2_price,
           level3_price := setPrice e.level3Price p.level3_price,
           level4_price := setPrice e.level4Price p.level4_price,
           level5_price := setPrice e.level5Price p.level5_price }

/-- What the edit of product `productId` makes of a product row. -/
def editedProduct (productId : Nat) (e : ProductEdit) (p : Product) : Product :=
  if p.id = productId then applyEdit e p else p

/-- The handler of `PUT /api/admin/products/:id`; `false` is the 400 response
of an edit without fields. -/
def editProduct (s : Store) (productId : Nat) (e : ProductEdit) : Store × Bool :=
  if e.name = none ∧ e.hasImage = false ∧ e.level1Price = none ∧ e.level2Price = none ∧
      e.level3Price = none ∧ e.level4Price = none ∧ e.level5Price = none then (s, false)
  else ({ s with products := s.products.map (editedProduct productId e) }, true)

/-- The `totalCredit` of a batch over `rows`. -/
def batchCredit (rows : List (UserProduct × Product)) (userLevel : Nat) (rate : ℚ) : ℚ :=
  round2 (fl (jsAdd
      (round2 (jsSumFrom 0 (rows.map (fun row => batchRowPrice row.1 row.2 userLevel))))
      (round2 (jsSumFrom 0 (rows.map (fun row => row.1.manual_bonus))))
    + fl (round2 (jsSumFrom 0 (rows.map (batchRowCommission userLevel rate))))))

/-- The answer of the single submission for a row at a price, a wallet
balance and a rate, once the row is found. -/
def submitOneAnswer (price bonus currentBalance rate : ℚ) : SubmitOneResult :=
  if currentBalance < 0 then .insufficientBalance |currentBalance| price currentBalance
  else .ok (round2 (jsAdd (round2 (jsAdd price bonus)) (round2 (jsMul price rate))))
    (round2 (jsAdd price bonus)) (round2 (jsMul price rate)) bonus

/-- The edit that sets the level-2 price to 20.00. -/
def sampleEdit : ProductEdit :=
  { name := none, hasImage := false, level1Price := none, level2Price := some 20,
    level3Price := none, level4Price := none, level5Price := none }

/-! ## The handlers under a storage failure

The storage steps of a request (its queries and, in a transaction, its
`commit`) are numbered from 0 in the order the handler issues them.  `fault`
names the step that fails, `none` when none does.  A failing step throws: the
handler answers 500, here `none`. -/

/-- `conn.rollback()`: the store is again the one at `beginTransaction`,
whatever the transaction wrote into its view. -/
def rollback (atBegin _view : Store) : Store :=
  atBegin

/-- `POST /api/user/submit-product/:id` under a storage failure.  Steps: 0
the join, 1 the user, 2 the commission rate, 3 the row update, 4 the user
update, 5 `commit`.  The `catch` rolls the transaction back. -/
def submitOneFaulty (s : Store) (clk : Clock) (userId assignmentId : Nat)
    (fault : Option Nat) : Store × Option SubmitOneResult :=
  if fault = some 0 then (rollback s s, none)
  else
    match submitOneLookup s userId assignmentId with
    | none => (rollback s s, some .notFound)
    | some (up, p) =>
      let row := joinStar up p
      if row.status = "completed" then (rollback s s, some .alreadyCompleted)
      else if fault = some 1 then (rollback s s, none)
      else
        let user := findUser s userId
        let userLevel := levelOr1 (match user with | some u => u.level | none => none)
        let currentBalance : ℚ := match user with | some u => u.wallet_balance | none => 0
        let price := submitOnePrice row userLevel
        if currentBalance < 0 then
          (rollback s s, some (.insufficientBalance |currentBalance| price currentBalance))
        else if fault = some 2 then (rollback s s, none)
        else
          let rate := rateOf s userLevel
          let commission := round2 (jsMul price rate)
          let manualBonus := row.manual_bonus
          let baseAmount := round2 (jsAdd price manualBonus)
          let earned := round2 (jsAdd baseAmount commission)
          if fault = some 3 then (rollback s s, none)
          else
            let s1 := updateUserProduct s assignmentId (markCompleted clk baseAmount commission)
            if fault = some 4 then (rollback s s1, none)
            else
              let s2 := updateUser s1 userId (fun u =>
                { u with wallet_balance := u.wallet_balance + earned,
                         commission_earned := u.commission_earned + commission,
                         tasks_completed_at_level := u.tasks_completed_at_level + 1,
                         total_tasks_completed := u.total_tasks_completed + 1 })
              if fault = some 5 then (rollback s s2, none)
              else (s2, some (.ok earned baseAmount commission manualBonus))

/-- The row loop of the batch under a storage failure: the update of the
`i`-th selected row is step `k + i`; `none` when it throws. -/
def submitTodayLoopFaulty (clk : Clock) (userLevel : Nat) (rate : ℚ) (fault : Option Nat) :
    List (UserProduct × Product) → Nat → Store × BatchTotals → Option (Store × BatchTotals)
  | [], _, acc => some acc
  | row :: rows, k, acc =>
    if fault = some k then none
    else
      submitTodayLoopFaulty clk userLevel rate fault rows (k + 1)
        (submitTodayStep clk userLevel rate acc row)

/-- `POST /api/user/submit-today` under a storage failure.  Steps: 0 the
user, 1 the commission rate, 2 the selection of rows, then one per row update,
then the user update, the event insert and `commit`.  The `catch` rolls the
transaction back. -/
def submitAllTodayFaulty (s : Store) (clk : Clock) (userId : Nat) (fault : Option Nat) :
    Store × Option SubmitTodayResult :=
  if fault = some 0 then (rollback s s, none)
  else
    match findUser s userId with
    | none => (rollback s s, some .userNotFound)
    | some userRow =>
      let userLevel := levelOr1 userRow.level
      if fault = some 1 then (rollback s s, none)
      else
        let rate := rateOf s userLevel
        if fault = some 2 then (rollback s s, none)
        else
          let rows := submitTodayRows s clk userId
          if rows.length = 0 then (rollback s s, some .noPendingTasks)
          else
            match submitTodayLoopFaulty clk userLevel rate fault rows 3 (s, ⟨0, 0, 0⟩) with
            | none => (rollback s s, none)
            | some looped =>
              let totalPrice := round2 looped.2.totalPrice
              let totalManualBonus := round2 looped.2.totalManualBonus
              let totalCommission := round2 looped.2.totalCommission
              let totalCredit :=
                round2 (fl (jsAdd totalPrice totalManualBonus + fl totalCommission))
              if fault = some (3 + rows.length) then (rollback s looped.1, none)
              else
                let s2 := updateUser looped.1 userId (fun u =>
                  { u with wallet_balance := u.wallet_balance + totalCredit,
                           commission_earned := u.commission_earned + totalCommission,
                           tasks_completed_at_level := u.tasks_completed_at_level + rows.length,
                           total_tasks_completed := u.total_tasks_completed + rows.length })
                if fault = some (3 + rows.length + 1) then (rollback s s2, none)
                else
                  let s3 := insertEvent s2
                    { user_id := userId, type := .submission_credit, amount := totalCredit,
                      reference_date := some clk.today, details := .submitted rows.length }
                  if fault = some (3 + rows.length + 2) then (rollback s s3, none)
                  else
                    (s3, some (.ok rows.length totalPrice totalManualBonus totalCommission
                      totalCredit))

/-- The wallet and ledger part of the single assignment under a storage
failure: step 4 is the user update, step 5 the event insert.  The queries go
to the pool one by one, so what was written before a failing step stays.  The
flag tells whether the part ran to its end. -/
def applyDifferenceFaulty (s : Store) (clk : Clock) (userId : Nat) (productName : String)
    (amountDifference : ℚ) (fault : Option Nat) : Store × Bool :=
  if amountDifference ≠ 0 then
    if fault = some 4 then (s, false)
    else
      let s1 := updateUser s userId (fun u =>
        { u with wallet_balance := u.wallet_balance - amountDifference })
      if fault = some 5 then (s1, false)
      else
        (insertEvent s1
          { user_id := userId, type := .manual_adjustment, amount := |amountDifference|,
            reference_date := some clk.today,
            details := if amountDifference ≥ 0 then .manualAssignment productName
                       else .manualRefund productName }, true)
  else (s, true)

/-- The upsert of the single assignment under a storage failure: step 2 is
the lookup of the existing row, step 3 the update or insert of the row. -/
def upsertAssignmentFaulty (s : Store) (clk : Clock) (userRow : User) (productRow : Product)
    (price bonus : ℚ) (priceToUse : Option ℚ) (fault : Option Nat) : Store × Bool :=
  let baseAmount := round2 (jsAdd price bonus)
  if fault = some 2 then (s, false)
  else
    match findExisting s clk userRow.id productRow.id with
    | some existing =>
      let previousBonus := existing.manual_bonus
      let previousPrice :=
        match existing.custom_price with
        | some c => c
        | none => levelPrice productRow (levelOr1 userRow.level)
      let previousBase := round2 (jsAdd previousPrice previousBonus)
      let amountDifference := round2 (jsSub baseAmount previousBase)
      if fault = some 3 then (s, false)
      else
        let s1 := updateUserProduct s existing.id (fun r =>
          { r with status := .pending, manual_bonus := bonus,
                   custom_price := priceToUse.map decimal2,
                   is_manual := true, assigned_date := clk.today, amount_earned := 0,
                   commission_earned := 0, submitted_at := none })
        applyDifferenceFaulty s1 clk userRow.id productRow.name (deadband amountDifference)
          fault
    | none =>
      if fault = some 3 then (s, false)
      else
        let s1 : Store := { s with user_products := s.user_products ++
          [{ id := freshId s.user_products, user_id := userRow.id, product_id := productRow.id,
             assigned_date := clk.today, status := .pending, amount_earned := 0,
             commission_earned := 0, manual_bonus := bonus,
             custom_price := priceToUse.map decimal2,
             is_manual := true, submitted_at := none }] }
        applyDifferenceFaulty s1 clk userRow.id productRow.name (deadband baseAmount) fault

/-- The answer of the single assignment for the flag of its upsert. -/
def upsertAnswer (r : Store × Bool) : Store × Option AssignSingleResult :=
  (r.1, if r.2 then some .ok else none)

/-- `POST /api/admin/assign-product-to-user` under a storage failure.  Steps:
0 the user, 1 the product, 2 the existing row, 3 the row update or insert, 4
the user update, 5 the event insert.  The handler opens no transaction. -/
def assignSingleTaskFaulty (s : Store) (clk : Clock) (userId productId : Nat)
    (manualBonus : Option ℚ) (customPrice : PriceArg) (fault : Option Nat) :
    Store × Option AssignSingleResult :=
  if userId = 0 ∨ productId = 0 then (s, some .missingField)
  else
    let bonus := cleanBonus manualBonus
    if fault = some 0 then (s, none)
    else
      match findUser s userId with
      | none => (s, some .userNotFound)
      | some userRow =>
        if fault = some 1 then (s, none)
        else
          match findProduct s productId with
          | none => (s, some .productUnavailable)
          | some productRow =>
            if productRow.status ≠ .active then (s, some .productUnavailable)
            else
              match customPrice with
              | .notANumber => (s, some .invalidCustomPrice)
              | .num customPriceNum =>
                if customPriceNum < 0 then (s, some .invalidCustomPrice)
                else
                  upsertAnswer (upsertAssignmentFaulty s clk userRow productRow customPriceNum
                    bonus (some customPriceNum) fault)
              | .absent =>
                let price := levelPrice productRow (levelOr1 userRow.level)
                if ¬ (price > 0) then (s, some .invalidProductPrice)
                else
                  upsertAnswer
                    (upsertAssignmentFaulty s clk userRow productRow price bonus none fault)

/-! ## Lemmas on rounding -/

theorem round2_zero : round2 0 = 0 := by
  decide!

theorem round2_of_hundredths (n : ℤ) : round2 ((n : ℚ) / 100) = (n : ℚ) / 100 := by
  unfold round2
  by_cases h : (0 : ℚ) ≤ (n : ℚ) / 100
  · rw [if_pos h]
    have e : (n : ℚ) / 100 * 100 + 1 / 2 = (n : ℚ) + 1 / 2 := by ring
    rw [e, Int.floor_int_add]
    have hf : ⌊(1 / 2 : ℚ)⌋ = 0 := by
      rw [Int.floor_eq_iff]; constructor <;> norm_num
    rw [hf]; simp
  · rw [if_neg h]
    have e : -((n : ℚ) / 100) * 100 + 1 / 2 = ((-n : ℤ) : ℚ) + 1 / 2 := by
      push_cast; ring
    rw [e, Int.floor_int_add]
    have hf : ⌊(1 / 2 : ℚ)⌋ = 0 := by
      rw [Int.floor_eq_iff]; constructor <;> norm_num
    rw [hf]; push_cast; ring

theorem round2_hundredths (x : ℚ) : ∃ n : ℤ, round2 x = (n : ℚ) / 100 := by
  unfold round2
  split
  · exact ⟨_, rfl⟩
  · exact ⟨-⌊-x * 100 + 1 / 2⌋, by push_cast; ring⟩

theorem round2_round2 (x : ℚ) : round2 (round2 x) = round2 x := by
  obtain ⟨n, hn⟩ := round2_hundredths x
  rw [hn, round2_of_hundredths]

theorem round2_sub_round2 (x y : ℚ) : round2 (round2 x - round2 y) = round2 x - round2 y := by
  obtain ⟨n, hn⟩ := round2_hundredths x
  obtain ⟨m, hm⟩ := round2_hundredths y
  have e : (n : ℚ) / 100 - (m : ℚ) / 100 = ((n - m : ℤ) : ℚ) / 100 := by push_cast; ring
  rw [hn, hm, e, round2_of_hundredths]

theorem round2_nonneg {x : ℚ} (h : 0 ≤ x) : 0 ≤ round2 x := by
  unfold round2
  rw [if_pos h]
  apply div_nonneg _ (by norm_num)
  have : (0 : ℤ) ≤ ⌊x * 100 + 1 / 2⌋ := Int.floor_nonneg.mpr (by positivity)
  exact_mod_cast this

theorem deadband_of_hundredths (n : ℤ) : deadband ((n : ℚ) / 100) = (n : ℚ) / 100 := by
  unfold deadband
  split
  · rename_i h
    have h1 : |(n : ℚ)| < 1 / 2 := by
      rw [abs_div] at h
      have h100 : |(100 : ℚ)| = 100 := abs_of_pos (by norm_num)
      rw [h100, div_lt_iff₀ (by norm_num)] at h
      linarith
    have h2 : |n| < 1 := by
      have : ((|n| : ℤ) : ℚ) < 1 := by
        rw [Int.cast_abs]; linarith
      exact_mod_cast this
    have h3 : n = 0 := Int.abs_lt_one_iff.mp h2
    simp [h3]
  · rfl

theorem deadband_round2 (x : ℚ) : deadband (round2 x) = round2 x := by
  obtain ⟨n, hn⟩ := round2_hundredths x
  rw [hn, deadband_of_hundredths]

theorem round2_add_round2 (x y : ℚ) : round2 (round2 x + round2 y) = round2 x + round2 y := by
  obtain ⟨n, hn⟩ := round2_hundredths x
  obtain ⟨m, hm⟩ := round2_hundredths y
  have e : (n : ℚ) / 100 + (m : ℚ) / 100 = ((n + m : ℤ) : ℚ) / 100 := by push_cast; ring
  rw [hn, hm, e, round2_of_hundredths]

theorem hundredths_of_twoDecimals {x : ℚ} (h : twoDecimals x = true) :
    ∃ n : ℤ, x = (n : ℚ) / 100 := by
  unfold twoDecimals at h
  have h1 := Rat.coe_int_num_of_den_eq_one (of_decide_eq_true h)
  exact ⟨(x * 100).num, by rw [h1]; ring⟩

theorem round2_of_cents {x : ℚ} (h : ∃ n : ℤ, x = (n : ℚ) / 100) : round2 x = x := by
  obtain ⟨n, rfl⟩ := h
  exact round2_of_hundredths n

theorem cents_add {x y : ℚ} (hx : ∃ n : ℤ, x = (n : ℚ) / 100)
    (hy : ∃ n : ℤ, y = (n : ℚ) / 100) : ∃ n : ℤ, x + y = (n : ℚ) / 100 := by
  obtain ⟨n, rfl⟩ := hx
  obtain ⟨m, rfl⟩ := hy
  exact ⟨n + m, by push_cast; ring⟩

theorem cents_sum {α : Type} (l : List α) (f : α → ℚ)
    (h : ∀ a ∈ l, ∃ n : ℤ, f a = (n : ℚ) / 100) : ∃ n : ℤ, (l.map f).sum = (n : ℚ) / 100 := by
  induction l with
  | nil => exact ⟨0, by simp⟩
  | cons a t ih =>
    rw [List.map_cons, List.sum_cons]
    exact cents_add (h a (List.mem_cons_self _ _))
      (ih (fun b hb => h b (List.mem_cons_of_mem _ hb)))

theorem sum_map_add3 {α : Type} (l : List α) (f g k : α → ℚ) :
    (l.map (fun a => f a + g a + k a)).sum
      = (l.map f).sum + (l.map g).sum + (l.map k).sum := by
  induction l with
  | nil => simp
  | cons a t ih =>
    simp only [List.map_cons, List.sum_cons, ih]
    ring

theorem sum_map_congr {α : Type} (l : List α) (f g : α → ℚ) (h : ∀ a ∈ l, f a = g a) :
    (l.map f).sum = (l.map g).sum := by
  rw [List.map_congr_left h]

/-! ## Lemmas on doubles -/

theorem abs_roundEven_sub_le (x : ℚ) : |(roundEven x : ℚ) - x| ≤ 1 / 2 := by
  have h1 : (⌊x⌋ : ℚ) ≤ x := Int.floor_le x
  have h2 : x < (⌊x⌋ : ℚ) + 1 := Int.lt_floor_add_one x
  unfold roundEven
  split_ifs with ha hb hc
  · rw [abs_le]; constructor <;> linarith
  · push_cast; rw [abs_le]; constructor <;> linarith
  · rw [abs_le]; constructor <;> linarith
  · push_cast; rw [abs_le]; constructor <;> linarith

theorem fl_zero : fl 0 = 0 := by
  simp [fl]

theorem fl_error (x : ℚ) : |fl x - x| ≤ |x| / 2 ^ 53 := by
  by_cases hx : x = 0
  · simp [hx, fl_zero]
  · have hpos : 0 < |x| := abs_pos.mpr hx
    have hp : (0 : ℚ) < (2 : ℚ) ^ (Int.log 2 |x| - 52) := zpow_pos (by norm_num) _
    have hlog : ((2 : ℕ) : ℚ) ^ Int.log 2 |x| ≤ |x| := Int.zpow_log_le_self (by norm_num) hpos
    have hsplit : (2 : ℚ) ^ Int.log 2 |x| = (2 : ℚ) ^ (Int.log 2 |x| - 52) * 2 ^ 52 := by
      rw [zpow_sub₀ (by norm_num : (2 : ℚ) ≠ 0)]
      have : (2 : ℚ) ^ (52 : ℤ) = 2 ^ 52 := by norm_cast
      rw [this]
      field_simp
    have hr := abs_roundEven_sub_le (x / (2 : ℚ) ^ (Int.log 2 |x| - 52))
    have e : fl x - x
        = ((roundEven (x / (2 : ℚ) ^ (Int.log 2 |x| - 52)) : ℚ)
            - x / (2 : ℚ) ^ (Int.log 2 |x| - 52)) * (2 : ℚ) ^ (Int.log 2 |x| - 52) := by
      unfold fl
      rw [if_neg hx]
      field_simp
    rw [e, abs_mul, abs_of_pos hp]
    push_cast at hlog
    rw [hsplit] at hlog
    calc |(roundEven (x / (2 : ℚ) ^ (Int.log 2 |x| - 52)) : ℚ)
            - x / (2 : ℚ) ^ (Int.log 2 |x| - 52)| * (2 : ℚ) ^ (Int.log 2 |x| - 52)
        ≤ 1 / 2 * (2 : ℚ) ^ (Int.log 2 |x| - 52) := by
          exact mul_le_mul_of_nonneg_right hr hp.le
      _ = (2 : ℚ) ^ (Int.log 2 |x| - 52) * 2 ^ 52 / 2 ^ 53 := by ring
      _ ≤ |x| / 2 ^ 53 := by
          apply div_le_div_of_nonneg_right hlog (by positivity)

theorem fl_pos {x : ℚ} (h : 0 < x) : 0 < fl x := by
  have he := fl_error x
  rw [abs_of_pos h] at he
  have := (abs_le.mp he).1
  have hx : x / 2 ^ 53 < x := by
    rw [div_lt_iff₀ (by positivity)]
    nlinarith
  linarith

theorem fl_neg {x : ℚ} (h : x < 0) : fl x < 0 := by
  have he := fl_error x
  rw [abs_of_neg h] at he
  have := (abs_le.mp he).2
  have hx : -x / 2 ^ 53 < -x := by
    rw [div_lt_iff₀ (by positivity)]
    nlinarith
  linarith

theorem fl_pos_iff (x : ℚ) : 0 < fl x ↔ 0 < x := by
  constructor
  · intro h
    rcases lt_trichotomy x 0 with hx | hx | hx
    · exact absurd (fl_neg hx) (not_lt.mpr h.le)
    · rw [hx, fl_zero] at h; exact absurd h (lt_irrefl _)
    · exact hx
  · exact fl_pos

theorem fl_neg_iff (x : ℚ) : fl x < 0 ↔ x < 0 := by
  constructor
  · intro h
    rcases lt_trichotomy x 0 with hx | hx | hx
    · exact hx
    · rw [hx, fl_zero] at h; exact absurd h (lt_irrefl _)
    · exact absurd (fl_pos hx) (not_lt.mpr h.le)
  · exact fl_neg

/-- A value within half a cent of a whole number of cents is rounded to it. -/
theorem round2_of_near (y : ℚ) (k : ℤ) (h : |y - (k : ℚ) / 100| < 1 / 200) :
    round2 y = (k : ℚ) / 100 := by
  rw [abs_lt] at h
  unfold round2
  split_ifs with hy
  · have : ⌊y * 100 + 1 / 2⌋ = k := by
      rw [Int.floor_eq_iff]
      constructor <;> linarith
    rw [this]
  · have : ⌊-y * 100 + 1 / 2⌋ = -k := by
      rw [Int.floor_eq_iff]
      push_cast
      constructor <;> linarith
    rw [this]
    push_cast
    ring

theorem round2_of_near_cents {y t : ℚ} (ht : ∃ k : ℤ, t = (k : ℚ) / 100)
    (h : |y - t| < 1 / 200) : round2 y = t := by
  obtain ⟨k, rfl⟩ := ht
  exact round2_of_near y k h

/-- Rounding to a double a value near `t` stays near `t`. -/
theorem fl_approx {x t d : ℚ} (h : |x - t| ≤ d) : |fl x - t| ≤ d + (|t| + d) / 2 ^ 53 := by
  have he := fl_error x
  have hx : |x| ≤ |t| + d := by
    calc |x| = |(x - t) + t| := by ring_nf
      _ ≤ |x - t| + |t| := abs_add _ _
      _ ≤ |t| + d := by linarith
  have h2 : |x| / 2 ^ 53 ≤ (|t| + d) / 2 ^ 53 :=
    div_le_div_of_nonneg_right hx (by positivity)
  calc |fl x - t| = |(fl x - x) + (x - t)| := by ring_nf
    _ ≤ |fl x - x| + |x - t| := abs_add _ _
    _ ≤ d + (|t| + d) / 2 ^ 53 := by linarith

theorem fl_error_le {x m : ℚ} (h : |x| ≤ m) : |fl x - x| ≤ m / 2 ^ 53 :=
  (fl_error x).trans (div_le_div_of_nonneg_right h (by positivity))

/-- The sum of two decimals as doubles, against their sum. -/
theorem jsAdd_error {a b m : ℚ} (h : |a| + |b| ≤ m) :
    |jsAdd a b - (a + b)| ≤ m / 2 ^ 53 + (m + m / 2 ^ 53) / 2 ^ 53 := by
  have ha := fl_error a
  have hb := fl_error b
  have h1 : |fl a + fl b - (a + b)| ≤ m / 2 ^ 53 := by
    calc |fl a + fl b - (a + b)| = |(fl a - a) + (fl b - b)| := by ring_nf
      _ ≤ |fl a - a| + |fl b - b| := abs_add _ _
      _ ≤ |a| / 2 ^ 53 + |b| / 2 ^ 53 := add_le_add ha hb
      _ = (|a| + |b|) / 2 ^ 53 := by ring
      _ ≤ m / 2 ^ 53 := div_le_div_of_nonneg_right h (by positivity)
  have h2 := fl_approx h1
  have h3 : |a + b| ≤ |a| + |b| := abs_add _ _
  unfold jsAdd
  have h5 : (|a + b| + m / 2 ^ 53) / 2 ^ 53 ≤ (m + m / 2 ^ 53) / 2 ^ 53 :=
    div_le_div_of_nonneg_right (by linarith) (by positivity)
  linarith

/-- The difference of two decimals as doubles, against their difference. -/
theorem jsSub_error {a b m : ℚ} (h : |a| + |b| ≤ m) :
    |jsSub a b - (a - b)| ≤ m / 2 ^ 53 + (m + m / 2 ^ 53) / 2 ^ 53 := by
  have ha := fl_error a
  have hb := fl_error b
  have h1 : |fl a - fl b - (a - b)| ≤ m / 2 ^ 53 := by
    calc |fl a - fl b - (a - b)| = |(fl a - a) + -(fl b - b)| := by ring_nf
      _ ≤ |fl a - a| + |-(fl b - b)| := abs_add _ _
      _ = |fl a - a| + |fl b - b| := by rw [abs_neg]
      _ ≤ |a| / 2 ^ 53 + |b| / 2 ^ 53 := add_le_add ha hb
      _ = (|a| + |b|) / 2 ^ 53 := by ring
      _ ≤ m / 2 ^ 53 := div_le_div_of_nonneg_right h (by positivity)
  have h2 := fl_approx h1
  have h3 : |a - b| ≤ |a| + |b| := abs_sub _ _
  unfold jsSub
  have h5 : (|a - b| + m / 2 ^ 53) / 2 ^ 53 ≤ (m + m / 2 ^ 53) / 2 ^ 53 :=
    div_le_div_of_nonneg_right (by linarith) (by positivity)
  linarith

theorem cents_neg {x : ℚ} (hx : ∃ n : ℤ, x = (n : ℚ) / 100) : ∃ n : ℤ, -x = (n : ℚ) / 100 := by
  obtain ⟨n, rfl⟩ := hx
  exact ⟨-n, by push_cast; ring⟩

theorem cents_sub {x y : ℚ} (hx : ∃ n : ℤ, x = (n : ℚ) / 100)
    (hy : ∃ n : ℤ, y = (n : ℚ) / 100) : ∃ n : ℤ, x - y = (n : ℚ) / 100 := by
  obtain ⟨n, rfl⟩ := hx
  obtain ⟨m, rfl⟩ := hy
  exact ⟨n - m, by push_cast; ring⟩

/-- The sum of two amounts of 2 decimals, computed on doubles and rounded to
2 decimals, is their sum. -/
theorem round2_jsAdd_cents {a b : ℚ} (ha : ∃ n : ℤ, a = (n : ℚ) / 100)
    (hb : ∃ n : ℤ, b = (n : ℚ) / 100) (h : |a| + |b| ≤ 10 ^ 13) :
    round2 (jsAdd a b) = a + b := by
  apply round2_of_near_cents (cents_add ha hb)
  have h1 := jsAdd_error h
  have h2 : (10 : ℚ) ^ 13 / 2 ^ 53 + (10 ^ 13 + 10 ^ 13 / 2 ^ 53) / 2 ^ 53 < 1 / 200 := by
    norm_num
  linarith

/-- The difference of two amounts of 2 decimals, computed on doubles and
rounded to 2 decimals, is their difference. -/
theorem round2_jsSub_cents {a b : ℚ} (ha : ∃ n : ℤ, a = (n : ℚ) / 100)
    (hb : ∃ n : ℤ, b = (n : ℚ) / 100) (h : |a| + |b| ≤ 10 ^ 13) :
    round2 (jsSub a b) = a - b := by
  apply round2_of_near_cents (cents_sub ha hb)
  have h1 := jsSub_error h
  have h2 : (10 : ℚ) ^ 13 / 2 ^ 53 + (10 ^ 13 + 10 ^ 13 / 2 ^ 53) / 2 ^ 53 < 1 / 200 := by
    norm_num
  linarith

/-- The running total of a list of decimals, started at a double near `S`. -/
theorem jsSumFrom_error (A : ℚ) (cs : List ℚ) :
    ∀ (t S d : ℚ), 0 ≤ d → |t - S| ≤ d → |S| + (cs.map (fun c => |c|)).sum ≤ A →
      d + 4 * A / 2 ^ 53 * cs.length ≤ A →
      |jsSumFrom t cs - (S + cs.sum)| ≤ d + 4 * A / 2 ^ 53 * cs.length := by
  induction cs with
  | nil =>
    intro t S d _ h _ _
    simpa [jsSumFrom] using h
  | cons c cs ih =>
    intro t S d hd h hA hlen
    have hsum : 0 ≤ (cs.map (fun c => |c|)).sum :=
      List.sum_nonneg (by intro x hx; obtain ⟨y, _, rfl⟩ := List.mem_map.mp hx; exact abs_nonneg y)
    simp only [List.map_cons, List.sum_cons, List.length_cons, Nat.cast_add, Nat.cast_one]
      at hA hlen ⊢
    have hA0 : 0 ≤ A := by
      have := abs_nonneg S
      have := abs_nonneg c
      linarith
    have hlen0 : (0 : ℚ) ≤ cs.length := Nat.cast_nonneg _
    have hq : 0 ≤ 4 * A / 2 ^ 53 := by positivity
    have hdA : d ≤ A := by nlinarith
    have hc : |fl c - c| ≤ A / 2 ^ 53 := fl_error_le (by linarith [abs_nonneg S])
    have h1 : |t + fl c - (S + c)| ≤ d + A / 2 ^ 53 := by
      calc |t + fl c - (S + c)| = |(t - S) + (fl c - c)| := by ring_nf
        _ ≤ |t - S| + |fl c - c| := abs_add _ _
        _ ≤ d + A / 2 ^ 53 := add_le_add h hc
    have h2 := fl_approx h1
    have hS : |S + c| ≤ A := by
      have := abs_add S c
      linarith
    have hAe : A / 2 ^ 53 ≤ A := div_le_self hA0 (by norm_num)
    have h3 : |fl (t + fl c) - (S + c)| ≤ d + 4 * A / 2 ^ 53 := by
      have : (|S + c| + (d + A / 2 ^ 53)) / 2 ^ 53 ≤ (3 * A) / 2 ^ 53 :=
        div_le_div_of_nonneg_right (by linarith) (by positivity)
      have e : d + A / 2 ^ 53 + 3 * A / 2 ^ 53 = d + 4 * A / 2 ^ 53 := by ring
      linarith
    have key := ih (fl (t + fl c)) (S + c) (d + 4 * A / 2 ^ 53) (by linarith) h3
      (by
        have := abs_add S c
        linarith)
      (by nlinarith)
    have e1 : jsSumFrom t (c :: cs) = jsSumFrom (fl (t + fl c)) cs := rfl
    rw [e1]
    have e2 : S + (c + cs.sum) = S + c + cs.sum := by ring
    rw [e2]
    calc |jsSumFrom (fl (t + fl c)) cs - (S + c + cs.sum)|
        ≤ d + 4 * A / 2 ^ 53 + 4 * A / 2 ^ 53 * cs.length := key
      _ = d + 4 * A / 2 ^ 53 * (cs.length + 1) := by ring

theorem cents_sum_abs (cs : List ℚ) (hc : ∀ c ∈ cs, ∃ n : ℤ, c = (n : ℚ) / 100) :
    ∃ n : ℕ, (cs.map (fun c => |c|)).sum = (n : ℚ) / 100 := by
  induction cs with
  | nil => exact ⟨0, by simp⟩
  | cons c t ih =>
    obtain ⟨n, hn⟩ := ih (fun b hb => hc b (List.mem_cons_of_mem _ hb))
    obtain ⟨k, hk⟩ := hc c (List.mem_cons_self _ _)
    refine ⟨k.natAbs + n, ?_⟩
    rw [List.map_cons, List.sum_cons, hn, hk, abs_div, abs_of_pos (by norm_num : (0 : ℚ) < 100)]
    have : |(k : ℚ)| = ((k.natAbs : ℕ) : ℚ) := by
      rw [Nat.cast_natAbs, Int.cast_abs]
    rw [this]
    push_cast
    ring

/-- The total of a list of amounts of 2 decimals, accumulated on doubles from
0 and rounded to 2 decimals, is their sum. -/
theorem round2_jsSumFrom_cents (cs : List ℚ) (hc : ∀ c ∈ cs, ∃ n : ℤ, c = (n : ℚ) / 100)
    (hb : (cs.length : ℚ) * (cs.map (fun c => |c|)).sum ≤ 10 ^ 13) :
    round2 (jsSumFrom 0 cs) = cs.sum := by
  obtain ⟨n, hn⟩ := cents_sum_abs cs hc
  have hcs : ∃ k : ℤ, cs.sum = (k : ℚ) / 100 := by
    have := cents_sum cs (fun c => c) hc
    simpa using this
  apply round2_of_near_cents hcs
  rw [hn] at hb
  rcases Nat.eq_zero_or_pos n with h0 | hpos
  · have hA : |(0 : ℚ)| + (cs.map (fun c => |c|)).sum ≤ 0 := by
      rw [hn, h0]; simp
    have := jsSumFrom_error 0 cs 0 0 0 le_rfl (by simp) hA (by simp)
    simp only [zero_add, mul_zero, zero_div, zero_mul] at this
    exact lt_of_le_of_lt this (by norm_num)
  · have hn1 : (1 : ℚ) ≤ n := by exact_mod_cast hpos
    have hlen0 : (0 : ℚ) ≤ cs.length := Nat.cast_nonneg _
    have hlen : (cs.length : ℚ) ≤ 10 ^ 15 := by
      have : (cs.length : ℚ) * (1 / 100) ≤ (cs.length : ℚ) * ((n : ℚ) / 100) :=
        mul_le_mul_of_nonneg_left (by linarith) hlen0
      linarith
    have hA : |(0 : ℚ)| + (cs.map (fun c => |c|)).sum ≤ (n : ℚ) / 100 := by
      rw [hn]; simp
    have hA0 : (0 : ℚ) ≤ (n : ℚ) / 100 := by positivity
    have hcond : (0 : ℚ) + 4 * ((n : ℚ) / 100) / 2 ^ 53 * cs.length ≤ (n : ℚ) / 100 := by
      have : 4 * ((n : ℚ) / 100) / 2 ^ 53 * cs.length
          ≤ 4 * ((n : ℚ) / 100) / 2 ^ 53 * 10 ^ 15 :=
        mul_le_mul_of_nonneg_left hlen (by positivity)
      have e : 4 * ((n : ℚ) / 100) / 2 ^ 53 * 10 ^ 15
          = (n : ℚ) / 100 * (4 * 10 ^ 15 / 2 ^ 53) := by ring
      have : (n : ℚ) / 100 * (4 * 10 ^ 15 / 2 ^ 53) ≤ (n : ℚ) / 100 * 1 :=
        mul_le_mul_of_nonneg_left (by norm_num) hA0
      linarith
    have := jsSumFrom_error ((n : ℚ) / 100) cs 0 0 0 le_rfl (by simp) hA hcond
    simp only [zero_add] at this
    have e : 4 * ((n : ℚ) / 100) / 2 ^ 53 * cs.length
        = (cs.length : ℚ) * ((n : ℚ) / 100) * (4 / 2 ^ 53) := by ring
    rw [e] at this
    have : (cs.length : ℚ) * ((n : ℚ) / 100) * (4 / 2 ^ 53) ≤ 10 ^ 13 * (4 / 2 ^ 53) :=
      mul_le_mul_of_nonneg_right hb (by positivity)
    have : (10 : ℚ) ^ 13 * (4 / 2 ^ 53) < 1 / 200 := by norm_num
    linarith

/-- The credit of a batch from three totals of 2 decimals, computed on
doubles and rounded to 2 decimals, is their sum. -/
theorem round2_credit_cents {p b c : ℚ} (hp : ∃ n : ℤ, p = (n : ℚ) / 100)
    (hb : ∃ n : ℤ, b = (n : ℚ) / 100) (hc : ∃ n : ℤ, c = (n : ℚ) / 100)
    (h : |p| + |b| + |c| ≤ 10 ^ 13) :
    round2 (fl (jsAdd p b + fl c)) = p + b + c := by
  apply round2_of_near_cents (cents_add (cents_add hp hb) hc)
  have hp0 := abs_nonneg p
  have hb0 := abs_nonneg b
  have hc0 := abs_nonneg c
  have h1 : |jsAdd p b - (p + b)|
      ≤ 10 ^ 13 / 2 ^ 53 + (10 ^ 13 + 10 ^ 13 / 2 ^ 53) / 2 ^ 53 :=
    jsAdd_error (by linarith)
  have h2 : |fl c - c| ≤ 10 ^ 13 / 2 ^ 53 := fl_error_le (by linarith)
  have h3 : |jsAdd p b + fl c - (p + b + c)|
      ≤ 10 ^ 13 / 2 ^ 53 + (10 ^ 13 + 10 ^ 13 / 2 ^ 53) / 2 ^ 53 + 10 ^ 13 / 2 ^ 53 := by
    calc |jsAdd p b + fl c - (p + b + c)| = |(jsAdd p b - (p + b)) + (fl c - c)| := by ring_nf
      _ ≤ |jsAdd p b - (p + b)| + |fl c - c| := abs_add _ _
      _ ≤ _ := add_le_add h1 h2
  have h4 := fl_approx h3
  have h5 : |p + b + c| ≤ 10 ^ 13 := by
    have := abs_add (p + b) c
    have := abs_add p b
    linarith
  have h6 : (|p + b + c| + (10 ^ 13 / 2 ^ 53 + (10 ^ 13 + 10 ^ 13 / 2 ^ 53) / 2 ^ 53
        + 10 ^ 13 / 2 ^ 53)) / 2 ^ 53
      ≤ (10 ^ 13 + (10 ^ 13 / 2 ^ 53 + (10 ^ 13 + 10 ^ 13 / 2 ^ 53) / 2 ^ 53
        + 10 ^ 13 / 2 ^ 53)) / 2 ^ 53 :=
    div_le_div_of_nonneg_right (by linarith) (by positivity)
  have h7 : (10 : ℚ) ^ 13 / 2 ^ 53 + (10 ^ 13 + 10 ^ 13 / 2 ^ 53) / 2 ^ 53 + 10 ^ 13 / 2 ^ 53
      + (10 ^ 13 + (10 ^ 13 / 2 ^ 53 + (10 ^ 13 + 10 ^ 13 / 2 ^ 53) / 2 ^ 53
        + 10 ^ 13 / 2 ^ 53)) / 2 ^ 53 < 1 / 200 := by
    norm_num
  linarith

theorem decimal2_of_cents {x : ℚ} (h : ∃ n : ℤ, x = (n : ℚ) / 100) : decimal2 x = x :=
  round2_of_cents h

/-! ## Lemmas on the store primitives -/

theorem find?_map_of_stable {α : Type} (l : List α) (p : α → Bool) (g : α → α)
    (hg : ∀ a, p (g a) = p a) : (l.map g).find? p = (l.find? p).map g := by
  induction l with
  | nil => rfl
  | cons a l ih =>
    simp only [List.map_cons, List.find?_cons, hg a]
    cases p a <;> simp [ih]

theorem findUser_updateUser (s : Store) (userId v : Nat) (f : User → User)
    (hf : ∀ u, (f u).id = u.id) :
    findUser (updateUser s userId f) v
      = (findUser s v).map (fun u => if u.id = userId then f u else u) := by
  unfold findUser updateUser
  apply find?_map_of_stable
  intro a
  by_cases h : a.id = userId <;> simp [h, hf]

theorem findUser_id {s : Store} {userId : Nat} {u : User} (h : findUser s userId = some u) :
    u.id = userId := by
  have := List.find?_some h
  simpa using this

theorem findUser_updateUserProduct (s : Store) (upId v : Nat) (f : UserProduct → UserProduct) :
    findUser (updateUserProduct s upId f) v = findUser s v := rfl

theorem findUser_insertEvent (s : Store) (e : BalanceEvent) (v : Nat) :
    findUser (insertEvent s e) v = findUser s v := rfl

theorem joinStar_status_ne_completed (up : UserProduct) (p : Product) :
    (joinStar up p).status ≠ "completed" := by
  cases h : p.status <;> simp [joinStar, ProductStatus.text, h]

/-- What the single submission does once its row is found: the status test
never fires, so only the balance guard decides. -/
theorem submitOne_of_lookup (s : Store) (clk : Clock) (userId assignmentId : Nat)
    (up : UserProduct) (p : Product)
    (hl : submitOneLookup s userId assignmentId = some (up, p)) :
    submitOne s clk userId assignmentId =
      (let user := findUser s userId
       let userLevel := levelOr1 (match user with | some u => u.level | none => none)
       let currentBalance : ℚ := match user with | some u => u.wallet_balance | none => 0
       let price := submitOnePrice (joinStar up p) userLevel
       if currentBalance < 0 then
         (s, .insufficientBalance |currentBalance| price currentBalance)
       else
         let rate := rateOf s userLevel
         let commission := round2 (jsMul price rate)
         let baseAmount := round2 (jsAdd price up.manual_bonus)
         let earned := round2 (jsAdd baseAmount commission)
         (updateUser (updateUserProduct s assignmentId (markCompleted clk baseAmount commission))
            userId (fun u =>
            { u with wallet_balance := u.wallet_balance + earned,
                     commission_earned := u.commission_earned + commission,
                     tasks_completed_at_level := u.tasks_completed_at_level + 1,
                     total_tasks_completed := u.total_tasks_completed + 1 }),
          .ok earned baseAmount commission up.manual_bonus)) := by
  unfold submitOne
  simp only [hl, if_neg (joinStar_status_ne_completed up p)]
  rfl

theorem submitOneLookup_some {s : Store} {userId assignmentId : Nat} {up : UserProduct}
    {p : Product} (hl : submitOneLookup s userId assignmentId = some (up, p)) :
    up ∈ s.user_products ∧ up.id = assignmentId ∧ up.user_id = userId ∧
      p ∈ s.products ∧ p.id = up.product_id := by
  unfold submitOneLookup joinProducts at hl
  have hmem := List.mem_of_mem_head? hl
  simp only [List.mem_flatMap, List.mem_filter, List.mem_map, decide_eq_true_eq,
    Bool.decide_and, Bool.and_eq_true, Prod.mk.injEq] at hmem
  obtain ⟨a, ⟨ha, hid, hu⟩, q, ⟨hq, hqid⟩, rfl, rfl⟩ := hmem
  exact ⟨ha, hid, hu, hq, hqid⟩

theorem jsNumber_jsOr_zero (a : Option ℚ) : jsNumber (jsOr a (some 0)) = jsNumber a := by
  cases a with
  | none => rfl
  | some v =>
    by_cases h : v = 0
    · simp [jsOr, jsNumber, h]
    · simp [jsOr, jsNumber, h]

theorem submitOnePrice_eq_resolved (up : UserProduct) (p : Product) (userLevel : Nat) :
    submitOnePrice (joinStar up p) userLevel = resolvedPrice up.custom_price p userLevel := by
  unfold submitOnePrice resolvedPrice
  simp only [joinStar]
  cases up.custom_price with
  | some c => simp only [jsNumber_jsOr_zero]; rfl
  | none =>
    simp only [jsNumber_jsOr_zero]
    cases hc : p.priceColumn userLevel with
    | none => simp [jsOr]
    | some v =>
      by_cases h : v = 0
      · simp [jsOr, h]
      · simp [jsOr, h, jsNumber]

theorem batchRowPrice_eq_claimed (up : UserProduct) (p : Product) (userLevel : Nat) :
    batchRowPrice up p userLevel = claimedPrice up.custom_price p userLevel := by
  unfold batchRowPrice claimedPrice
  cases up.custom_price with
  | some c => simp only [jsNumber_jsOr_zero]; rfl
  | none => simp [jsNumber_jsOr_zero]

theorem batchRowPrice_eq_resolved (up : UserProduct) (p : Product) (userLevel : Nat)
    (hcov : up.custom_price = none → ∃ v, p.priceColumn userLevel = some v ∧ v ≠ 0) :
    batchRowPrice up p userLevel = resolvedPrice up.custom_price p userLevel := by
  rw [batchRowPrice_eq_claimed]
  unfold claimedPrice resolvedPrice
  cases hc : up.custom_price with
  | some c => rfl
  | none =>
    obtain ⟨v, hv, hv0⟩ := hcov hc
    simp [hv, hv0, jsNumber]

/-! ## Lemmas on the batch loop -/

theorem batch_foldl (clk : Clock) (userLevel : Nat) (rate : ℚ)
    (rows : List (UserProduct × Product)) (s : Store) (t : BatchTotals) :
    rows.foldl (submitTodayStep clk userLevel rate) (s, t) =
      ({ s with user_products := s.user_products.map (batchRowAfter clk userLevel rate rows) },
       { totalPrice := jsSumFrom t.totalPrice
           (rows.map (fun row => batchRowPrice row.1 row.2 userLevel)),
         totalManualBonus := jsSumFrom t.totalManualBonus
           (rows.map (fun row => row.1.manual_bonus)),
         totalCommission := jsSumFrom t.totalCommission
           (rows.map (batchRowCommission userLevel rate)) }) := by
  induction rows generalizing s t with
  | nil =>
    have hid : batchRowAfter clk userLevel rate [] = id := rfl
    simp [hid, jsSumFrom]
  | cons row rows ih =>
    rw [List.foldl_cons]
    have hstep : submitTodayStep clk userLevel rate (s, t) row =
        (updateUserProduct s row.1.id
          (markCompleted clk (batchRowBase userLevel row) (batchRowCommission userLevel rate row)),
         { totalPrice := fl (t.totalPrice + fl (batchRowPrice row.1 row.2 userLevel)),
           totalManualBonus := fl (t.totalManualBonus + fl row.1.manual_bonus),
           totalCommission :=
             fl (t.totalCommission + fl (batchRowCommission userLevel rate row)) }) := rfl
    rw [hstep, ih]
    simp only [updateUserProduct, List.map_map, List.map_cons, jsSumFrom, List.foldl_cons]
    congr 2

theorem batchRowAfter_id (clk : Clock) (userLevel : Nat) (rate : ℚ)
    (rows : List (UserProduct × Product)) (r : UserProduct) :
    (batchRowAfter clk userLevel rate rows r).id = r.id := by
  induction rows generalizing r with
  | nil => rfl
  | cons row rows ih =>
    unfold batchRowAfter at ih ⊢
    rw [List.foldl_cons, ih]
    by_cases h : r.id = row.1.id <;> simp [h, markCompleted]

theorem batchRowAfter_untouched (clk : Clock) (userLevel : Nat) (rate : ℚ)
    (rows : List (UserProduct × Product)) (r : UserProduct)
    (h : ∀ row ∈ rows, row.1.id ≠ r.id) :
    batchRowAfter clk userLevel rate rows r = r := by
  induction rows with
  | nil => rfl
  | cons row rows ih =>
    unfold batchRowAfter at ih ⊢
    rw [List.foldl_cons, if_neg (fun e => h row (List.mem_cons_self _ _) e.symm)]
    exact ih (fun x hx => h x (List.mem_cons_of_mem _ hx))

theorem batchRowAfter_target (clk : Clock) (userLevel : Nat) (rate : ℚ)
    (rows : List (UserProduct × Product)) (sel : UserProduct × Product)
    (huniq : ∀ row ∈ rows, row.1.id = sel.1.id → row = sel) :
    batchRowAfter clk userLevel rate rows
        (markCompleted clk (batchRowBase userLevel sel) (batchRowCommission userLevel rate sel)
          sel.1)
      = markCompleted clk (batchRowBase userLevel sel) (batchRowCommission userLevel rate sel)
          sel.1 := by
  induction rows with
  | nil => rfl
  | cons row rows ih =>
    unfold batchRowAfter at ih ⊢
    rw [List.foldl_cons]
    by_cases h : row.1.id = sel.1.id
    · have hrow := huniq row (List.mem_cons_self _ _) h
      subst hrow
      rw [if_pos (by simp [markCompleted])]
      exact ih (fun x hx => huniq x (List.mem_cons_of_mem _ hx))
    · rw [if_neg (by simpa [markCompleted] using fun e : sel.1.id = row.1.id => h e.symm)]
      exact ih (fun x hx => huniq x (List.mem_cons_of_mem _ hx))

theorem batchRowAfter_selected (clk : Clock) (userLevel : Nat) (rate : ℚ)
    (rows : List (UserProduct × Product)) (sel : UserProduct × Product)
    (hmem : sel ∈ rows) (huniq : ∀ row ∈ rows, row.1.id = sel.1.id → row = sel) :
    batchRowAfter clk userLevel rate rows sel.1
      = markCompleted clk (batchRowBase userLevel sel) (batchRowCommission userLevel rate sel)
          sel.1 := by
  induction rows with
  | nil => cases hmem
  | cons row rows ih =>
    by_cases h : row.1.id = sel.1.id
    · have hrow := huniq row (List.mem_cons_self _ _) h
      subst hrow
      have := batchRowAfter_target clk userLevel rate rows row
        (fun x hx => huniq x (List.mem_cons_of_mem _ hx))
      unfold batchRowAfter at this ⊢
      rw [List.foldl_cons, if_pos rfl]
      exact this
    · have hmem2 : sel ∈ rows := by
        rcases List.mem_cons.mp hmem with e | e
        · exact absurd (by rw [e]) h
        · exact e
      have := ih hmem2 (fun x hx => huniq x (List.mem_cons_of_mem _ hx))
      unfold batchRowAfter at this ⊢
      rw [List.foldl_cons, if_neg (fun e => h e.symm)]
      exact this

theorem mem_joinProducts {s : Store} {cond : UserProduct → Bool} {up : UserProduct}
    {p : Product} :
    (up, p) ∈ joinProducts s cond ↔
      up ∈ s.user_products ∧ cond up = true ∧ p ∈ s.products ∧ p.id = up.product_id := by
  unfold joinProducts
  simp only [List.mem_flatMap, List.mem_filter, List.mem_map, decide_eq_true_eq,
    Prod.mk.injEq]
  constructor
  · rintro ⟨a, ⟨ha, hc⟩, q, ⟨hq, hqid⟩, rfl, rfl⟩
    exact ⟨ha, hc, hq, hqid⟩
  · rintro ⟨ha, hc, hq, hqid⟩
    exact ⟨up, ⟨ha, hc⟩, p, ⟨hq, hqid⟩, rfl, rfl⟩

theorem joinProducts_unique {s : Store} {cond : UserProduct → Bool}
    (hup : (s.user_products.map (fun r => r.id)).Nodup)
    (hpr : (s.products.map (fun p => p.id)).Nodup)
    (sel : UserProduct × Product) (hsel : sel ∈ joinProducts s cond) :
    ∀ row ∈ joinProducts s cond, row.1.id = sel.1.id → row = sel := by
  intro row hrow hid
  obtain ⟨up, p⟩ := sel
  obtain ⟨up2, p2⟩ := row
  rw [mem_joinProducts] at hsel hrow
  have e1 : up2 = up := List.inj_on_of_nodup_map hup hrow.1 hsel.1 hid
  subst e1
  have e2 : p2 = p :=
    List.inj_on_of_nodup_map hpr hrow.2.2.1 hsel.2.2.1 (hrow.2.2.2.trans hsel.2.2.2.symm)
  subst e2
  rfl

/-- The batch submission, once the user is found and rows are selected. -/
theorem submitAllToday_of_rows (s : Store) (clk : Clock) (userId : Nat) (u : User)
    (hu : findUser s userId = some u) (hrows : submitTodayRows s clk userId ≠ []) :
    submitAllToday s clk userId =
      (let userLevel := levelOr1 u.level
       let rate := rateOf s userLevel
       let rows := submitTodayRows s clk userId
       let totalPrice :=
         round2 (jsSumFrom 0 (rows.map (fun row => batchRowPrice row.1 row.2 userLevel)))
       let totalManualBonus := round2 (jsSumFrom 0 (rows.map (fun row => row.1.manual_bonus)))
       let totalCommission :=
         round2 (jsSumFrom 0 (rows.map (batchRowCommission userLevel rate)))
       let totalCredit :=
         round2 (fl (jsAdd totalPrice totalManualBonus + fl totalCommission))
       (insertEvent
          (updateUser
            { s with user_products :=
                s.user_products.map (batchRowAfter clk userLevel rate rows) }
            userId (fun u =>
            { u with wallet_balance := u.wallet_balance + totalCredit,
                     commission_earned := u.commission_earned + totalCommission,
                     tasks_completed_at_level := u.tasks_completed_at_level + rows.length,
                     total_tasks_completed := u.total_tasks_completed + rows.length }))
          { user_id := userId, type := .submission_credit, amount := totalCredit,
            reference_date := some clk.today, details := .submitted rows.length },
        .ok rows.length totalPrice totalManualBonus totalCommission totalCredit)) := by
  unfold submitAllToday
  have hlen : ¬ (submitTodayRows s clk userId).length = 0 := by
    simpa [List.length_eq_zero] using hrows
  simp only [hu, if_neg hlen, batch_foldl]

/-! ## C1: what a submission stores in the row -/

/-- C1, as stated, fails twice.  For the single submission with no custom
price, a level-2 price of 0 and a level-1 price of 10.00 the claimed price is
the level-2 column, 0, so the claimed amounts are 0 and 0, but the row is
stored with `amount_earned = 10` and `commission_earned = 0.50`.  And the
commission is the rounding of a product of doubles: at a price of 4.10 and a
rate of 0.05 the product is a double just below 0.205, so both paths store
`commission_earned = 0.20` where the rounding of 4.10 x 0.05 is 0.21. -/
theorem claimed_price_counterexample :
    (submitOne fallbackStore sampleClock 1 3).2 = .ok (21 / 2) 10 (1 / 2) 0 ∧
    (submitOne fallbackStore sampleClock 1 3).1.user_products =
      [{ sampleAssignment with
         status := .completed, amount_earned := 10, commission_earned := 1 / 2,
         submitted_at := some 5000 }] ∧
    round2 (claimedPrice sampleAssignment.custom_price
      { sampleProduct with level1_price := some 10, level2_price := some 0 } 2
        + sampleAssignment.manual_bonus) = 0 ∧
    round2 (claimedPrice sampleAssignment.custom_price
      { sampleProduct with level1_price := some 10, level2_price := some 0 } 2
        * rateOf fallbackStore 2) = 0 ∧
    (submitOne centStore sampleClock 1 3).1.user_products =
      [{ sampleAssignment with
         status := .completed, amount_earned := 41 / 10, commission_earned := 1 / 5,
         submitted_at := some 5000 }] ∧
    (submitAllToday centStore sampleClock 1).1.user_products =
      [{ sampleAssignment with
         status := .completed, amount_earned := 41 / 10, commission_earned := 1 / 5,
         submitted_at := some 5000 }] ∧
    round2 (claimedPrice sampleAssignment.custom_price
      { sampleProduct with level2_price := some (41 / 10) } 2 * rateOf centStore 2)
      = 21 / 100 := by
  decide!

/-- C1, amended: the price is the custom price if set, else the price column
of the user's level if set and not 0, else the level-1 price (`resolvedPrice`).
The sum `price + bonus` and the product `price * rate` are those of doubles,
`jsAdd` and `jsMul`, rounded by `toFixed(2)`.  A single submission with a
non-negative wallet succeeds and stores the row of the given id as completed
with `amount_earned = round2 (jsAdd price bonus)` and `commission_earned =
round2 (jsMul price rate)`; the batch submission does the same for every
selected row that has a custom price or a non-zero price at the user's level
(ids being keys of their tables). -/
theorem completed_row_amounts (s : Store) (clk : Clock) (userId : Nat) (u : User)
    (hu : findUser s userId = some u) :
    (∀ assignmentId up p, submitOneLookup s userId assignmentId = some (up, p) →
      0 ≤ u.wallet_balance →
      (∃ e b c m, (submitOne s clk userId assignmentId).2 = .ok e b c m) ∧
      ∃ r ∈ (submitOne s clk userId assignmentId).1.user_products,
        r.id = assignmentId ∧ r.status = .completed ∧
        r.amount_earned
          = round2 (jsAdd (resolvedPrice up.custom_price p (levelOr1 u.level)) up.manual_bonus) ∧
        r.commission_earned
          = round2 (jsMul (resolvedPrice up.custom_price p (levelOr1 u.level))
              (rateOf s (levelOr1 u.level)))) ∧
    ((s.user_products.map (fun r => r.id)).Nodup → (s.products.map (fun p => p.id)).Nodup →
      ∀ up p, (up, p) ∈ submitTodayRows s clk userId →
      (up.custom_price = none → ∃ v, p.priceColumn (levelOr1 u.level) = some v ∧ v ≠ 0) →
      (∃ n a b c d, (submitAllToday s clk userId).2 = .ok n a b c d) ∧
      ∃ r ∈ (submitAllToday s clk userId).1.user_products,
        r.id = up.id ∧ r.status = .completed ∧
        r.amount_earned
          = round2 (jsAdd (resolvedPrice up.custom_price p (levelOr1 u.level)) up.manual_bonus) ∧
        r.commission_earned
          = round2 (jsMul (resolvedPrice up.custom_price p (levelOr1 u.level))
              (rateOf s (levelOr1 u.level)))) := by
  constructor
  · intro assignmentId up p hl hbal
    have hmem := submitOneLookup_some hl
    rw [submitOne_of_lookup s clk userId assignmentId up p hl]
    simp only [hu, if_neg (not_lt.mpr hbal), submitOnePrice_eq_resolved]
    refine ⟨⟨_, _, _, _, rfl⟩, ?_⟩
    refine ⟨markCompleted clk
      (round2 (jsAdd (resolvedPrice up.custom_price p (levelOr1 u.level)) up.manual_bonus))
      (round2 (jsMul (resolvedPrice up.custom_price p (levelOr1 u.level))
        (rateOf s (levelOr1 u.level)))) up, ?_, ?_⟩
    · simp only [updateUser, updateUserProduct, List.mem_map]
      exact ⟨up, hmem.1, by simp [hmem.2.1]⟩
    · exact ⟨hmem.2.1, rfl, rfl, rfl⟩
  · intro hup hpr up p hsel hcov
    have hne : submitTodayRows s clk userId ≠ [] := List.ne_nil_of_mem hsel
    rw [submitAllToday_of_rows s clk userId u hu hne]
    refine ⟨⟨_, _, _, _, _, rfl⟩, ?_⟩
    have huniq := joinProducts_unique hup hpr (up, p) hsel
    have hafter := batchRowAfter_selected clk (levelOr1 u.level)
      (rateOf s (levelOr1 u.level)) _ (up, p) hsel huniq
    refine ⟨markCompleted clk (batchRowBase (levelOr1 u.level) (up, p))
      (batchRowCommission (levelOr1 u.level) (rateOf s (levelOr1 u.level)) (up, p)) up, ?_, ?_⟩
    · simp only [insertEvent, updateUser, List.mem_map]
      exact ⟨up, (mem_joinProducts.mp hsel).1, hafter⟩
    · refine ⟨rfl, rfl, ?_, ?_⟩
      · simp only [markCompleted, batchRowBase, batchRowPrice_eq_resolved up p _ hcov]
      · simp only [markCompleted, batchRowCommission, batchRowPrice_eq_resolved up p _ hcov]

/-- C1, amended, at the scenario store: both submission paths store the row
3 as completed with 10.00 earned and 0.50 commission, the values of the sum
and the product of doubles. -/
theorem completed_row_amounts_witness :
    ((∃ e b c m, (submitOne scenarioStore sampleClock 1 3).2 = .ok e b c m) ∧
      ∃ r ∈ (submitOne scenarioStore sampleClock 1 3).1.user_products,
        r.id = 3 ∧ r.status = .completed ∧
        r.amount_earned
          = round2 (jsAdd (resolvedPrice sampleAssignment.custom_price sampleProduct
              (levelOr1 sampleUser.level)) sampleAssignment.manual_bonus) ∧
        r.commission_earned
          = round2 (jsMul (resolvedPrice sampleAssignment.custom_price sampleProduct
              (levelOr1 sampleUser.level)) (rateOf scenarioStore (levelOr1 sampleUser.level)))) ∧
    ((∃ n a b c d, (submitAllToday scenarioStore sampleClock 1).2 = .ok n a b c d) ∧
      ∃ r ∈ (submitAllToday scenarioStore sampleClock 1).1.user_products,
        r.id = sampleAssignment.id ∧ r.status = .completed ∧
        r.amount_earned
          = round2 (jsAdd (resolvedPrice sampleAssignment.custom_price sampleProduct
              (levelOr1 sampleUser.level)) sampleAssignment.manual_bonus) ∧
        r.commission_earned
          = round2 (jsMul (resolvedPrice sampleAssignment.custom_price sampleProduct
              (levelOr1 sampleUser.level)) (rateOf scenarioStore (levelOr1 sampleUser.level)))) :=
  ⟨(completed_row_amounts scenarioStore sampleClock 1 sampleUser rfl).1 3 sampleAssignment
      sampleProduct rfl (by decide!),
   (completed_row_amounts scenarioStore sampleClock 1 sampleUser rfl).2 (by decide) (by decide)
      sampleAssignment sampleProduct (by decide) (fun _ => ⟨10, rfl, by decide!⟩)⟩

/-! ## C2: the balance guard of the single submission -/

/-- C2: for an assignment of the user that the handler finds (pending or not),
the single submission answers `InsufficientBalance` exactly when the user's
wallet is strictly negative, whatever the price; the rejected call returns the
store it was given, and a wallet of 0 or more is accepted. -/
theorem submitOne_balance_guard (s : Store) (clk : Clock) (userId assignmentId : Nat)
    (up : UserProduct) (p : Product) (u : User)
    (hl : submitOneLookup s userId assignmentId = some (up, p))
    (hu : findUser s userId = some u) :
    ((∃ a b c, (submitOne s clk userId assignmentId).2 = .insufficientBalance a b c)
        ↔ u.wallet_balance < 0) ∧
    (u.wallet_balance < 0 →
      submitOne s clk userId assignmentId =
        (s, .insufficientBalance |u.wallet_balance|
              (submitOnePrice (joinStar up p) (levelOr1 u.level)) u.wallet_balance)) ∧
    (0 ≤ u.wallet_balance → ∃ e b c m, (submitOne s clk userId assignmentId).2 = .ok e b c m) := by
  by_cases hneg : u.wallet_balance < 0
  · have e : submitOne s clk userId assignmentId =
        (s, .insufficientBalance |u.wallet_balance|
              (submitOnePrice (joinStar up p) (levelOr1 u.level)) u.wallet_balance) := by
      rw [submitOne_of_lookup s clk userId assignmentId up p hl]
      simp only [hu, if_pos hneg]
    rw [e]
    exact ⟨⟨fun _ => hneg, fun _ => ⟨_, _, _, rfl⟩⟩, fun _ => rfl,
      fun h => absurd hneg (not_lt.mpr h)⟩
  · have e : ∃ s1 e b c m, submitOne s clk userId assignmentId = (s1, .ok e b c m) := by
      rw [submitOne_of_lookup s clk userId assignmentId up p hl]
      simp only [hu, if_neg hneg]
      exact ⟨_, _, _, _, _, rfl⟩
    obtain ⟨s1, e1, b1, c1, m1, e⟩ := e
    rw [e]
    refine ⟨⟨fun h => ?_, fun h => absurd h hneg⟩, fun h => absurd h hneg,
      fun _ => ⟨_, _, _, _, rfl⟩⟩
    obtain ⟨a, b, c, h⟩ := h
    cases h

/-- C2 at the boundary: with a wallet of -0.01 the submission of row 3 is
rejected and the store is unchanged; with a wallet of 0.00 it succeeds. -/
theorem submitOne_balance_guard_witness :
    (submitOne { scenarioStore with users := [{ sampleUser with wallet_balance := -1 / 100 }] }
        sampleClock 1 3 =
      ({ scenarioStore with users := [{ sampleUser with wallet_balance := -1 / 100 }] },
       .insufficientBalance |(-1 / 100 : ℚ)|
         (submitOnePrice (joinStar sampleAssignment sampleProduct) (levelOr1 sampleUser.level))
         (-1 / 100))) ∧
    (∃ e b c m, (submitOne scenarioStore sampleClock 1 3).2 = .ok e b c m) :=
  ⟨(submitOne_balance_guard
      { scenarioStore with users := [{ sampleUser with wallet_balance := -1 / 100 }] }
      sampleClock 1 3 sampleAssignment sampleProduct
      { sampleUser with wallet_balance := -1 / 100 } rfl rfl).2.1 (by decide!),
   (submitOne_balance_guard scenarioStore sampleClock 1 3 sampleAssignment sampleProduct
      sampleUser rfl rfl).2.2 (by decide!)⟩

/-! ## C3: what a successful single submission credits -/

/-- C3, as stated, fails: the amounts are roundings of results of double
arithmetic.  In `centStore` (price 4.10, rate 0.05, no bonus) the product of
the doubles is just below 0.205, so the submission answers commission 0.20 and
earned 4.30 and the wallet rises by 4.30, where the roundings of the claim
give 0.21 and 4.31. -/
theorem exact_commission_counterexample :
    (submitOne centStore sampleClock 1 3).2 = .ok (43 / 10) (41 / 10) (1 / 5) 0 ∧
    walletOf centStore 1 = some 0 ∧
    walletOf (submitOne centStore sampleClock 1 3).1 1 = some (43 / 10) ∧
    round2 (41 / 10 * (5 / 100)) = 21 / 100 ∧
    round2 (round2 (41 / 10 + 0) + round2 (41 / 10 * (5 / 100))) = 431 / 100 := by
  decide!

/-- C3, amended: a single submission that passes the guard answers `ok earned
baseAmount commission bonus` with `baseAmount = round2 (jsAdd price bonus)`,
`commission = round2 (jsMul price rate)` and `earned = round2 (jsAdd
baseAmount commission)`, the sums and the product being those of doubles;
it adds `earned` to the wallet and `commission` to `commission_earned`, and
adds 1 to each task counter; at level 2 with `level2_price = 10`, rate 0.05
and no bonus these are 10.00, 0.50 and 10.50. -/
theorem submitOne_credit (s : Store) (clk : Clock) (userId assignmentId : Nat)
    (up : UserProduct) (p : Product) (u : User)
    (hl : submitOneLookup s userId assignmentId = some (up, p))
    (hu : findUser s userId = some u) (hbal : 0 ≤ u.wallet_balance) :
    ∃ price baseAmount commission earned : ℚ,
      price = submitOnePrice (joinStar up p) (levelOr1 u.level) ∧
      baseAmount = round2 (jsAdd price up.manual_bonus) ∧
      commission = round2 (jsMul price (rateOf s (levelOr1 u.level))) ∧
      earned = round2 (jsAdd baseAmount commission) ∧
      (submitOne s clk userId assignmentId).2 = .ok earned baseAmount commission up.manual_bonus ∧
      (∃ u1, findUser (submitOne s clk userId assignmentId).1 userId = some u1 ∧
        u1.wallet_balance = u.wallet_balance + earned ∧
        u1.commission_earned = u.commission_earned + commission ∧
        u1.tasks_completed_at_level = u.tasks_completed_at_level + 1 ∧
        u1.total_tasks_completed = u.total_tasks_completed + 1) ∧
      (u.level = some 2 → up.custom_price = none → p.level2_price = some 10 →
        rateOf s 2 = 5 / 100 → up.manual_bonus = 0 →
        baseAmount = 10 ∧ commission = 1 / 2 ∧ earned = 21 / 2) := by
  refine ⟨_, _, _, _, rfl, rfl, rfl, rfl, ?_, ?_, ?_⟩
  · rw [submitOne_of_lookup s clk userId assignmentId up p hl]
    simp only [hu, if_neg (not_lt.mpr hbal)]
  · rw [submitOne_of_lookup s clk userId assignmentId up p hl]
    simp only [hu, if_neg (not_lt.mpr hbal)]
    rw [findUser_updateUser, findUser_updateUserProduct, hu]
    · simp only [Option.map_some', if_pos (findUser_id hu)]
      exact ⟨_, rfl, rfl, rfl, rfl, rfl⟩
    · intro _; rfl
  · intro hlev hcp hprice hrate hbonus
    have hpr : submitOnePrice (joinStar up p) (levelOr1 u.level) = 10 := by
      rw [submitOnePrice_eq_resolved, hlev, hcp]
      simp [resolvedPrice, levelOr1, Product.priceColumn, hprice]
    have hlv : levelOr1 u.level = 2 := by rw [hlev]; rfl
    rw [hpr, hlv, hrate, hbonus]
    refine ⟨by decide!, by decide!, by decide!⟩

/-- C3, amended, in `centStore`: price 4.10 at rate 0.05 gives base amount
4.10, commission 0.20 and earned 4.30, and the wallet goes from 0 to 4.30. -/
theorem submitOne_credit_witness :
    ∃ price baseAmount commission earned : ℚ,
      price = 41 / 10 ∧ baseAmount = 41 / 10 ∧ commission = 1 / 5 ∧ earned = 43 / 10 ∧
      (submitOne centStore sampleClock 1 3).2 = .ok earned baseAmount commission 0 ∧
      ∃ u1, findUser (submitOne centStore sampleClock 1 3).1 1 = some u1 ∧
        u1.wallet_balance = 0 + earned ∧ u1.commission_earned = 0 + commission ∧
        u1.tasks_completed_at_level = 0 + 1 ∧ u1.total_tasks_completed = 0 + 1 := by
  obtain ⟨price, baseAmount, commission, earned, h1, h2, h3, h4, h5, h6, _⟩ :=
    submitOne_credit centStore sampleClock 1 3 sampleAssignment
      { sampleProduct with level2_price := some (41 / 10) } sampleUser rfl rfl (by decide!)
  have e1 : price = 41 / 10 := by rw [h1]; decide!
  have e2 : baseAmount = 41 / 10 := by rw [h2, e1]; decide!
  have e3 : commission = 1 / 5 := by rw [h3, e1]; decide!
  have e4 : earned = 43 / 10 := by rw [h4, e2, e3]; decide!
  exact ⟨price, baseAmount, commission, earned, e1, e2, e3, e4, h5, h6⟩

/-! ## C4: submitting a completed assignment again -/

/-- C4 fails on the code: the status the handler tests is the product's (the
`status` key of `SELECT up.*, p.*`), never `completed`.  In `completedStore`
the assignment 3 is completed and was credited 10.50; submitting it again
answers `ok` and credits 10.50 a second time, the wallet going from 10.50 to
21.00 and both counters from 1 to 2. -/
theorem resubmission_credits_again :
    (∀ r ∈ completedStore.user_products, r.status = .completed) ∧
    walletOf completedStore 1 = some (21 / 2) ∧
    (submitOne completedStore sampleClock 1 3).2 = .ok (21 / 2) 10 (1 / 2) 0 ∧
    walletOf (submitOne completedStore sampleClock 1 3).1 1 = some 21 ∧
    (submitOne completedStore sampleClock 1 3).1.users =
      [{ sampleUser with
         wallet_balance := 21, commission_earned := 1,
         tasks_completed_at_level := 2, total_tasks_completed := 2 }] := by
  decide!

/-! ## Lemmas on wallets and on the bulk loop -/

theorem walletOf_updateUser (s : Store) (v w : Nat) (f : User → User) (g : ℚ → ℚ)
    (hid : ∀ u, (f u).id = u.id) (hw : ∀ u, (f u).wallet_balance = g u.wallet_balance) :
    walletOf (updateUser s v f) w = if w = v then (walletOf s w).map g else walletOf s w := by
  unfold walletOf
  rw [findUser_updateUser s v w f hid]
  cases hfu : findUser s w with
  | none => simp
  | some u =>
    have hu := findUser_id hfu
    by_cases h : w = v
    · have huv : u.id = v := hu.trans h
      simp only [Option.map_some', if_pos huv, if_pos h, hw]
    · have huv : ¬ u.id = v := fun e => h (hu.symm.trans e)
      simp only [Option.map_some', if_neg huv, if_neg h]

theorem walletOf_congr {s s1 : Store} (h : s1.users = s.users) (v : Nat) :
    walletOf s1 v = walletOf s v := by
  unfold walletOf findUser
  rw [h]

theorem debitExists_congr {s s1 : Store} (h : s1.balance_events = s.balance_events)
    (clk : Clock) (v : Nat) : debitExists s1 clk v = debitExists s clk v := by
  unfold debitExists
  rw [h]

theorem insertIgnore_frame (s : Store) (clk : Clock) (userId productId : Nat) :
    ∃ added, (insertIgnore s clk userId productId).1 =
      { s with user_products := s.user_products ++ added } := by
  unfold insertIgnore
  split
  · exact ⟨[], by simp⟩
  · exact ⟨_, rfl⟩

theorem insertSlots_frame (clk : Clock) (rnd : Nat → Nat) (p0 : Product) (rest : List Product)
    (userId : Nat) (n k : Nat) (s : Store) :
    ∃ added, (insertSlots clk rnd p0 rest userId n k s).1 =
      { s with user_products := s.user_products ++ added } := by
  induction n generalizing k s with
  | zero => exact ⟨[], by simp [insertSlots]⟩
  | succ n ih =>
    obtain ⟨a1, h1⟩ := insertIgnore_frame s clk userId (pickProduct p0 rest (rnd k)).id
    obtain ⟨a2, h2⟩ := ih (k + 1) (insertIgnore s clk userId (pickProduct p0 rest (rnd k)).id).1
    refine ⟨a1 ++ a2, ?_⟩
    show (insertSlots clk rnd p0 rest userId n (k + 1)
      (insertIgnore s clk userId (pickProduct p0 rest (rnd k)).id).1).1 = _
    rw [h2, h1]
    simp

theorem debitUser_cases {s s2 : Store} {clk : Clock} {user : User} {dailyLimit : Int}
    (h : debitUser s clk user dailyLimit = .ok s2) :
    s2 = s ∨ (debitExists s clk user.id = false ∧ ∃ total : ℚ, 0 < total ∧
      s2 = insertEvent
        (updateUser s user.id (fun u => { u with wallet_balance := u.wallet_balance - total }))
        { user_id := user.id, type := .assignment_debit, amount := total,
          reference_date := some clk.today, details := .assigned dailyLimit }) := by
  unfold debitUser at h
  by_cases hd : debitExists s clk user.id = true
  · rw [if_pos hd] at h
    injection h with h
    exact Or.inl h.symm
  · rw [if_neg hd] at h
    cases hl : user.level with
    | none => rw [hl] at h; cases h
    | some l =>
      rw [hl] at h
      simp only at h
      by_cases hr : 1 ≤ l ∧ l ≤ 5
      · rw [if_pos hr] at h
        by_cases ht : assignedTotal s clk user.id l > 0
        · rw [if_pos ht] at h
          injection h with h
          exact Or.inr ⟨by simpa using hd, _, ht, h.symm⟩
        · rw [if_neg ht] at h
          injection h with h
          exact Or.inl h.symm
      · rw [if_neg hr] at h
        cases h

theorem assignLoop_cons (clk : Clock) (rnd : Nat → Nat) (p0 : Product) (rest : List Product)
    (user : User) (users : List User) (k total : Nat) (s : Store) :
    assignLoop clk rnd p0 rest (user :: users) k total s =
      if dailyLimitOf s user.level ≤ 0 then assignLoop clk rnd p0 rest users k total s
      else
        match debitUser (insertSlots clk rnd p0 rest user.id
            (dailyLimitOf s user.level).toNat k s).1 clk user (dailyLimitOf s user.level) with
        | .error e =>
          ((insertSlots clk rnd p0 rest user.id (dailyLimitOf s user.level).toNat k s).1,
            .error e)
        | .ok s2 =>
          assignLoop clk rnd p0 rest users (k + (dailyLimitOf s user.level).toNat)
            (total + (insertSlots clk rnd p0 rest user.id
              (dailyLimitOf s user.level).toNat k s).2) s2 := rfl

/-- The user loop of bulk assignment only appends assignment rows. -/
theorem assignLoop_rows (clk : Clock) (rnd : Nat → Nat) (p0 : Product) (rest : List Product)
    (users : List User) (k total : Nat) (s : Store) :
    ∃ added, (assignLoop clk rnd p0 rest users k total s).1.user_products =
      s.user_products ++ added := by
  induction users generalizing k total s with
  | nil => exact ⟨[], by simp [assignLoop]⟩
  | cons user users ih =>
    rw [assignLoop_cons]
    split
    · exact ih k total s
    · obtain ⟨a1, h1⟩ := insertSlots_frame clk rnd p0 rest user.id
        (dailyLimitOf s user.level).toNat k s
      split
      · exact ⟨a1, by rw [h1]⟩
      · rename_i s2 hs2
        obtain ⟨a2, h2⟩ := ih (k + (dailyLimitOf s user.level).toNat)
          (total + (insertSlots clk rnd p0 rest user.id
            (dailyLimitOf s user.level).toNat k s).2) s2
        refine ⟨a1 ++ a2, ?_⟩
        rw [h2]
        rcases debitUser_cases hs2 with e | ⟨_, t, _, e⟩
        · rw [e, h1]; simp
        · rw [e, h1]; simp [insertEvent, updateUser]

theorem walletOf_debit (s : Store) (userId v : Nat) (t : ℚ) (e : BalanceEvent) :
    walletOf (insertEvent
        (updateUser s userId (fun u => { u with wallet_balance := u.wallet_balance - t })) e) v
      = if v = userId then (walletOf s v).map (fun w => w - t) else walletOf s v := by
  have h := walletOf_updateUser s userId v
    (fun u => { u with wallet_balance := u.wallet_balance - t }) (fun w => w - t)
    (fun _ => rfl) (fun _ => rfl)
  rw [← h]
  rfl

theorem debitExists_after_debit (s : Store) (clk : Clock) (userId v : Nat) (t : ℚ)
    (d : EventDetails) :
    debitExists (insertEvent
        (updateUser s userId (fun u => { u with wallet_balance := u.wallet_balance - t }))
        { user_id := userId, type := .assignment_debit, amount := t,
          reference_date := some clk.today, details := d }) clk v
      = (debitExists s clk v || decide (userId = v)) := by
  simp [debitExists, insertEvent, updateUser]

/-- The ledger effect of the user loop of bulk assignment: the events it
appends are assignment debits of positive amount for users that had no debit
event today, each matched by a wallet decrease of that amount, and no other
wallet changes. -/
theorem assignLoop_ledger (clk : Clock) (rnd : Nat → Nat) (p0 : Product) (rest : List Product)
    (users : List User) (k total : Nat) (s : Store) :
    ∃ l, (assignLoop clk rnd p0 rest users k total s).1.balance_events
        = s.balance_events ++ l ∧
      (∀ e ∈ l, e.type = .assignment_debit ∧ 0 < e.amount ∧
        debitExists s clk e.user_id = false ∧
        walletOf (assignLoop clk rnd p0 rest users k total s).1 e.user_id
          = (walletOf s e.user_id).map (fun w => w - e.amount)) ∧
      (∀ v, (∀ e ∈ l, e.user_id ≠ v) →
        walletOf (assignLoop clk rnd p0 rest users k total s).1 v = walletOf s v) := by
  induction users generalizing k total s with
  | nil => exact ⟨[], by simp [assignLoop], by simp, fun v _ => rfl⟩
  | cons user users ih =>
    rw [assignLoop_cons]
    split
    · exact ih k total s
    · obtain ⟨a1, h1⟩ := insertSlots_frame clk rnd p0 rest user.id
        (dailyLimitOf s user.level).toNat k s
      have hU : (insertSlots clk rnd p0 rest user.id
          (dailyLimitOf s user.level).toNat k s).1.users = s.users := by rw [h1]
      have hE : (insertSlots clk rnd p0 rest user.id
          (dailyLimitOf s user.level).toNat k s).1.balance_events = s.balance_events := by
        rw [h1]
      split
      · exact ⟨[], by rw [hE]; simp, by simp, fun v _ => walletOf_congr hU v⟩
      · rename_i s2 hs2
        obtain ⟨l2, hl2, hprop, hframe⟩ := ih (k + (dailyLimitOf s user.level).toNat)
          (total + (insertSlots clk rnd p0 rest user.id
            (dailyLimitOf s user.level).toNat k s).2) s2
        rcases debitUser_cases hs2 with e | ⟨hde, t, ht, e⟩
        · refine ⟨l2, ?_, ?_, ?_⟩
          · rw [hl2, e, hE]
          · intro ev hev
            obtain ⟨h1, h2, h3, h4⟩ := hprop ev hev
            refine ⟨h1, h2, ?_, ?_⟩
            · rw [← h3, e]; exact (debitExists_congr hE clk _).symm
            · rw [h4, e, walletOf_congr hU]
          · intro v hv
            rw [hframe v hv, e, walletOf_congr hU]
        · have hw2 : ∀ v, walletOf s2 v
              = if v = user.id then (walletOf s v).map (fun w => w - t) else walletOf s v := by
            intro v
            rw [e, walletOf_debit, walletOf_congr hU]
          have hd2 : ∀ v, debitExists s2 clk v
              = (debitExists s clk v || decide (user.id = v)) := by
            intro v
            rw [e, debitExists_after_debit, debitExists_congr hE]
          have hne : ∀ ev ∈ l2, ev.user_id ≠ user.id := by
            intro ev hev heq
            have h3 := (hprop ev hev).2.2.1
            rw [hd2, heq] at h3
            simp at h3
          refine ⟨{ user_id := user.id, type := .assignment_debit, amount := t,
                    reference_date := some clk.today,
                    details := .assigned (dailyLimitOf s user.level) } :: l2, ?_, ?_, ?_⟩
          · rw [hl2, e]
            simp only [insertEvent, updateUser, hE, List.append_assoc, List.singleton_append]
          · intro ev hev
            rcases List.mem_cons.mp hev with rfl | hev
            · refine ⟨rfl, ht, ?_, ?_⟩
              · rw [← hde]; exact (debitExists_congr hE clk _).symm
              · rw [hframe user.id (fun x hx => hne x hx), hw2, if_pos rfl]
            · obtain ⟨h1, h2, h3, h4⟩ := hprop ev hev
              refine ⟨h1, h2, ?_, ?_⟩
              · rw [hd2] at h3
                simpa using (Bool.or_eq_false_iff.mp h3).1
              · rw [h4, hw2, if_neg (hne ev hev)]
          · intro v hv
            have hvu : v ≠ user.id := fun h => hv _ (List.mem_cons_self _ _) h.symm
            rw [hframe v (fun x hx => hv x (List.mem_cons_of_mem _ hx)), hw2, if_neg hvu]

/-! ## Ledger lemmas of the four event-writing operations -/

theorem ledgered_refl (t : EventType) {s s1 : Store} (hU : s1.users = s.users)
    (hE : s1.balance_events = s.balance_events) : Ledgered t s s1 :=
  ⟨[], by rw [hE]; simp, by simp, fun v _ => walletOf_congr hU v⟩

theorem ledgered_step (s s0 : Store) (hU : s0.users = s.users)
    (hE : s0.balance_events = s.balance_events) (f : User → User) (e : BalanceEvent)
    (hid : ∀ u, (f u).id = u.id)
    (hw : ∀ u, (f u).wallet_balance = u.wallet_balance + signedAmount e) :
    Ledgered e.type s (insertEvent (updateUser s0 e.user_id f) e) := by
  have hwal : ∀ v, walletOf (insertEvent (updateUser s0 e.user_id f) e) v
      = if v = e.user_id then (walletOf s v).map (fun w => w + signedAmount e)
        else walletOf s v := by
    intro v
    have h := walletOf_updateUser s0 e.user_id v f (fun w => w + signedAmount e) hid hw
    rw [walletOf_congr hU] at h
    rw [← h]
    rfl
  refine ⟨[e], ?_, ?_, ?_⟩
  · simp only [insertEvent, updateUser, hE]
  · intro x hx
    rw [List.mem_singleton] at hx
    subst hx
    exact ⟨rfl, by rw [hwal, if_pos rfl]⟩
  · intro v hv
    rw [hwal, if_neg (fun h => hv e (List.mem_singleton.mpr rfl) h.symm)]

theorem audited_of_ledgered {t : EventType} {s s1 : Store} (h : Ledgered t s s1) :
    Audited s s1 := by
  obtain ⟨l, hl, _, hframe⟩ := h
  refine ⟨l, hl, fun v hv => ?_⟩
  by_contra hcon
  exact hv (hframe v (fun e he heq => hcon ⟨e, he, heq⟩))

theorem assignProducts_cases (s : Store) (clk : Clock) (rnd : Nat → Nat)
    (productIds : List Int) :
    (assignProductsToAllUsers s clk rnd productIds).1 = s ∨
    ∃ p0 rest, (assignProductsToAllUsers s clk rnd productIds).1
      = (assignLoop clk rnd p0 rest (activeUsers s) 0 0 s).1 := by
  unfold assignProductsToAllUsers
  simp only
  split
  · exact Or.inl rfl
  · split
    · exact Or.inl rfl
    · exact Or.inl rfl
    · rename_i p0 rest _
      refine Or.inr ⟨p0, rest, ?_⟩
      split <;> rfl

theorem ledgered_assignProducts (s : Store) (clk : Clock) (rnd : Nat → Nat)
    (productIds : List Int) :
    Ledgered .assignment_debit s (assignProductsToAllUsers s clk rnd productIds).1 := by
  rcases assignProducts_cases s clk rnd productIds with h | ⟨p0, rest, h⟩
  · rw [h]; exact ledgered_refl _ rfl rfl
  · rw [h]
    obtain ⟨l, hl, hprop, hframe⟩ := assignLoop_ledger clk rnd p0 rest (activeUsers s) 0 0 s
    refine ⟨l, hl, fun e he => ?_, hframe⟩
    obtain ⟨h1, _, _, h4⟩ := hprop e he
    refine ⟨h1, ?_⟩
    rw [h4]
    have hs : signedAmount e = -e.amount := by simp [signedAmount, h1]
    simp only [hs, sub_eq_add_neg]

theorem submitAllToday_cases (s : Store) (clk : Clock) (userId : Nat) :
    submitAllToday s clk userId = (s, .userNotFound) ∨
    submitAllToday s clk userId = (s, .noPendingTasks) ∨
    ∃ u, findUser s userId = some u ∧ submitTodayRows s clk userId ≠ [] := by
  cases hu : findUser s userId with
  | none => exact Or.inl (by simp [submitAllToday, hu])
  | some u =>
    by_cases hr : submitTodayRows s clk userId = []
    · exact Or.inr (Or.inl (by simp [submitAllToday, hu, hr]))
    · exact Or.inr (Or.inr ⟨u, rfl, hr⟩)

theorem ledgered_submitAllToday (s : Store) (clk : Clock) (userId : Nat) :
    Ledgered .submission_credit s (submitAllToday s clk userId).1 := by
  rcases submitAllToday_cases s clk userId with h | h | ⟨u, hu, hr⟩
  · rw [h]; exact ledgered_refl _ rfl rfl
  · rw [h]; exact ledgered_refl _ rfl rfl
  · rw [submitAllToday_of_rows s clk userId u hu hr]
    exact ledgered_step s _ rfl rfl _
      { user_id := userId, type := .submission_credit, amount := _,
        reference_date := some clk.today, details := _ } (fun _ => rfl) (fun _ => rfl)

theorem ledgered_deposit (s : Store) (clk : Clock) (userId : Nat) (amount : ℚ) :
    Ledgered .deposit s (deposit s clk userId amount).1 := by
  unfold deposit
  split
  · exact ledgered_refl _ rfl rfl
  · have h := ledgered_step s s rfl rfl
      (fun u => { u with wallet_balance := u.wallet_balance + amount })
      { user_id := userId, type := .deposit, amount := amount,
        reference_date := some clk.today, details := .depositOf (round2 amount) }
      (fun _ => rfl) (fun _ => rfl)
    dsimp only
    split <;> exact h

theorem ledgered_applyDifference (s s0 : Store) (hU : s0.users = s.users)
    (hE : s0.balance_events = s.balance_events) (clk : Clock) (userId : Nat)
    (productName : String) (d : ℚ) :
    Ledgered .manual_adjustment s (applyDifference s0 clk userId productName d) := by
  unfold applyDifference
  split
  · rename_i hd
    refine ledgered_step s s0 hU hE _
      { user_id := userId, type := .manual_adjustment, amount := |d|,
        reference_date := some clk.today,
        details := if d ≥ 0 then .manualAssignment productName
                   else .manualRefund productName } (fun _ => rfl) (fun u => ?_)
    by_cases hpos : d ≥ 0
    · simp [signedAmount, hpos, abs_of_nonneg hpos, sub_eq_add_neg]
    · simp [signedAmount, hpos, abs_of_neg (not_le.mp hpos)]
      exact sub_eq_add_neg _ _
  · exact ledgered_refl _ hU hE

theorem ledgered_upsert (s : Store) (clk : Clock) (userRow : User) (productRow : Product)
    (price bonus : ℚ) (priceToUse : Option ℚ) :
    Ledgered .manual_adjustment s
      (upsertAssignment s clk userRow productRow price bonus priceToUse) := by
  unfold upsertAssignment
  split
  · dsimp only
    refine ledgered_applyDifference s _ ?_ ?_ clk _ _ _ <;> rfl
  · dsimp only
    refine ledgered_applyDifference s _ ?_ ?_ clk _ _ _ <;> rfl

theorem assignSingleTask_cases (s : Store) (clk : Clock) (userId productId : Nat)
    (manualBonus : Option ℚ) (customPrice : PriceArg) :
    ((assignSingleTask s clk userId productId manualBonus customPrice).1 = s ∧
      (assignSingleTask s clk userId productId manualBonus customPrice).2 ≠ .ok) ∨
    ∃ userRow productRow price priceToUse,
      findUser s userId = some userRow ∧ findProduct s productId = some productRow ∧
      productRow.status = .active ∧
      assignSingleTask s clk userId productId manualBonus customPrice =
        (upsertAssignment s clk userRow productRow price (cleanBonus manualBonus) priceToUse,
         .ok) := by
  unfold assignSingleTask
  split
  · exact Or.inl ⟨rfl, by simp⟩
  · simp only
    cases hu : findUser s userId with
    | none => exact Or.inl ⟨rfl, by simp⟩
    | some userRow =>
      simp only
      cases hp : findProduct s productId with
      | none => exact Or.inl ⟨rfl, by simp⟩
      | some productRow =>
        simp only
        split
        · exact Or.inl ⟨rfl, by simp⟩
        · rename_i hact
          have hact1 : productRow.status = .active := by simpa using hact
          cases customPrice with
          | notANumber => exact Or.inl ⟨rfl, by simp⟩
          | num q =>
            simp only
            split
            · exact Or.inl ⟨rfl, by simp⟩
            · exact Or.inr ⟨userRow, productRow, q, some q, rfl, rfl, hact1, rfl⟩
          | absent =>
            simp only
            split
            · exact Or.inl ⟨rfl, by simp⟩
            · exact Or.inr ⟨userRow, productRow, _, none, rfl, rfl, hact1, rfl⟩

theorem ledgered_assignSingleTask (s : Store) (clk : Clock) (userId productId : Nat)
    (manualBonus : Option ℚ) (customPrice : PriceArg) :
    Ledgered .manual_adjustment s
      (assignSingleTask s clk userId productId manualBonus customPrice).1 := by
  rcases assignSingleTask_cases s clk userId productId manualBonus customPrice with
    ⟨h, _⟩ | ⟨u, p, price, ptu, _, _, _, h⟩
  · rw [h]; exact ledgered_refl _ rfl rfl
  · rw [h]; exact ledgered_upsert s clk u p price _ ptu

/-! ## Lemmas on the rows an operation leaves alone -/

theorem mem_map_update_of_ne {rows : List UserProduct} {r : UserProduct} {upId : Nat}
    (f : UserProduct → UserProduct) (hr : r ∈ rows) (hne : r.id ≠ upId) :
    r ∈ rows.map (fun x => if x.id = upId then f x else x) :=
  List.mem_map.mpr ⟨r, hr, by rw [if_neg hne]⟩

theorem submitOne_keeps_others (s : Store) (clk : Clock) (userId assignmentId : Nat)
    (r : UserProduct) (hr : r ∈ s.user_products) (hne : r.id ≠ assignmentId) :
    r ∈ (submitOne s clk userId assignmentId).1.user_products := by
  cases hl : submitOneLookup s userId assignmentId with
  | none => simpa [submitOne, hl] using hr
  | some row =>
    obtain ⟨up, p⟩ := row
    rw [submitOne_of_lookup s clk userId assignmentId up p hl]
    dsimp only
    split
    · exact hr
    · exact mem_map_update_of_ne _ hr hne

theorem submitAllToday_keeps_completed (s : Store) (clk : Clock) (userId : Nat)
    (hid : (s.user_products.map (fun r => r.id)).Nodup)
    (r : UserProduct) (hr : r ∈ s.user_products) (hc : r.status = .completed) :
    r ∈ (submitAllToday s clk userId).1.user_products := by
  rcases submitAllToday_cases s clk userId with h | h | ⟨u, hu, hrows⟩
  · rw [h]; exact hr
  · rw [h]; exact hr
  · rw [submitAllToday_of_rows s clk userId u hu hrows]
    simp only [insertEvent, updateUser, List.mem_map]
    refine ⟨r, hr, batchRowAfter_untouched _ _ _ _ r ?_⟩
    intro row hrow heq
    obtain ⟨up, p⟩ := row
    have hm := mem_joinProducts.mp hrow
    have e : up = r := List.inj_on_of_nodup_map hid hm.1 hr heq
    subst e
    have hst := hm.2.1
    simp [hc] at hst

theorem assignProducts_keeps_rows (s : Store) (clk : Clock) (rnd : Nat → Nat)
    (productIds : List Int) (r : UserProduct) (hr : r ∈ s.user_products) :
    r ∈ (assignProductsToAllUsers s clk rnd productIds).1.user_products := by
  rcases assignProducts_cases s clk rnd productIds with h | ⟨p0, rest, h⟩
  · rw [h]; exact hr
  · rw [h]
    obtain ⟨added, ha⟩ := assignLoop_rows clk rnd p0 rest (activeUsers s) 0 0 s
    rw [ha]
    exact List.mem_append_left _ hr

theorem applyDifference_user_products (s : Store) (clk : Clock) (userId : Nat)
    (productName : String) (d : ℚ) :
    (applyDifference s clk userId productName d).user_products = s.user_products := by
  unfold applyDifference
  split <;> rfl

theorem findExisting_some {s : Store} {clk : Clock} {userId productId : Nat}
    {ex : UserProduct} (h : findExisting s clk userId productId = some ex) :
    ex ∈ s.user_products ∧ ex.user_id = userId ∧ ex.product_id = productId ∧
      ex.assigned_date = clk.today := by
  unfold findExisting at h
  have h1 := List.mem_of_find?_eq_some h
  have h2 := List.find?_some h
  simp only [Bool.decide_and, Bool.and_eq_true, decide_eq_true_eq] at h2
  exact ⟨h1, h2⟩

theorem assignSingleTask_keeps_others (s : Store) (clk : Clock) (userId productId : Nat)
    (manualBonus : Option ℚ) (customPrice : PriceArg)
    (hid : (s.user_products.map (fun r => r.id)).Nodup)
    (r : UserProduct) (hr : r ∈ s.user_products)
    (hother : ¬ (r.user_id = userId ∧ r.product_id = productId ∧ r.assigned_date = clk.today)) :
    r ∈ (assignSingleTask s clk userId productId manualBonus customPrice).1.user_products := by
  rcases assignSingleTask_cases s clk userId productId manualBonus customPrice with
    ⟨h, _⟩ | ⟨u, p, price, ptu, hu, hp, _, h⟩
  · rw [h]; exact hr
  · rw [h]
    have huid : u.id = userId := findUser_id hu
    have hpid : p.id = productId := by
      have := List.find?_some hp
      simpa using this
    unfold upsertAssignment
    cases hex : findExisting s clk u.id p.id with
    | none =>
      simp only [applyDifference_user_products]
      exact List.mem_append_left _ hr
    | some ex =>
      simp only [applyDifference_user_products]
      obtain ⟨hexm, h1, h2, h3⟩ := findExisting_some hex
      refine mem_map_update_of_ne _ hr (fun heq => hother ?_)
      have e : r = ex := List.inj_on_of_nodup_map hid hr hexm heq
      rw [e, h1, h2, h3, huid, hpid]
      exact ⟨rfl, rfl, rfl⟩

/-! ## C5: completed rows under the engine operations -/

/-- C5, as stated, fails for the single assignment: in `completedStore` row 3
is completed with 10.00 earned and 0.50 commission; assigning product 7 to
user 1 again succeeds and leaves that row pending with both amounts 0. -/
theorem reassignment_reopens_completed :
    completedStore.user_products =
      [{ sampleAssignment with
         status := .completed, amount_earned := 10, commission_earned := 1 / 2,
         submitted_at := some 4000 }] ∧
    (assignSingleTask completedStore sampleClock 1 7 none .absent).2 = .ok ∧
    (assignSingleTask completedStore sampleClock 1 7 none .absent).1.user_products =
      [{ sampleAssignment with
         status := .pending, amount_earned := 0, commission_earned := 0,
         is_manual := true, submitted_at := none }] := by
  decide!

/-- C5, amended: with assignment ids being keys, a completed row is still in
the table, unchanged, after a batch submission and after a bulk assignment;
after a single assignment when the row is not the one of that (user, product,
today), which the single assignment reopens; and after a single submission of
another assignment id. -/
theorem completed_rows_kept (s : Store) (clk : Clock)
    (hid : (s.user_products.map (fun r => r.id)).Nodup)
    (r : UserProduct) (hr : r ∈ s.user_products) (hc : r.status = .completed) :
    (∀ userId, r ∈ (submitAllToday s clk userId).1.user_products) ∧
    (∀ rnd productIds, r ∈ (assignProductsToAllUsers s clk rnd productIds).1.user_products) ∧
    (∀ userId productId manualBonus customPrice,
      ¬ (r.user_id = userId ∧ r.product_id = productId ∧ r.assigned_date = clk.today) →
      r ∈ (assignSingleTask s clk userId productId manualBonus customPrice).1.user_products) ∧
    (∀ userId assignmentId, r.id ≠ assignmentId →
      r ∈ (submitOne s clk userId assignmentId).1.user_products) :=
  ⟨fun userId => submitAllToday_keeps_completed s clk userId hid r hr hc,
   fun rnd productIds => assignProducts_keeps_rows s clk rnd productIds r hr,
   fun userId productId manualBonus customPrice hother =>
     assignSingleTask_keeps_others s clk userId productId manualBonus customPrice hid r hr hother,
   fun userId assignmentId hne => submitOne_keeps_others s clk userId assignmentId r hr hne⟩

/-- C5, amended, at `completedStore`: its completed row survives the batch
submission, a bulk assignment, a single assignment of another product and a
single submission of another id. -/
theorem completed_rows_kept_witness :
    (∀ userId, { sampleAssignment with
        status := .completed, amount_earned := 10, commission_earned := 1 / 2,
        submitted_at := some 4000 } ∈
      (submitAllToday completedStore sampleClock userId).1.user_products) ∧
    (∀ rnd productIds, { sampleAssignment with
        status := .completed, amount_earned := 10, commission_earned := 1 / 2,
        submitted_at := some 4000 } ∈
      (assignProductsToAllUsers completedStore sampleClock rnd productIds).1.user_products) ∧
    (∀ userId productId manualBonus customPrice,
      ¬ ((1 : Nat) = userId ∧ (7 : Nat) = productId ∧ (100 : Nat) = sampleClock.today) →
      { sampleAssignment with
        status := .completed, amount_earned := 10, commission_earned := 1 / 2,
        submitted_at := some 4000 } ∈
      (assignSingleTask completedStore sampleClock userId productId manualBonus
        customPrice).1.user_products) ∧
    (∀ userId assignmentId, (3 : Nat) ≠ assignmentId →
      { sampleAssignment with
        status := .completed, amount_earned := 10, commission_earned := 1 / 2,
        submitted_at := some 4000 } ∈
      (submitOne completedStore sampleClock userId assignmentId).1.user_products) :=
  completed_rows_kept completedStore sampleClock (by decide)
    { sampleAssignment with
      status := .completed, amount_earned := 10, commission_earned := 1 / 2,
      submitted_at := some 4000 }
    (List.mem_singleton.mpr rfl) rfl

/-! ## C6: wallet changes and balance events -/

/-- C6, as stated, fails: approving the withdrawal of `withdrawalStore` takes
the wallet of user 1 from 0 to -4.00 and the balance override sets it to
50.00, and neither writes a balance event. -/
theorem silent_wallet_changes :
    walletOf withdrawalStore 1 = some 0 ∧
    (approveWithdrawal withdrawalStore sampleClock 1).2 = true ∧
    walletOf (approveWithdrawal withdrawalStore sampleClock 1).1 1 = some (-4) ∧
    (approveWithdrawal withdrawalStore sampleClock 1).1.balance_events
      = withdrawalStore.balance_events ∧
    walletOf (adminSetBalance withdrawalStore 1 50) 1 = some 50 ∧
    (adminSetBalance withdrawalStore 1 50).balance_events = withdrawalStore.balance_events := by
  decide!

/-- C6, amended: the batch submission, the bulk assignment, the single
assignment and the deposit only append to the balance events, and every user
whose wallet they change has an event among the appended ones. -/
theorem event_writing_operations_audited (s : Store) (clk : Clock) :
    (∀ userId, Audited s (submitAllToday s clk userId).1) ∧
    (∀ rnd productIds, Audited s (assignProductsToAllUsers s clk rnd productIds).1) ∧
    (∀ userId productId manualBonus customPrice,
      Audited s (assignSingleTask s clk userId productId manualBonus customPrice).1) ∧
    (∀ userId amount, Audited s (deposit s clk userId amount).1) :=
  ⟨fun userId => audited_of_ledgered (ledgered_submitAllToday s clk userId),
   fun rnd productIds => audited_of_ledgered (ledgered_assignProducts s clk rnd productIds),
   fun userId productId manualBonus customPrice =>
     audited_of_ledgered (ledgered_assignSingleTask s clk userId productId manualBonus customPrice),
   fun userId amount => audited_of_ledgered (ledgered_deposit s clk userId amount)⟩

/-! ## C7: the sign of an event's amount -/

/-- C7, as stated, fails for `manual_adjustment`: a first assignment at custom
price 5.00 writes an event of amount 5 and takes the wallet from 0 to -5.00,
while lowering the custom price of an assignment from 10.00 to 5.00 writes an
event of the same type and amount and takes the wallet from 0 to +5.00. -/
theorem manual_adjustment_two_signs :
    walletOf unassignedStore 1 = some 0 ∧
    (assignSingleTask unassignedStore sampleClock 1 7 none (.num 5)).1.balance_events =
      [{ user_id := 1, type := .manual_adjustment, amount := 5, reference_date := some 100,
         details := .manualAssignment "P" }] ∧
    walletOf (assignSingleTask unassignedStore sampleClock 1 7 none (.num 5)).1 1 = some (-5) ∧
    walletOf customPriceStore 1 = some 0 ∧
    (assignSingleTask customPriceStore sampleClock 1 7 none (.num 5)).1.balance_events =
      [{ user_id := 1, type := .manual_adjustment, amount := 5, reference_date := some 100,
         details := .manualRefund "P" }] ∧
    walletOf (assignSingleTask customPriceStore sampleClock 1 7 none (.num 5)).1 1 = some 5 := by
  decide!

/-- C7, amended: each of the four operations only appends events of its own
type, the wallet of an appended event's user after the operation is the
wallet before plus the event's amount signed as in `signedAmount` (minus for
an assignment debit, plus for a submission credit and a deposit, and for a
manual adjustment minus when it records an assignment and plus when it
records a refund), and no other wallet changes. -/
theorem events_account_for_wallets (s : Store) (clk : Clock) :
    (∀ rnd productIds,
      Ledgered .assignment_debit s (assignProductsToAllUsers s clk rnd productIds).1) ∧
    (∀ userId, Ledgered .submission_credit s (submitAllToday s clk userId).1) ∧
    (∀ userId productId manualBonus customPrice,
      Ledgered .manual_adjustment s
        (assignSingleTask s clk userId productId manualBonus customPrice).1) ∧
    (∀ userId amount, Ledgered .deposit s (deposit s clk userId amount).1) :=
  ⟨fun rnd productIds => ledgered_assignProducts s clk rnd productIds,
   fun userId => ledgered_submitAllToday s clk userId,
   fun userId productId manualBonus customPrice =>
     ledgered_assignSingleTask s clk userId productId manualBonus customPrice,
   fun userId amount => ledgered_deposit s clk userId amount⟩

/-! ## C8: the amount of a balance event -/

/-- C8 fails on the code: the batch submission writes its event without
testing the amount.  Assigning product 7 to user 1 at custom price 0 succeeds
and writes no event; the batch submission of that row then succeeds and
appends a `submission_credit` event of amount 0. -/
theorem zero_amount_submission_credit :
    assignSingleTask unassignedStore sampleClock 1 7 none (.num 0)
      = ({ unassignedStore with
           user_products := [{ sampleAssignment with
             id := 1, custom_price := some 0, is_manual := true }] }, .ok) ∧
    (submitAllToday (assignSingleTask unassignedStore sampleClock 1 7 none (.num 0)).1
        sampleClock 1).2 = .ok 1 0 0 0 0 ∧
    (submitAllToday (assignSingleTask unassignedStore sampleClock 1 7 none (.num 0)).1
        sampleClock 1).1.balance_events =
      [{ user_id := 1, type := .submission_credit, amount := 0, reference_date := some 100,
         details := .submitted 1 }] := by
  decide!

/-! ## C9: the totals of a batch submission -/

theorem abs_sum_map_le {α : Type} (l : List α) (f : α → ℚ) :
    |(l.map f).sum| ≤ (l.map (fun a => |f a|)).sum := by
  induction l with
  | nil => simp
  | cons a t ih =>
    simp only [List.map_cons, List.sum_cons]
    exact (abs_add _ _).trans (add_le_add le_rfl ih)

theorem sum_map_le_sum_map {α : Type} (l : List α) (f g : α → ℚ) (h : ∀ a ∈ l, f a ≤ g a) :
    (l.map f).sum ≤ (l.map g).sum := by
  induction l with
  | nil => simp
  | cons a t ih =>
    simp only [List.map_cons, List.sum_cons]
    exact add_le_add (h a (List.mem_cons_self _ _))
      (ih (fun b hb => h b (List.mem_cons_of_mem _ hb)))

theorem le_sum_map_of_mem {α : Type} (l : List α) (g : α → ℚ) (h0 : ∀ a ∈ l, 0 ≤ g a)
    {a : α} (ha : a ∈ l) : g a ≤ (l.map g).sum := by
  induction l with
  | nil => cases ha
  | cons b t ih =>
    simp only [List.map_cons, List.sum_cons]
    have hb : 0 ≤ g b := h0 b (List.mem_cons_self _ _)
    have ht : 0 ≤ (t.map g).sum :=
      List.sum_nonneg (by
        intro x hx
        obtain ⟨y, hy, rfl⟩ := List.mem_map.mp hx
        exact h0 y (List.mem_cons_of_mem _ hy))
    rcases List.mem_cons.mp ha with rfl | h
    · linarith
    · have := ih (fun c hc => h0 c (List.mem_cons_of_mem _ hc)) h
      linarith

/-- The total of the absolute amounts of a batch is below its magnitude. -/
theorem batch_total_le (rows : List (UserProduct × Product)) (userLevel : Nat) (rate : ℚ)
    (hb : batchMagnitude rows userLevel rate ≤ 10 ^ 13) :
    (rows.map (fun row => |batchRowPrice row.1 row.2 userLevel|)).sum
      + (rows.map (fun row => |row.1.manual_bonus|)).sum
      + (rows.map (fun row => |batchRowCommission userLevel rate row|)).sum ≤ 10 ^ 13 ∧
    (rows.length : ℚ) * ((rows.map (fun row => |batchRowPrice row.1 row.2 userLevel|)).sum
      + (rows.map (fun row => |row.1.manual_bonus|)).sum
      + (rows.map (fun row => |batchRowCommission userLevel rate row|)).sum) ≤ 10 ^ 13 := by
  unfold batchMagnitude at hb
  rw [sum_map_add3] at hb
  refine ⟨?_, hb⟩
  cases rows with
  | nil => simp
  | cons r t =>
    have h1 : (1 : ℚ) ≤ ((r :: t).length : ℚ) := by
      rw [List.length_cons]; push_cast; linarith [(Nat.cast_nonneg t.length : (0 : ℚ) ≤ _)]
    have h0 : ∀ (f : UserProduct × Product → ℚ),
        0 ≤ ((r :: t).map (fun row => |f row|)).sum := fun f =>
      List.sum_nonneg (by
        intro x hx
        obtain ⟨y, _, rfl⟩ := List.mem_map.mp hx
        exact abs_nonneg _)
    have hp := h0 (fun row => batchRowPrice row.1 row.2 userLevel)
    have hm := h0 (fun row => row.1.manual_bonus)
    have hc := h0 (batchRowCommission userLevel rate)
    nlinarith

/-- With two decimals in every price and bonus and a magnitude of at most
10^13, the running sums of the batch on doubles, rounded, are the plain sums,
and the credit is the sum of the three totals. -/
theorem batch_totals_exact (rows : List (UserProduct × Product)) (userLevel : Nat) (rate : ℚ)
    (hdec : ∀ row ∈ rows, twoDecimals (batchRowPrice row.1 row.2 userLevel) = true ∧
      twoDecimals row.1.manual_bonus = true)
    (hb : batchMagnitude rows userLevel rate ≤ 10 ^ 13) :
    round2 (jsSumFrom 0 (rows.map (fun row => batchRowPrice row.1 row.2 userLevel)))
      = (rows.map (fun row => batchRowPrice row.1 row.2 userLevel)).sum ∧
    round2 (jsSumFrom 0 (rows.map (fun row => row.1.manual_bonus)))
      = (rows.map (fun row => row.1.manual_bonus)).sum ∧
    round2 (jsSumFrom 0 (rows.map (batchRowCommission userLevel rate)))
      = (rows.map (batchRowCommission userLevel rate)).sum ∧
    round2 (fl (jsAdd (rows.map (fun row => batchRowPrice row.1 row.2 userLevel)).sum
        (rows.map (fun row => row.1.manual_bonus)).sum
        + fl (rows.map (batchRowCommission userLevel rate)).sum))
      = (rows.map (fun row => batchRowPrice row.1 row.2 userLevel)).sum
        + (rows.map (fun row => row.1.manual_bonus)).sum
        + (rows.map (batchRowCommission userLevel rate)).sum := by
  obtain ⟨hT, hnT⟩ := batch_total_le rows userLevel rate hb
  have h0 : ∀ (f : UserProduct × Product → ℚ),
      0 ≤ (rows.map (fun row => |f row|)).sum := fun f =>
    List.sum_nonneg (by
      intro x hx
      obtain ⟨y, _, rfl⟩ := List.mem_map.mp hx
      exact abs_nonneg _)
  have hp := h0 (fun row => batchRowPrice row.1 row.2 userLevel)
  have hm := h0 (fun row => row.1.manual_bonus)
  have hc := h0 (batchRowCommission userLevel rate)
  have hn : (0 : ℚ) ≤ rows.length := Nat.cast_nonneg _
  have key : ∀ (f : UserProduct × Product → ℚ),
      (∀ row ∈ rows, ∃ n : ℤ, f row = (n : ℚ) / 100) →
      (rows.length : ℚ) * (rows.map (fun row => |f row|)).sum ≤ 10 ^ 13 →
      round2 (jsSumFrom 0 (rows.map f)) = (rows.map f).sum := by
    intro f hf hbound
    apply round2_jsSumFrom_cents
    · intro c hcm
      obtain ⟨row, hrow, rfl⟩ := List.mem_map.mp hcm
      exact hf row hrow
    · rw [List.length_map, List.map_map]
      exact hbound
  have c1 : ∀ row ∈ rows, ∃ n : ℤ, batchRowPrice row.1 row.2 userLevel = (n : ℚ) / 100 :=
    fun row hr => hundredths_of_twoDecimals (hdec row hr).1
  have c2 : ∀ row ∈ rows, ∃ n : ℤ, row.1.manual_bonus = (n : ℚ) / 100 :=
    fun row hr => hundredths_of_twoDecimals (hdec row hr).2
  have c3 : ∀ row ∈ rows, ∃ n : ℤ, batchRowCommission userLevel rate row = (n : ℚ) / 100 :=
    fun row _ => round2_hundredths _
  refine ⟨key _ c1 (by nlinarith), key _ c2 (by nlinarith), key _ c3 (by nlinarith), ?_⟩
  apply round2_credit_cents (cents_sum rows _ c1) (cents_sum rows _ c2) (cents_sum rows _ c3)
  have a1 := abs_sum_map_le rows (fun row => batchRowPrice row.1 row.2 userLevel)
  have a2 := abs_sum_map_le rows (fun row => row.1.manual_bonus)
  have a3 := abs_sum_map_le rows (batchRowCommission userLevel rate)
  linarith

/-- C9: a batch submission for an existing user with at least one selected
row answers `ok` with the row count and three totals: the prices, the bonuses
and the per-row commissions `round2 (price * rate)` of the selected rows, each
summed up in doubles from 0 in the order of the rows and rounded to 2
decimals. It appends exactly one `submission_credit` event whose amount is
`totalCredit`, the sum in doubles of the three totals rounded to 2 decimals,
and adds `totalCredit` to the wallet. When every price and bonus has at most
2 decimals and the magnitude of the batch is at most 10^13, the three totals
are the plain sums and `totalCredit` is their plain sum. -/
theorem submitAllToday_totals (s : Store) (clk : Clock) (userId : Nat) (u : User)
    (hu : findUser s userId = some u) (hrows : submitTodayRows s clk userId ≠ []) :
    ∃ totalPrice totalManualBonus totalCommission totalCredit : ℚ,
      totalPrice = round2 (jsSumFrom 0 ((submitTodayRows s clk userId).map
        (fun row => batchRowPrice row.1 row.2 (levelOr1 u.level)))) ∧
      totalManualBonus = round2 (jsSumFrom 0 ((submitTodayRows s clk userId).map
        (fun row => row.1.manual_bonus))) ∧
      totalCommission = round2 (jsSumFrom 0 ((submitTodayRows s clk userId).map
        (fun row => round2 (jsMul (batchRowPrice row.1 row.2 (levelOr1 u.level))
          (rateOf s (levelOr1 u.level)))))) ∧
      totalCredit = round2 (fl (jsAdd totalPrice totalManualBonus + fl totalCommission)) ∧
      (submitAllToday s clk userId).2 =
        .ok (submitTodayRows s clk userId).length totalPrice totalManualBonus totalCommission
          totalCredit ∧
      (submitAllToday s clk userId).1.balance_events = s.balance_events ++
        [{ user_id := userId, type := .submission_credit, amount := totalCredit,
           reference_date := some clk.today,
           details := .submitted (submitTodayRows s clk userId).length }] ∧
      walletOf (submitAllToday s clk userId).1 userId = some (u.wallet_balance + totalCredit) ∧
      ((∀ row ∈ submitTodayRows s clk userId,
          twoDecimals (batchRowPrice row.1 row.2 (levelOr1 u.level)) = true ∧
          twoDecimals row.1.manual_bonus = true) →
        batchMagnitude (submitTodayRows s clk userId) (levelOr1 u.level)
          (rateOf s (levelOr1 u.level)) ≤ 10 ^ 13 →
        totalPrice = ((submitTodayRows s clk userId).map
          (fun row => batchRowPrice row.1 row.2 (levelOr1 u.level))).sum ∧
        totalManualBonus = ((submitTodayRows s clk userId).map
          (fun row => row.1.manual_bonus)).sum ∧
        totalCommission = ((submitTodayRows s clk userId).map
          (fun row => round2 (jsMul (batchRowPrice row.1 row.2 (levelOr1 u.level))
            (rateOf s (levelOr1 u.level))))).sum ∧
        totalCredit = totalPrice + totalManualBonus + totalCommission) := by
  refine ⟨_, _, _, _, rfl, rfl, rfl, rfl, ?_, ?_, ?_, ?_⟩
  · rw [submitAllToday_of_rows s clk userId u hu hrows]
    rfl
  · rw [submitAllToday_of_rows s clk userId u hu hrows]
    rfl
  · rw [submitAllToday_of_rows s clk userId u hu hrows]
    dsimp only
    unfold walletOf
    rw [findUser_insertEvent, findUser_updateUser]
    · change Option.map _ (Option.map _ (findUser s userId)) = _
      rw [hu]
      simp only [Option.map_some', if_pos (findUser_id hu)]
      rfl
    · intro _; rfl
  · intro hdec hb
    obtain ⟨e1, e2, e3, e4⟩ := batch_totals_exact (submitTodayRows s clk userId)
      (levelOr1 u.level) (rateOf s (levelOr1 u.level)) hdec hb
    have e3' : round2 (jsSumFrom 0 ((submitTodayRows s clk userId).map
        (fun row => round2 (jsMul (batchRowPrice row.1 row.2 (levelOr1 u.level))
          (rateOf s (levelOr1 u.level))))))
        = ((submitTodayRows s clk userId).map
          (fun row => round2 (jsMul (batchRowPrice row.1 row.2 (levelOr1 u.level))
            (rateOf s (levelOr1 u.level))))).sum := e3
    refine ⟨e1, e2, e3', ?_⟩
    rw [e1, e2, e3']
    exact e4

/-- C9 at a batch of two rows priced 10.00 and 2.90 at the rate 0.05: the
totals are 12.90, 0 and 0.64 (the commissions being 0.50 and 0.14), the
credit is 13.54. -/
theorem submitAllToday_totals_witness :
    findUser twoRowStore 1 = some sampleUser ∧
    submitTodayRows twoRowStore sampleClock 1 ≠ [] ∧
    (submitTodayRows twoRowStore sampleClock 1).length = 2 ∧
    (submitAllToday twoRowStore sampleClock 1).2 = .ok 2 (129 / 10) 0 (16 / 25) (677 / 50) ∧
    walletOf (submitAllToday twoRowStore sampleClock 1).1 1 = some (677 / 50) ∧
    ∃ totalPrice totalManualBonus totalCommission totalCredit : ℚ,
      totalPrice = round2 (jsSumFrom 0 ((submitTodayRows twoRowStore sampleClock 1).map
        (fun row => batchRowPrice row.1 row.2 (levelOr1 sampleUser.level)))) ∧
      totalManualBonus = round2 (jsSumFrom 0 ((submitTodayRows twoRowStore sampleClock 1).map
        (fun row => row.1.manual_bonus))) ∧
      totalCommission = round2 (jsSumFrom 0 ((submitTodayRows twoRowStore sampleClock 1).map
        (fun row => round2 (jsMul (batchRowPrice row.1 row.2 (levelOr1 sampleUser.level))
          (rateOf twoRowStore (levelOr1 sampleUser.level)))))) ∧
      totalCredit = round2 (fl (jsAdd totalPrice totalManualBonus + fl totalCommission)) ∧
      (submitAllToday twoRowStore sampleClock 1).2 =
        .ok (submitTodayRows twoRowStore sampleClock 1).length totalPrice totalManualBonus
          totalCommission totalCredit ∧
      (submitAllToday twoRowStore sampleClock 1).1.balance_events =
        twoRowStore.balance_events ++
        [{ user_id := 1, type := .submission_credit, amount := totalCredit,
           reference_date := some sampleClock.today,
           details := .submitted (submitTodayRows twoRowStore sampleClock 1).length }] ∧
      walletOf (submitAllToday twoRowStore sampleClock 1).1 1
        = some (sampleUser.wallet_balance + totalCredit) ∧
      ((∀ row ∈ submitTodayRows twoRowStore sampleClock 1,
          twoDecimals (batchRowPrice row.1 row.2 (levelOr1 sampleUser.level)) = true ∧
          twoDecimals row.1.manual_bonus = true) →
        batchMagnitude (submitTodayRows twoRowStore sampleClock 1) (levelOr1 sampleUser.level)
          (rateOf twoRowStore (levelOr1 sampleUser.level)) ≤ 10 ^ 13 →
        totalPrice = ((submitTodayRows twoRowStore sampleClock 1).map
          (fun row => batchRowPrice row.1 row.2 (levelOr1 sampleUser.level))).sum ∧
        totalManualBonus = ((submitTodayRows twoRowStore sampleClock 1).map
          (fun row => row.1.manual_bonus)).sum ∧
        totalCommission = ((submitTodayRows twoRowStore sampleClock 1).map
          (fun row => round2 (jsMul (batchRowPrice row.1 row.2 (levelOr1 sampleUser.level))
            (rateOf twoRowStore (levelOr1 sampleUser.level))))).sum ∧
        totalCredit = totalPrice + totalManualBonus + totalCommission) :=
  ⟨rfl, by decide, by decide, by decide!, by decide!,
   submitAllToday_totals twoRowStore sampleClock 1 sampleUser rfl (by decide)⟩

/-! ## C10: the batch price against the single price -/

/-- C10 fails on the code: the batch loop reads `Number(row[priceColumn] ||
0)` without the fallback to `level1_price` that the single submission has.  In
`fallbackStore` (level 2, `level2_price = 0`, `level1_price = 10.00`) the
single submission of row 3 computes `baseAmount = 10` and `commission = 0.50`,
while the batch submission writes 0 and 0 to the same row. -/
theorem batch_price_misses_fallback :
    (submitOne fallbackStore sampleClock 1 3).2 = .ok (21 / 2) 10 (1 / 2) 0 ∧
    (submitAllToday fallbackStore sampleClock 1).2 = .ok 1 0 0 0 0 ∧
    (submitAllToday fallbackStore sampleClock 1).1.user_products =
      [{ sampleAssignment with
         status := .completed, amount_earned := 0, commission_earned := 0,
         submitted_at := some 5000 }] := by
  decide!

/-! ## C11: the batch submission has no balance guard -/

theorem batchRowAfter_fields (clk : Clock) (userLevel : Nat) (rate : ℚ)
    (rows : List (UserProduct × Product)) (r : UserProduct) :
    (batchRowAfter clk userLevel rate rows r).user_id = r.user_id ∧
    (batchRowAfter clk userLevel rate rows r).product_id = r.product_id ∧
    (batchRowAfter clk userLevel rate rows r).assigned_date = r.assigned_date := by
  induction rows generalizing r with
  | nil => exact ⟨rfl, rfl, rfl⟩
  | cons row rows ih =>
    unfold batchRowAfter at ih ⊢
    rw [List.foldl_cons]
    by_cases h : r.id = row.1.id
    · rw [if_pos h]
      exact ih _
    · rw [if_neg h]
      exact ih _

theorem batchRowAfter_completed (clk : Clock) (userLevel : Nat) (rate : ℚ)
    (rows : List (UserProduct × Product)) (r : UserProduct)
    (h : r.status = .completed ∨ ∃ row ∈ rows, row.1.id = r.id) :
    (batchRowAfter clk userLevel rate rows r).status = .completed := by
  induction rows generalizing r with
  | nil =>
    rcases h with h | ⟨row, hrow, _⟩
    · exact h
    · cases hrow
  | cons row rows ih =>
    unfold batchRowAfter at ih ⊢
    rw [List.foldl_cons]
    by_cases hid : r.id = row.1.id
    · rw [if_pos hid]
      exact ih _ (Or.inl rfl)
    · rw [if_neg hid]
      refine ih _ ?_
      rcases h with h | ⟨x, hx, hxid⟩
      · exact Or.inl h
      · rcases List.mem_cons.mp hx with e | e
        · exact absurd (by rw [← e]; exact hxid.symm) hid
        · exact Or.inr ⟨x, e, hxid⟩

theorem mem_submitTodayRows {s : Store} {clk : Clock} {userId : Nat} {up : UserProduct}
    {p : Product} :
    (up, p) ∈ submitTodayRows s clk userId ↔
      up ∈ s.user_products ∧ up.user_id = userId ∧ up.assigned_date = clk.today ∧
        up.status ≠ .completed ∧ p ∈ s.products ∧ p.id = up.product_id := by
  unfold submitTodayRows
  rw [mem_joinProducts]
  simp only [Bool.decide_and, Bool.and_eq_true, decide_eq_true_eq, decide_not,
    Bool.not_eq_true', decide_eq_false_iff_not, ne_eq]
  tauto

theorem submitTodayRows_after (s : Store) (clk : Clock) (userId : Nat) (u : User)
    (hu : findUser s userId = some u) (hrows : submitTodayRows s clk userId ≠ []) :
    submitTodayRows (submitAllToday s clk userId).1 clk userId = [] := by
  rw [submitAllToday_of_rows s clk userId u hu hrows]
  apply List.eq_nil_iff_forall_not_mem.mpr
  rintro ⟨up1, p1⟩ hmem
  rw [mem_submitTodayRows] at hmem
  obtain ⟨hup, hc1, hc2, hc3, hp, hpid⟩ := hmem
  have hp1 : p1 ∈ s.products := hp
  have hup1 : up1 ∈ s.user_products.map (batchRowAfter clk (levelOr1 u.level)
      (rateOf s (levelOr1 u.level)) (submitTodayRows s clk userId)) := hup
  obtain ⟨r, hr, hr1⟩ := List.mem_map.mp hup1
  obtain ⟨hf1, hf2, hf3⟩ := batchRowAfter_fields clk (levelOr1 u.level)
    (rateOf s (levelOr1 u.level)) (submitTodayRows s clk userId) r
  rw [hr1] at hf1 hf2 hf3
  apply hc3
  rw [← hr1]
  apply batchRowAfter_completed
  by_cases hst : r.status = .completed
  · exact Or.inl hst
  · refine Or.inr ⟨(r, p1), ?_, rfl⟩
    rw [mem_submitTodayRows]
    exact ⟨hr, hf1 ▸ hc1, hf3 ▸ hc2, hst, hp1, hf2 ▸ hpid⟩

theorem submitOne_rejects_negative (s : Store) (clk : Clock) (userId : Nat) (u : User)
    (hu : findUser s userId = some u) (hneg : u.wallet_balance < 0)
    (up : UserProduct) (p : Product) (hup : up ∈ s.user_products) (huid : up.user_id = userId)
    (hp : p ∈ s.products) (hpid : p.id = up.product_id) :
    ∃ a b c, (submitOne s clk userId up.id).2 = .insufficientBalance a b c := by
  have hmem : (up, p) ∈ joinProducts s (fun x => x.id = up.id ∧ x.user_id = userId) :=
    mem_joinProducts.mpr ⟨hup, by simp [huid], hp, hpid⟩
  cases hl : submitOneLookup s userId up.id with
  | none =>
    unfold submitOneLookup at hl
    rw [List.head?_eq_none_iff] at hl
    rw [hl] at hmem
    cases hmem
  | some row =>
    obtain ⟨up1, p1⟩ := row
    rw [submitOne_of_lookup s clk userId up.id up1 p1 hl]
    simp only [hu, if_pos hneg]
    exact ⟨_, _, _, rfl⟩

/-- C11: for an existing user with at least one selected row (an assignment
dated today that is not completed), the batch submission answers `ok` with the
number of selected rows whatever the wallet is, every selected row is stored
as completed, no row of the user is left to submit today, and when the wallet
is negative the single submission of each of those rows is rejected with
`InsufficientBalance`. -/
theorem submitAllToday_unguarded (s : Store) (clk : Clock) (userId : Nat) (u : User)
    (hu : findUser s userId = some u) (hrows : submitTodayRows s clk userId ≠ []) :
    (∃ a b c d, (submitAllToday s clk userId).2
      = .ok (submitTodayRows s clk userId).length a b c d) ∧
    (∀ row ∈ submitTodayRows s clk userId,
      ∃ r ∈ (submitAllToday s clk userId).1.user_products,
        r.id = row.1.id ∧ r.user_id = userId ∧ r.product_id = row.1.product_id ∧
        r.assigned_date = clk.today ∧ r.status = .completed) ∧
    submitTodayRows (submitAllToday s clk userId).1 clk userId = [] ∧
    (u.wallet_balance < 0 → ∀ row ∈ submitTodayRows s clk userId,
      ∃ a b c, (submitOne s clk userId row.1.id).2 = .insufficientBalance a b c) := by
  refine ⟨?_, ?_, submitTodayRows_after s clk userId u hu hrows, ?_⟩
  · rw [submitAllToday_of_rows s clk userId u hu hrows]
    exact ⟨_, _, _, _, rfl⟩
  · rintro ⟨up, p⟩ hrow
    have hm := mem_submitTodayRows.mp hrow
    rw [submitAllToday_of_rows s clk userId u hu hrows]
    obtain ⟨hf1, hf2, hf3⟩ := batchRowAfter_fields clk (levelOr1 u.level)
      (rateOf s (levelOr1 u.level)) (submitTodayRows s clk userId) up
    refine ⟨batchRowAfter clk (levelOr1 u.level) (rateOf s (levelOr1 u.level))
      (submitTodayRows s clk userId) up, ?_, batchRowAfter_id _ _ _ _ _, ?_, hf2, ?_, ?_⟩
    · simp only [insertEvent, updateUser, List.mem_map]
      exact ⟨up, hm.1, rfl⟩
    · rw [hf1]; exact hm.2.1
    · rw [hf3]; exact hm.2.2.1
    · exact batchRowAfter_completed _ _ _ _ _ (Or.inr ⟨(up, p), hrow, rfl⟩)
  · rintro hneg ⟨up, p⟩ hrow
    have hm := mem_submitTodayRows.mp hrow
    exact submitOne_rejects_negative s clk userId u hu hneg up p hm.1 hm.2.1 hm.2.2.2.2.1
      hm.2.2.2.2.2

/-- C11 at a wallet of -5.00: the batch submission of the one pending row
succeeds and completes it, while its single submission is rejected. -/
theorem submitAllToday_unguarded_witness :
    (∃ a b c d, (submitAllToday negativeStore sampleClock 1).2
      = .ok (submitTodayRows negativeStore sampleClock 1).length a b c d) ∧
    (∀ row ∈ submitTodayRows negativeStore sampleClock 1,
      ∃ r ∈ (submitAllToday negativeStore sampleClock 1).1.user_products,
        r.id = row.1.id ∧ r.user_id = 1 ∧ r.product_id = row.1.product_id ∧
        r.assigned_date = sampleClock.today ∧ r.status = .completed) ∧
    submitTodayRows (submitAllToday negativeStore sampleClock 1).1 sampleClock 1 = [] ∧
    ((-5 : ℚ) < 0 → ∀ row ∈ submitTodayRows negativeStore sampleClock 1,
      ∃ a b c, (submitOne negativeStore sampleClock 1 row.1.id).2
        = .insufficientBalance a b c) :=
  submitAllToday_unguarded negativeStore sampleClock 1 { sampleUser with wallet_balance := -5 }
    rfl (by decide)

/-! ## Lemmas on the single assignment -/

theorem findProduct_id {s : Store} {productId : Nat} {p : Product}
    (h : findProduct s productId = some p) : p.id = productId := by
  have := List.find?_some h
  simpa using this

theorem deadband_zero : deadband 0 = 0 := by
  simp [deadband]

theorem applyDifference_zero (s : Store) (clk : Clock) (userId : Nat) (productName : String) :
    applyDifference s clk userId productName 0 = s := by
  simp [applyDifference]

theorem applyDifference_of_ne (s : Store) (clk : Clock) (userId : Nat) (productName : String)
    (d : ℚ) (hd : d ≠ 0) :
    applyDifference s clk userId productName d =
      insertEvent
        (updateUser s userId (fun u => { u with wallet_balance := u.wallet_balance - d }))
        (adjustmentEvent clk userId productName d) := by
  unfold applyDifference
  rw [if_pos hd]
  rfl

theorem applyDifference_events (s : Store) (clk : Clock) (userId : Nat) (productName : String)
    (d : ℚ) :
    (applyDifference s clk userId productName d).balance_events =
      s.balance_events ++ (if d = 0 then [] else [adjustmentEvent clk userId productName d]) := by
  by_cases hd : d = 0
  · rw [hd, applyDifference_zero]; simp
  · rw [applyDifference_of_ne _ _ _ _ _ hd, if_neg hd]; rfl

theorem applyDifference_products (s : Store) (clk : Clock) (userId : Nat)
    (productName : String) (d : ℚ) :
    (applyDifference s clk userId productName d).products = s.products := by
  unfold applyDifference
  split <;> rfl

theorem findUser_applyDifference (s : Store) (clk : Clock) (userId : Nat)
    (productName : String) (d : ℚ) (u : User) (hu : findUser s userId = some u) :
    findUser (applyDifference s clk userId productName d) userId =
      some { u with wallet_balance := u.wallet_balance - d } := by
  by_cases hd : d = 0
  · rw [hd, applyDifference_zero, hu]
    simp
  · rw [applyDifference_of_ne _ _ _ _ _ hd, findUser_insertEvent, findUser_updateUser, hu]
    · simp only [Option.map_some', if_pos (findUser_id hu)]
    · intro _; rfl

/-- The single assignment for a found user and an active product. -/
theorem assignSingleTask_found (s : Store) (clk : Clock) (userId productId : Nat)
    (manualBonus : Option ℚ) (customPrice : PriceArg) (u : User) (p : Product)
    (hu : findUser s userId = some u) (hp : findProduct s productId = some p)
    (hact : p.status = .active) (hu0 : userId ≠ 0) (hp0 : productId ≠ 0) :
    assignSingleTask s clk userId productId manualBonus customPrice =
      match customPrice with
      | .notANumber => (s, .invalidCustomPrice)
      | .num q =>
        if q < 0 then (s, .invalidCustomPrice)
        else (upsertAssignment s clk u p q (cleanBonus manualBonus) (some q), .ok)
      | .absent =>
        if ¬ (levelPrice p (levelOr1 u.level) > 0) then (s, .invalidProductPrice)
        else (upsertAssignment s clk u p (levelPrice p (levelOr1 u.level))
                (cleanBonus manualBonus) none, .ok) := by
  unfold assignSingleTask
  rw [if_neg (by simp [hu0, hp0])]
  simp only [hu, hp, hact, ne_eq, not_true_eq_false, if_false]

/-- What a successful single assignment was given. -/
theorem assignSingleTask_ok {s : Store} {clk : Clock} {userId productId : Nat}
    {manualBonus : Option ℚ} {customPrice : PriceArg}
    (hok : (assignSingleTask s clk userId productId manualBonus customPrice).2 = .ok) :
    ∃ u p, findUser s userId = some u ∧ findProduct s productId = some p ∧
      p.status = .active ∧ userId ≠ 0 ∧ productId ≠ 0 ∧
      0 ≤ requestedPrice p (levelOr1 u.level) customPrice ∧
      assignSingleTask s clk userId productId manualBonus customPrice =
        (upsertAssignment s clk u p (requestedPrice p (levelOr1 u.level) customPrice)
          (cleanBonus manualBonus) (priceToUseOf customPrice), .ok) := by
  by_cases h0 : userId = 0 ∨ productId = 0
  · simp [assignSingleTask, h0] at hok
  · have hu0 : userId ≠ 0 := fun e => h0 (Or.inl e)
    have hp0 : productId ≠ 0 := fun e => h0 (Or.inr e)
    cases hu : findUser s userId with
    | none => simp [assignSingleTask, h0, hu] at hok
    | some u =>
      cases hp : findProduct s productId with
      | none => simp [assignSingleTask, h0, hu, hp] at hok
      | some p =>
        by_cases hact : p.status = .active
        · have e := assignSingleTask_found s clk userId productId manualBonus customPrice
            u p hu hp hact hu0 hp0
          rw [e] at hok ⊢
          refine ⟨u, p, rfl, rfl, hact, hu0, hp0, ?_⟩
          cases customPrice with
          | notANumber => simp at hok
          | num q =>
            by_cases hq : q < 0
            · simp [hq] at hok
            · simp only [if_neg hq]
              exact ⟨not_lt.mp hq, rfl⟩
          | absent =>
            by_cases hq : levelPrice p (levelOr1 u.level) > 0
            · simp only [hq, not_true_eq_false, if_false]
              exact ⟨le_of_lt hq, rfl⟩
            · simp [hq] at hok
        · simp [assignSingleTask, h0, hu, hp, hact] at hok

theorem round2_jsSub_self (x : ℚ) : round2 (jsSub x x) = 0 := by
  simp [jsSub, fl_zero, round2_zero]

theorem storedCustomPrice_eq (customPrice : PriceArg) :
    (priceToUseOf customPrice).map decimal2 = storedCustomPrice customPrice := by
  cases customPrice <;> rfl

/-- The upsert of a single assignment as rows plus one wallet adjustment by
the computed difference, which the deadband leaves as it is. -/
theorem upsertAssignment_eq (s : Store) (clk : Clock) (u : User) (p : Product)
    (price bonus : ℚ) (priceToUse : Option ℚ) :
    upsertAssignment s clk u p price bonus priceToUse =
      applyDifference (upsertRows s clk u.id p.id bonus (priceToUse.map decimal2)) clk u.id
        p.name (computedDifference s clk u p price bonus) := by
  unfold upsertAssignment upsertRows computedDifference
  cases hex : findExisting s clk u.id p.id with
  | none =>
    simp only [deadband_round2]
    rfl
  | some ex =>
    simp only [deadband_round2]
    rfl

theorem computedDifference_eq (s : Store) (clk : Clock) (u : User) (p : Product)
    (manualBonus : Option ℚ) (customPrice : PriceArg) :
    computedDifference s clk u p (requestedPrice p (levelOr1 u.level) customPrice)
        (cleanBonus manualBonus)
      = differenceOf p (levelOr1 u.level) manualBonus customPrice
          (findExisting s clk u.id p.id) := by
  unfold computedDifference differenceOf
  cases findExisting s clk u.id p.id <;> rfl

theorem upsertRows_users (s : Store) (clk : Clock) (userId productId : Nat) (bonus : ℚ)
    (priceToUse : Option ℚ) :
    (upsertRows s clk userId productId bonus priceToUse).users = s.users := by
  unfold upsertRows
  split <;> rfl

theorem upsertRows_events (s : Store) (clk : Clock) (userId productId : Nat) (bonus : ℚ)
    (priceToUse : Option ℚ) :
    (upsertRows s clk userId productId bonus priceToUse).balance_events = s.balance_events := by
  unfold upsertRows
  split <;> rfl

theorem upsertRows_products (s : Store) (clk : Clock) (userId productId : Nat) (bonus : ℚ)
    (priceToUse : Option ℚ) :
    (upsertRows s clk userId productId bonus priceToUse).products = s.products := by
  unfold upsertRows
  split <;> rfl

theorem find?_after_reset (clk : Clock) (userId productId : Nat) (bonus : ℚ)
    (priceToUse : Option ℚ) (l : List UserProduct) (ex : UserProduct)
    (h : l.find? (fun r => r.user_id = userId ∧ r.product_id = productId ∧
      r.assigned_date = clk.today) = some ex) :
    ∃ r, (l.map (fun x => if x.id = ex.id then resetRow clk bonus priceToUse x else x)).find?
        (fun r => r.user_id = userId ∧ r.product_id = productId ∧
          r.assigned_date = clk.today) = some (resetRow clk bonus priceToUse r) := by
  induction l with
  | nil => cases h
  | cons a t ih =>
    rw [List.find?_cons] at h
    rw [List.map_cons, List.find?_cons]
    by_cases hm : (decide (a.user_id = userId ∧ a.product_id = productId ∧
        a.assigned_date = clk.today)) = true
    · rw [hm] at h
      injection h with h
      subst h
      have hm1 := of_decide_eq_true hm
      rw [if_pos rfl]
      have : (decide ((resetRow clk bonus priceToUse a).user_id = userId ∧
          (resetRow clk bonus priceToUse a).product_id = productId ∧
          (resetRow clk bonus priceToUse a).assigned_date = clk.today)) = true :=
        decide_eq_true ⟨hm1.1, hm1.2.1, rfl⟩
      rw [this]
      exact ⟨a, rfl⟩
    · rw [Bool.not_eq_true] at hm
      rw [hm] at h
      by_cases hid : a.id = ex.id
      · rw [if_pos hid]
        by_cases hm2 : (decide ((resetRow clk bonus priceToUse a).user_id = userId ∧
            (resetRow clk bonus priceToUse a).product_id = productId ∧
            (resetRow clk bonus priceToUse a).assigned_date = clk.today)) = true
        · rw [hm2]
          exact ⟨a, rfl⟩
        · rw [Bool.not_eq_true] at hm2
          rw [hm2]
          exact ih h
      · rw [if_neg hid, hm]
        exact ih h

/-- After the upsert the row found for (user, product, today) carries the new
bonus and custom price and is pending and manual, with both amounts 0. -/
theorem findExisting_upsertRows (s : Store) (clk : Clock) (userId productId : Nat)
    (bonus : ℚ) (priceToUse : Option ℚ) :
    ∃ ex, findExisting (upsertRows s clk userId productId bonus priceToUse) clk userId productId
        = some ex ∧
      ex.manual_bonus = bonus ∧ ex.custom_price = priceToUse ∧ ex.status = .pending ∧
      ex.is_manual = true ∧ ex.amount_earned = 0 ∧ ex.commission_earned = 0 ∧
      ex.submitted_at = none := by
  unfold upsertRows
  cases hex : findExisting s clk userId productId with
  | some ex0 =>
    obtain ⟨r, hr⟩ := find?_after_reset clk userId productId bonus priceToUse
      s.user_products ex0 hex
    exact ⟨resetRow clk bonus priceToUse r, hr, rfl, rfl, rfl, rfl, rfl, rfl, rfl⟩
  | none =>
    refine ⟨freshRow s clk userId productId bonus priceToUse, ?_, rfl, rfl, rfl, rfl, rfl, rfl,
      rfl⟩
    unfold findExisting at hex ⊢
    simp only [List.find?_append, hex, Option.none_or]
    simp [freshRow]

/-- The effect of one successful single assignment on the user row, the
product, the assignment found afterwards and the balance events. -/
theorem assignSingleTask_step {s : Store} {clk : Clock} {userId productId : Nat}
    {manualBonus : Option ℚ} {customPrice : PriceArg} {u : User} {p : Product}
    (hu : findUser s userId = some u) (hp : findProduct s productId = some p)
    (hok : (assignSingleTask s clk userId productId manualBonus customPrice).2 = .ok) :
    findUser (assignSingleTask s clk userId productId manualBonus customPrice).1 userId =
      some { u with wallet_balance := u.wallet_balance -
        (differenceOf p (levelOr1 u.level) manualBonus customPrice
          (findExisting s clk userId productId)) } ∧
    findProduct (assignSingleTask s clk userId productId manualBonus customPrice).1 productId
      = some p ∧
    (∃ ex, findExisting (assignSingleTask s clk userId productId manualBonus customPrice).1
        clk userId productId = some ex ∧
      ex.manual_bonus = cleanBonus manualBonus ∧
      ex.custom_price = storedCustomPrice customPrice) ∧
    (assignSingleTask s clk userId productId manualBonus customPrice).1.balance_events =
      s.balance_events ++
        (if differenceOf p (levelOr1 u.level) manualBonus customPrice
            (findExisting s clk userId productId) = 0
         then []
         else [adjustmentEvent clk userId p.name
           (differenceOf p (levelOr1 u.level) manualBonus customPrice
             (findExisting s clk userId productId))]) := by
  obtain ⟨u1, p1, hu1, hp1, _, _, _, _, e⟩ := assignSingleTask_ok hok
  rw [hu] at hu1
  rw [hp] at hp1
  injection hu1 with hu1
  injection hp1 with hp1
  subst hu1 hp1
  have huid := findUser_id hu
  have hpid := findProduct_id hp
  rw [upsertAssignment_eq, computedDifference_eq, storedCustomPrice_eq, huid, hpid] at e
  rw [e]
  dsimp only
  refine ⟨?_, ?_, ?_, ?_⟩
  · refine findUser_applyDifference _ _ _ _ _ u ?_
    unfold findUser at hu ⊢
    rw [upsertRows_users]
    exact hu
  · unfold findProduct at hp ⊢
    rw [applyDifference_products, upsertRows_products]
    exact hp
  · obtain ⟨ex, h1, h2, h3, _⟩ := findExisting_upsertRows s clk userId productId
      (cleanBonus manualBonus) (storedCustomPrice customPrice)
    refine ⟨ex, ?_, h2, h3⟩
    unfold findExisting at h1 ⊢
    rw [applyDifference_user_products]
    exact h1
  · rw [applyDifference_events, upsertRows_events]

/-- For a found user and an active product the single assignment succeeds
exactly when the price is accepted, and a refused call returns the store. -/
theorem assignSingleTask_accepted (s : Store) (clk : Clock) (userId productId : Nat)
    (manualBonus : Option ℚ) (customPrice : PriceArg) (u : User) (p : Product)
    (hu : findUser s userId = some u) (hp : findProduct s productId = some p)
    (hact : p.status = .active) (hu0 : userId ≠ 0) (hp0 : productId ≠ 0) :
    (priceAccepted p (levelOr1 u.level) customPrice = true →
      assignSingleTask s clk userId productId manualBonus customPrice =
        (upsertAssignment s clk u p (requestedPrice p (levelOr1 u.level) customPrice)
          (cleanBonus manualBonus) (priceToUseOf customPrice), .ok)) ∧
    (priceAccepted p (levelOr1 u.level) customPrice = false →
      assignSingleTask s clk userId productId manualBonus customPrice =
        (s, match customPrice with
            | .absent => .invalidProductPrice
            | _ => .invalidCustomPrice)) := by
  rw [assignSingleTask_found s clk userId productId manualBonus customPrice u p hu hp hact
    hu0 hp0]
  cases customPrice with
  | notANumber => simp [priceAccepted]
  | num q =>
    by_cases hq : q < 0
    · simp [priceAccepted, hq, requestedPrice, priceToUseOf]
    · simp [priceAccepted, hq, requestedPrice, priceToUseOf, not_lt.mp hq]
  | absent =>
    by_cases hq : levelPrice p (levelOr1 u.level) > 0
    · simp [priceAccepted, hq, requestedPrice, priceToUseOf]
    · simp [priceAccepted, hq, requestedPrice, priceToUseOf]

theorem priceAccepted_of_ok {s : Store} {clk : Clock} {userId productId : Nat}
    {manualBonus : Option ℚ} {customPrice : PriceArg} {u : User} {p : Product}
    (hu : findUser s userId = some u) (hp : findProduct s productId = some p)
    (hok : (assignSingleTask s clk userId productId manualBonus customPrice).2 = .ok) :
    p.status = .active ∧ userId ≠ 0 ∧ productId ≠ 0 ∧
      priceAccepted p (levelOr1 u.level) customPrice = true := by
  obtain ⟨u1, p1, hu1, hp1, hact, hu0, hp0, _, _⟩ := assignSingleTask_ok hok
  rw [hu] at hu1
  rw [hp] at hp1
  injection hu1 with hu1
  injection hp1 with hp1
  subst hu1 hp1
  refine ⟨hact, hu0, hp0, ?_⟩
  by_contra hacc
  rw [Bool.not_eq_true] at hacc
  have e := (assignSingleTask_accepted s clk userId productId manualBonus customPrice u p
    hu hp hact hu0 hp0).2 hacc
  rw [e] at hok
  cases customPrice <;> simp at hok

theorem previousBaseOf_stored (p : Product) (userLevel : Nat) (manualBonus : Option ℚ)
    (customPrice : PriceArg) (ex : UserProduct)
    (hb : ex.manual_bonus = cleanBonus manualBonus)
    (hc : ex.custom_price = storedCustomPrice customPrice) :
    previousBaseOf p userLevel (some ex) = storedBase p userLevel manualBonus customPrice := by
  unfold previousBaseOf storedBase
  dsimp only
  rw [hb, hc]

/-- A custom price of at most 2 decimals is read back from its column as it
was given, so the stored base amount is the requested one. -/
theorem storedBase_eq_requestedBase (p : Product) (userLevel : Nat) (manualBonus : Option ℚ)
    (customPrice : PriceArg) (hcp : ∀ q, customPrice = .num q → twoDecimals q = true) :
    storedBase p userLevel manualBonus customPrice
      = requestedBase p userLevel manualBonus customPrice := by
  unfold storedBase requestedBase
  cases customPrice with
  | notANumber => rfl
  | absent => rfl
  | num q =>
    have h : decimal2 q = q := decimal2_of_cents (hundredths_of_twoDecimals (hcp q rfl))
    simp only [storedCustomPrice, requestedPrice, h]

/-! ## C12: the single assignment repeated with the same arguments -/

/-- C12, as stated, fails: from the scenario store without assignments and a
wallet of 0, assigning product 7 with `customPrice = 1.005` succeeds, debits
1.00 (the double nearest to 1.005 lies below it) and stores the custom price
1.01 (the column rounds the decimal 1.005); the same call made again succeeds,
computes the previous base amount 1.01 from the row, refunds 0.01 and writes a
second event. -/
theorem repeated_call_refunds :
    (assignSingleTask unassignedStore sampleClock 1 7 none (.num (201 / 200))).2 = .ok ∧
    walletOf (assignSingleTask unassignedStore sampleClock 1 7 none (.num (201 / 200))).1 1
      = some (-1) ∧
    (assignSingleTask unassignedStore sampleClock 1 7 none (.num (201 / 200))).1.user_products
      = [{ sampleAssignment with
           id := 1, custom_price := some (101 / 100), is_manual := true }] ∧
    (assignSingleTask unassignedStore sampleClock 1 7 none (.num (201 / 200))).1.balance_events
      = [{ user_id := 1, type := .manual_adjustment, amount := 1,
           reference_date := some 100, details := .manualAssignment "P" }] ∧
    (assignSingleTask
      (assignSingleTask unassignedStore sampleClock 1 7 none (.num (201 / 200))).1
      sampleClock 1 7 none (.num (201 / 200))).2 = .ok ∧
    walletOf (assignSingleTask
      (assignSingleTask unassignedStore sampleClock 1 7 none (.num (201 / 200))).1
      sampleClock 1 7 none (.num (201 / 200))).1 1 = some (-99 / 100) ∧
    (assignSingleTask
      (assignSingleTask unassignedStore sampleClock 1 7 none (.num (201 / 200))).1
      sampleClock 1 7 none (.num (201 / 200))).1.balance_events
      = [{ user_id := 1, type := .manual_adjustment, amount := 1,
           reference_date := some 100, details := .manualAssignment "P" },
         { user_id := 1, type := .manual_adjustment, amount := 1 / 100,
           reference_date := some 100, details := .manualRefund "P" }] := by
  decide!

/-- C12, amended: when a single assignment succeeds and its custom price, if
one is given, has at most 2 decimals, the same call made again on the
resulting store succeeds too and leaves the users table (hence every wallet)
and the balance events exactly as the first call left them. -/
theorem assignSingleTask_idempotent (s : Store) (clk : Clock) (userId productId : Nat)
    (manualBonus : Option ℚ) (customPrice : PriceArg)
    (hcp : ∀ q, customPrice = .num q → twoDecimals q = true)
    (hok : (assignSingleTask s clk userId productId manualBonus customPrice).2 = .ok) :
    (assignSingleTask (assignSingleTask s clk userId productId manualBonus customPrice).1
      clk userId productId manualBonus customPrice).2 = .ok ∧
    (assignSingleTask (assignSingleTask s clk userId productId manualBonus customPrice).1
      clk userId productId manualBonus customPrice).1.users
      = (assignSingleTask s clk userId productId manualBonus customPrice).1.users ∧
    (assignSingleTask (assignSingleTask s clk userId productId manualBonus customPrice).1
      clk userId productId manualBonus customPrice).1.balance_events
      = (assignSingleTask s clk userId productId manualBonus customPrice).1.balance_events := by
  obtain ⟨u, p, hu, hp, _, _, _, _, _⟩ := assignSingleTask_ok hok
  obtain ⟨hact, hu0, hp0, hacc⟩ := priceAccepted_of_ok hu hp hok
  obtain ⟨hu1, hp1, ⟨ex, hex, hb, hc⟩, _⟩ := assignSingleTask_step hu hp hok
  generalize (assignSingleTask s clk userId productId manualBonus customPrice).1 = s1
    at hu1 hp1 hex ⊢
  have e := (assignSingleTask_accepted s1 clk userId productId manualBonus customPrice _ p
    hu1 hp1 hact hu0 hp0).1 hacc
  have huid := findUser_id hu
  have hpid := findProduct_id hp
  rw [upsertAssignment_eq, computedDifference_eq] at e
  dsimp only at e
  rw [huid, hpid, hex] at e
  have hz : differenceOf p (levelOr1 u.level) manualBonus customPrice (some ex) = 0 := by
    unfold differenceOf
    dsimp only
    rw [previousBaseOf_stored p _ manualBonus customPrice ex hb hc,
      storedBase_eq_requestedBase p _ manualBonus customPrice hcp, round2_jsSub_self]
  rw [hz, applyDifference_zero] at e
  rw [e]
  exact ⟨rfl, upsertRows_users _ _ _ _ _ _, upsertRows_events _ _ _ _ _ _⟩

/-- C12, amended, at the scenario store without assignments: assigning
product 7 to user 1 with the custom price 4.10 and the bonus 1.50 twice
leaves users and events as after the first call. -/
theorem assignSingleTask_idempotent_witness :
    (∀ q, PriceArg.num (41 / 10) = .num q → twoDecimals q = true) ∧
    (assignSingleTask unassignedStore sampleClock 1 7 (some (3 / 2)) (.num (41 / 10))).2 = .ok ∧
    (assignSingleTask (assignSingleTask unassignedStore sampleClock 1 7 (some (3 / 2))
      (.num (41 / 10))).1 sampleClock 1 7 (some (3 / 2)) (.num (41 / 10))).2 = .ok ∧
    (assignSingleTask (assignSingleTask unassignedStore sampleClock 1 7 (some (3 / 2))
      (.num (41 / 10))).1 sampleClock 1 7 (some (3 / 2)) (.num (41 / 10))).1.users
      = (assignSingleTask unassignedStore sampleClock 1 7 (some (3 / 2))
          (.num (41 / 10))).1.users ∧
    (assignSingleTask (assignSingleTask unassignedStore sampleClock 1 7 (some (3 / 2))
      (.num (41 / 10))).1 sampleClock 1 7 (some (3 / 2)) (.num (41 / 10))).1.balance_events
      = (assignSingleTask unassignedStore sampleClock 1 7 (some (3 / 2))
          (.num (41 / 10))).1.balance_events :=
  ⟨fun q h => by injection h with h; subst h; decide!, by decide!,
   assignSingleTask_idempotent unassignedStore sampleClock 1 7 (some (3 / 2)) (.num (41 / 10))
     (fun q h => by injection h with h; subst h; decide!) (by decide!)⟩

theorem assignSingleTask_rows {s : Store} {clk : Clock} {userId productId : Nat}
    {manualBonus : Option ℚ} {customPrice : PriceArg}
    (hok : (assignSingleTask s clk userId productId manualBonus customPrice).2 = .ok) :
    (assignSingleTask s clk userId productId manualBonus customPrice).1.user_products =
      (upsertRows s clk userId productId (cleanBonus manualBonus)
        (storedCustomPrice customPrice)).user_products := by
  obtain ⟨u, p, hu, hp, _, _, _, _, e⟩ := assignSingleTask_ok hok
  rw [e, upsertAssignment_eq, storedCustomPrice_eq, findUser_id hu, findProduct_id hp]
  exact applyDifference_user_products _ _ _ _ _

theorem cleanBonus_nonneg (manualBonus : Option ℚ) : 0 ≤ cleanBonus manualBonus := by
  unfold cleanBonus
  dsimp only
  split
  · rename_i h
    exact round2_nonneg (le_of_lt h)
  · exact le_refl 0

theorem cleanBonus_some (x : ℚ) :
    cleanBonus (some x) = if 0 < x then round2 (fl x) else 0 := by
  unfold cleanBonus
  rw [jsNumber_jsOr_zero]
  dsimp only [jsNumber]
  by_cases h : 0 < x
  · rw [if_pos h, if_pos (fl_pos h)]
  · rw [if_neg h, if_neg (fun h1 => h ((fl_pos_iff x).mp h1))]

theorem cleanBonus_cents (manualBonus : Option ℚ) :
    ∃ n : ℤ, cleanBonus manualBonus = (n : ℚ) / 100 := by
  unfold cleanBonus
  dsimp only
  split
  · exact round2_hundredths _
  · exact ⟨0, by simp⟩

theorem fl_nonneg {x : ℚ} (h : 0 ≤ x) : 0 ≤ fl x :=
  not_lt.mp (fun h1 => absurd ((fl_neg_iff x).mp h1) (not_lt.mpr h))

theorem jsAdd_nonneg {a b : ℚ} (ha : 0 ≤ a) (hb : 0 ≤ b) : 0 ≤ jsAdd a b :=
  fl_nonneg (add_nonneg (fl_nonneg ha) (fl_nonneg hb))

theorem requestedBase_nonneg {p : Product} {userLevel : Nat} {customPrice : PriceArg}
    (manualBonus : Option ℚ) (h : 0 ≤ requestedPrice p userLevel customPrice) :
    0 ≤ requestedBase p userLevel manualBonus customPrice :=
  round2_nonneg (jsAdd_nonneg h (cleanBonus_nonneg manualBonus))

/-- With a price of at most 2 decimals and a sum of at most 10^13 the base
amount of a single assignment is the price plus the bonus kept. -/
theorem requestedBase_exact {p : Product} {userLevel : Nat} {customPrice : PriceArg}
    (manualBonus : Option ℚ) (h : 0 ≤ requestedPrice p userLevel customPrice)
    (hdec : twoDecimals (requestedPrice p userLevel customPrice) = true)
    (hb : requestedPrice p userLevel customPrice + cleanBonus manualBonus ≤ 10 ^ 13) :
    requestedBase p userLevel manualBonus customPrice
      = requestedPrice p userLevel customPrice + cleanBonus manualBonus := by
  unfold requestedBase
  apply round2_jsAdd_cents (hundredths_of_twoDecimals hdec) (cleanBonus_cents manualBonus)
  rw [abs_of_nonneg h, abs_of_nonneg (cleanBonus_nonneg manualBonus)]
  exact hb

/-! ## C13: the first single assignment of a product for the day -/

/-- C13, as stated, fails: assigning product 7 to user 1 with `manualBonus =
-3` and `customPrice = 0` when no row exists succeeds and inserts one pending
manual row, but the row carries bonus 0, not the given -3, and no
`manual_adjustment` event is written (the base amount is 0).  And with
`customPrice = 1.005` and no bonus the row carries the custom price 1.01 and
the wallet is debited 1.00. -/
theorem first_assignment_without_event :
    findExisting unassignedStore sampleClock 1 7 = none ∧
    assignSingleTask unassignedStore sampleClock 1 7 (some (-3)) (.num 0) =
      ({ unassignedStore with
         user_products := [{ sampleAssignment with
           id := 1, manual_bonus := 0, custom_price := some 0, is_manual := true }] }, .ok) ∧
    (assignSingleTask unassignedStore sampleClock 1 7 (some (-3)) (.num 0)).1.balance_events
      = [] ∧
    (assignSingleTask unassignedStore sampleClock 1 7 none (.num (201 / 200))).1.user_products
      = [{ sampleAssignment with
           id := 1, custom_price := some (101 / 100), is_manual := true }] ∧
    walletOf (assignSingleTask unassignedStore sampleClock 1 7 none (.num (201 / 200))).1 1
      = some (-1) := by
  decide!

/-- C13, amended: when no row exists for (user, product, today), a successful
single assignment appends exactly one row, pending and manual, with the bonus
the handler keeps (`cleanBonus`: the given bonus as a double rounded to 2
decimals when positive, else 0) and the custom price as its column keeps it
(rounded to 2 decimals) or null; the wallet decreases by the base amount, the
sum in doubles of the price and the bonus kept rounded to 2 decimals, which
is not negative and is the plain sum when the price has at most 2 decimals
and the sum is at most 10^13; and exactly one `manual_adjustment` event of
that amount is appended when the base amount is not 0, none when it is 0. -/
theorem first_assignment_effect (s : Store) (clk : Clock) (userId productId : Nat)
    (manualBonus : Option ℚ) (customPrice : PriceArg) (u : User) (p : Product)
    (hu : findUser s userId = some u) (hp : findProduct s productId = some p)
    (hnone : findExisting s clk userId productId = none)
    (hok : (assignSingleTask s clk userId productId manualBonus customPrice).2 = .ok) :
    (∃ row, (assignSingleTask s clk userId productId manualBonus customPrice).1.user_products
        = s.user_products ++ [row] ∧
      row.user_id = userId ∧ row.product_id = productId ∧ row.assigned_date = clk.today ∧
      row.status = .pending ∧ row.is_manual = true ∧
      row.manual_bonus = cleanBonus manualBonus ∧
      row.custom_price = storedCustomPrice customPrice) ∧
    (∀ x, manualBonus = some x →
      cleanBonus manualBonus = if 0 < x then round2 (fl x) else 0) ∧
    (∀ q, customPrice = .num q → storedCustomPrice customPrice = some (round2 q)) ∧
    requestedBase p (levelOr1 u.level) manualBonus customPrice
      = round2 (jsAdd (requestedPrice p (levelOr1 u.level) customPrice)
          (cleanBonus manualBonus)) ∧
    (twoDecimals (requestedPrice p (levelOr1 u.level) customPrice) = true →
      requestedPrice p (levelOr1 u.level) customPrice + cleanBonus manualBonus ≤ 10 ^ 13 →
      requestedBase p (levelOr1 u.level) manualBonus customPrice
        = requestedPrice p (levelOr1 u.level) customPrice + cleanBonus manualBonus) ∧
    0 ≤ requestedBase p (levelOr1 u.level) manualBonus customPrice ∧
    walletOf (assignSingleTask s clk userId productId manualBonus customPrice).1 userId =
      some (u.wallet_balance - requestedBase p (levelOr1 u.level) manualBonus customPrice) ∧
    (assignSingleTask s clk userId productId manualBonus customPrice).1.balance_events =
      s.balance_events ++
        (if requestedBase p (levelOr1 u.level) manualBonus customPrice = 0 then []
         else [{ user_id := userId, type := .manual_adjustment,
                 amount := requestedBase p (levelOr1 u.level) manualBonus customPrice,
                 reference_date := some clk.today,
                 details := .manualAssignment p.name }]) := by
  obtain ⟨u1, p1, hu1, hp1, _, _, _, hnn, _⟩ := assignSingleTask_ok hok
  rw [hu] at hu1
  rw [hp] at hp1
  injection hu1 with hu1
  injection hp1 with hp1
  subst hu1 hp1
  have hbase := requestedBase_nonneg manualBonus hnn
  obtain ⟨h1, _, _, h4⟩ := assignSingleTask_step hu hp hok
  refine ⟨?_, ?_, ?_, rfl, requestedBase_exact manualBonus hnn, hbase, ?_, ?_⟩
  · refine ⟨freshRow s clk userId productId (cleanBonus manualBonus)
      (storedCustomPrice customPrice), ?_, rfl, rfl, rfl, rfl, rfl, rfl, rfl⟩
    rw [assignSingleTask_rows hok]
    unfold upsertRows
    rw [hnone]
  · intro x hx
    rw [hx, cleanBonus_some]
  · intro q hq
    rw [hq]
    rfl
  · unfold walletOf
    rw [h1, hnone]
    rfl
  · rw [h4, hnone]
    simp only [differenceOf]
    by_cases hz : requestedBase p (levelOr1 u.level) manualBonus customPrice = 0
    · rw [if_pos hz, if_pos hz]
    · rw [if_neg hz, if_neg hz]
      simp [adjustmentEvent, abs_of_nonneg hbase, hbase]

/-- C13, amended, at the scenario store without assignments: assigning
product 7 with bonus 1.50 at the custom price 4.10 appends one row, debits
5.60 and writes one event of 5.60. -/
theorem first_assignment_effect_witness :
    (assignSingleTask unassignedStore sampleClock 1 7 (some (3 / 2)) (.num (41 / 10))).2 = .ok ∧
    requestedBase sampleProduct (levelOr1 sampleUser.level) (some (3 / 2)) (.num (41 / 10))
      = 28 / 5 ∧
    (∃ row, (assignSingleTask unassignedStore sampleClock 1 7 (some (3 / 2))
        (.num (41 / 10))).1.user_products = unassignedStore.user_products ++ [row] ∧
      row.user_id = 1 ∧ row.product_id = 7 ∧ row.assigned_date = sampleClock.today ∧
      row.status = .pending ∧ row.is_manual = true ∧
      row.manual_bonus = cleanBonus (some (3 / 2)) ∧
      row.custom_price = storedCustomPrice (.num (41 / 10))) ∧
    (∀ x, some (3 / 2 : ℚ) = some x →
      cleanBonus (some (3 / 2)) = if 0 < x then round2 (fl x) else 0) ∧
    (∀ q, PriceArg.num (41 / 10) = .num q →
      storedCustomPrice (.num (41 / 10)) = some (round2 q)) ∧
    requestedBase sampleProduct (levelOr1 sampleUser.level) (some (3 / 2)) (.num (41 / 10))
      = round2 (jsAdd (requestedPrice sampleProduct (levelOr1 sampleUser.level)
          (.num (41 / 10))) (cleanBonus (some (3 / 2)))) ∧
    (twoDecimals (requestedPrice sampleProduct (levelOr1 sampleUser.level) (.num (41 / 10)))
        = true →
      requestedPrice sampleProduct (levelOr1 sampleUser.level) (.num (41 / 10))
        + cleanBonus (some (3 / 2)) ≤ 10 ^ 13 →
      requestedBase sampleProduct (levelOr1 sampleUser.level) (some (3 / 2)) (.num (41 / 10))
        = requestedPrice sampleProduct (levelOr1 sampleUser.level) (.num (41 / 10))
          + cleanBonus (some (3 / 2))) ∧
    0 ≤ requestedBase sampleProduct (levelOr1 sampleUser.level) (some (3 / 2))
      (.num (41 / 10)) ∧
    walletOf (assignSingleTask unassignedStore sampleClock 1 7 (some (3 / 2))
        (.num (41 / 10))).1 1 =
      some (sampleUser.wallet_balance
        - requestedBase sampleProduct (levelOr1 sampleUser.level) (some (3 / 2))
            (.num (41 / 10))) ∧
    (assignSingleTask unassignedStore sampleClock 1 7 (some (3 / 2))
        (.num (41 / 10))).1.balance_events =
      unassignedStore.balance_events ++
        (if requestedBase sampleProduct (levelOr1 sampleUser.level) (some (3 / 2))
            (.num (41 / 10)) = 0
         then []
         else [{ user_id := 1, type := .manual_adjustment,
                 amount := requestedBase sampleProduct (levelOr1 sampleUser.level)
                   (some (3 / 2)) (.num (41 / 10)),
                 reference_date := some sampleClock.today,
                 details := .manualAssignment sampleProduct.name }]) :=
  ⟨by decide!, by decide!,
   first_assignment_effect unassignedStore sampleClock 1 7 (some (3 / 2)) (.num (41 / 10))
     sampleUser sampleProduct rfl rfl rfl (by decide!)⟩

/-! ## C14: a run of single assignments of one product -/

theorem differenceOf_exact (p : Product) (userLevel : Nat) (manualBonus : Option ℚ)
    (customPrice : PriceArg) (existing : Option UserProduct)
    (h1 : |requestedBase p userLevel manualBonus customPrice| ≤ 5 * 10 ^ 12)
    (h2 : |previousBaseOf p userLevel existing| ≤ 5 * 10 ^ 12) :
    differenceOf p userLevel manualBonus customPrice existing
      = requestedBase p userLevel manualBonus customPrice
        - previousBaseOf p userLevel existing := by
  cases existing with
  | none => simp [differenceOf, previousBaseOf]
  | some e =>
    exact @round2_jsSub_cents (requestedBase p userLevel manualBonus customPrice)
      (previousBaseOf p userLevel (some e)) (round2_hundredths _) (round2_hundredths _)
      (by linarith)

/-- Along a run of successful single assignments whose custom prices have at
most 2 decimals and whose base amounts are at most 5 * 10^12, the wallet plus
the base amount stored in the row stays what it was: the wallet ends lower by
the base amount of the last call and higher by the base amount stored at the
start. -/
theorem assignRepeatedly_wallet (clk : Clock) (userId productId : Nat) (p : Product)
    (args : List (Option ℚ × PriceArg)) (s : Store) (u : User)
    (hu : findUser s userId = some u) (hp : findProduct s productId = some p)
    (hall : allAssignmentsSucceed clk userId productId args s = true)
    (hcp : ∀ a ∈ args, ∀ q, a.2 = .num q → twoDecimals q = true)
    (hbd : ∀ a ∈ args, requestedBase p (levelOr1 u.level) a.1 a.2 ≤ 5 * 10 ^ 12)
    (hprev : |previousBaseOf p (levelOr1 u.level) (findExisting s clk userId productId)|
      ≤ 5 * 10 ^ 12) :
    ∃ u1, findUser (assignRepeatedly clk userId productId args s) userId = some u1 ∧
      u1.level = u.level ∧
      u1.wallet_balance = u.wallet_balance
        + previousBaseOf p (levelOr1 u.level) (findExisting s clk userId productId)
        - (match args.getLast? with
           | none => previousBaseOf p (levelOr1 u.level) (findExisting s clk userId productId)
           | some a => requestedBase p (levelOr1 u.level) a.1 a.2) := by
  induction args generalizing s u with
  | nil => exact ⟨u, hu, rfl, by simp⟩
  | cons a rest ih =>
    simp only [allAssignmentsSucceed, Bool.and_eq_true, decide_eq_true_eq] at hall
    obtain ⟨hok, hrest⟩ := hall
    obtain ⟨h1, h2, ⟨ex, hex, hb, hc⟩, _⟩ := assignSingleTask_step hu hp hok
    obtain ⟨u0, p0, hu0, hp0, _, _, _, hnn, _⟩ := assignSingleTask_ok hok
    rw [hu] at hu0
    rw [hp] at hp0
    injection hu0 with hu0
    injection hp0 with hp0
    subst hu0 hp0
    have hbase := requestedBase_nonneg a.1 hnn
    have hle := hbd a (List.mem_cons_self _ _)
    have hstored : previousBaseOf p (levelOr1 u.level) (some ex)
        = requestedBase p (levelOr1 u.level) a.1 a.2 := by
      rw [previousBaseOf_stored p _ a.1 a.2 ex hb hc,
        storedBase_eq_requestedBase p _ a.1 a.2 (hcp a (List.mem_cons_self _ _))]
    obtain ⟨u1, hu1, hl1, hw1⟩ := ih _ _ h1 h2 hrest
      (fun b hb1 => hcp b (List.mem_cons_of_mem _ hb1))
      (fun b hb1 => hbd b (List.mem_cons_of_mem _ hb1))
      (by
        rw [hex]
        dsimp only
        rw [hstored, abs_of_nonneg hbase]
        exact hle)
    refine ⟨u1, hu1, hl1, ?_⟩
    rw [hw1]
    dsimp only
    rw [hex, hstored, differenceOf_exact p _ a.1 a.2 _ (by rw [abs_of_nonneg hbase]; exact hle)
      hprev]
    cases rest with
    | nil =>
      simp only [List.getLast?_nil, List.getLast?_singleton]
      ring
    | cons b rest2 =>
      rw [List.getLast?_cons_cons]
      cases hlast : (b :: rest2).getLast? with
      | none => simp at hlast
      | some c =>
        dsimp only
        ring

/-- C14, as stated, fails: from the scenario store without assignments and a
wallet of 0, assigning product 7 with `customPrice = 1.005` and then with
`customPrice = 2` succeeds twice and debits 1.00 and then 0.99 (the first call
leaves the custom price 1.01 in the row), 1.99 in all, while the base amount
of the last call is 2.00. -/
theorem run_debits_less_than_last_base :
    allAssignmentsSucceed sampleClock 1 7 [(none, .num (201 / 200)), (none, .num 2)]
      unassignedStore = true ∧
    findExisting unassignedStore sampleClock 1 7 = none ∧
    walletOf unassignedStore 1 = some 0 ∧
    walletOf (assignRepeatedly sampleClock 1 7 [(none, .num (201 / 200))] unassignedStore) 1
      = some (-1) ∧
    walletOf (assignRepeatedly sampleClock 1 7 [(none, .num (201 / 200)), (none, .num 2)]
      unassignedStore) 1 = some (-199 / 100) ∧
    requestedBase sampleProduct (levelOr1 sampleUser.level) none (.num 2) = 2 := by
  decide!

/-- C14, amended: for a run of successful single assignments of one product
to one user on one day that starts with no row for them, every custom price of
the run having at most 2 decimals and every base amount being at most
5 * 10^12, the wallet ends exactly the base amount of the last call below
where it started, whatever the bonuses and custom prices of the calls
before. -/
theorem repeated_assignment_total_debit (s : Store) (clk : Clock) (userId productId : Nat)
    (args : List (Option ℚ × PriceArg)) (u : User) (p : Product)
    (hu : findUser s userId = some u) (hp : findProduct s productId = some p)
    (hnone : findExisting s clk userId productId = none)
    (hall : allAssignmentsSucceed clk userId productId args s = true) (hne : args ≠ [])
    (hcp : ∀ a ∈ args, ∀ q, a.2 = .num q → twoDecimals q = true)
    (hbd : ∀ a ∈ args, requestedBase p (levelOr1 u.level) a.1 a.2 ≤ 5 * 10 ^ 12) :
    walletOf (assignRepeatedly clk userId productId args s) userId =
      some (u.wallet_balance
        - requestedBase p (levelOr1 u.level) (args.getLast hne).1 (args.getLast hne).2) := by
  obtain ⟨u1, hu1, _, hw1⟩ := assignRepeatedly_wallet clk userId productId p args s u hu hp hall
    hcp hbd (by rw [hnone]; simp [previousBaseOf])
  unfold walletOf
  rw [hu1, Option.map_some', hw1, hnone, List.getLast?_eq_getLast _ hne]
  simp [previousBaseOf]

/-- C14, amended, on three calls from the scenario store without assignments
(level price with bonus 1.00, custom price 4.10, level price with bonus 1.50):
the wallet ends 11.50 below its start, the base amount of the third call. -/
theorem repeated_assignment_total_debit_witness :
    allAssignmentsSucceed sampleClock 1 7
      [(some 1, .absent), (none, .num (41 / 10)), (some (3 / 2), .absent)] unassignedStore
      = true ∧
    walletOf (assignRepeatedly sampleClock 1 7
        [(some 1, .absent), (none, .num (41 / 10)), (some (3 / 2), .absent)] unassignedStore) 1
      = some (-23 / 2) ∧
    walletOf (assignRepeatedly sampleClock 1 7
        [(some 1, .absent), (none, .num (41 / 10)), (some (3 / 2), .absent)] unassignedStore) 1 =
      some (sampleUser.wallet_balance
        - requestedBase sampleProduct (levelOr1 sampleUser.level)
            (([(some 1, .absent), (none, .num (41 / 10)), (some (3 / 2), .absent)] :
              List (Option ℚ × PriceArg)).getLast (by simp)).1
            (([(some 1, .absent), (none, .num (41 / 10)), (some (3 / 2), .absent)] :
              List (Option ℚ × PriceArg)).getLast (by simp)).2) :=
  ⟨by decide!, by decide!,
   repeated_assignment_total_debit unassignedStore sampleClock 1 7
     [(some 1, .absent), (none, .num (41 / 10)), (some (3 / 2), .absent)] sampleUser
     sampleProduct rfl rfl rfl (by decide!) (by simp)
     (by
       intro a ha q hq
       simp only [List.mem_cons, List.mem_singleton, List.not_mem_nil, or_false] at ha
       rcases ha with rfl | rfl | rfl
       · simp at hq
       · simp at hq
         subst hq
         decide!
       · simp at hq)
     (by decide!)⟩

/-! ## C15: the deadband of the single assignment -/

theorem upsertAssignment_deadband (s : Store) (clk : Clock) (u : User) (p : Product)
    (price bonus : ℚ) (priceToUse : Option ℚ) :
    upsertAssignment s clk u p price bonus priceToUse =
      applyDifference (upsertRows s clk u.id p.id bonus (priceToUse.map decimal2)) clk u.id
        p.name (deadband (computedDifference s clk u p price bonus)) := by
  unfold upsertAssignment upsertRows computedDifference
  cases findExisting s clk u.id p.id <;> rfl

theorem deadband_eq_zero_iff (x : ℚ) : deadband x = 0 ↔ |x| < 5 / 1000 := by
  unfold deadband
  by_cases h : |x| < 5 / 1000
  · simp [h]
  · rw [if_neg h]
    constructor
    · intro hx
      rw [hx] at h
      exact absurd (by norm_num) h
    · intro hx
      exact absurd hx h

/-- C15: let a single assignment succeed for a user and a product over an
existing row of today, and let `d` be the difference it computes: the new
base amount minus the previous base amount, taken in doubles and rounded to 2
decimals (their plain difference when both are at most 5 * 10^12 in absolute
value).  The call lowers the wallet by `deadband d` and appends one
`manual_adjustment` event of amount `|deadband d|` exactly when `deadband d`
is not 0, that is exactly when `|d| < 0.005` fails; when `deadband d` is 0 the
events and the users table are as before.  A difference of 0.004 is
deadbanded to 0, so nothing is written and no wallet changes; a difference of
0.006 is kept, so the wallet is lowered by it and one `manual_adjustment`
event of amount 0.006 is written.  The same holds when 0.004 and 0.006 are
differences before the rounding of the difference: they are rounded to 0 and
to 0.01, and only the latter is written.  So on the row of `customPriceStore`
(custom price 10.00, no bonus, wallet 0) a re-assignment at the custom price
10.004 writes no event and leaves the wallet, and one at 10.006 writes one
event of 0.01 and lowers the wallet by 0.01. -/
theorem deadband_decides_event (s : Store) (clk : Clock) (userId productId : Nat)
    (manualBonus : Option ℚ) (customPrice : PriceArg) (u : User) (p : Product)
    (ex : UserProduct)
    (hu : findUser s userId = some u) (hp : findProduct s productId = some p)
    (hex : findExisting s clk userId productId = some ex)
    (hok : (assignSingleTask s clk userId productId manualBonus customPrice).2 = .ok) :
    differenceOf p (levelOr1 u.level) manualBonus customPrice (some ex)
      = round2 (jsSub
          (round2 (jsAdd (requestedPrice p (levelOr1 u.level) customPrice)
            (cleanBonus manualBonus)))
          (round2 (jsAdd (match ex.custom_price with
                          | some c => c
                          | none => levelPrice p (levelOr1 u.level)) ex.manual_bonus))) ∧
    (|requestedBase p (levelOr1 u.level) manualBonus customPrice| ≤ 5 * 10 ^ 12 →
      |previousBaseOf p (levelOr1 u.level) (some ex)| ≤ 5 * 10 ^ 12 →
      differenceOf p (levelOr1 u.level) manualBonus customPrice (some ex)
        = requestedBase p (levelOr1 u.level) manualBonus customPrice
          - previousBaseOf p (levelOr1 u.level) (some ex)) ∧
    walletOf (assignSingleTask s clk userId productId manualBonus customPrice).1 userId
      = some (u.wallet_balance
          - deadband (differenceOf p (levelOr1 u.level) manualBonus customPrice (some ex))) ∧
    (assignSingleTask s clk userId productId manualBonus customPrice).1.balance_events
      = s.balance_events ++
          (if deadband (differenceOf p (levelOr1 u.level) manualBonus customPrice (some ex)) = 0
           then []
           else [adjustmentEvent clk userId p.name
             (deadband (differenceOf p (levelOr1 u.level) manualBonus customPrice
               (some ex)))]) ∧
    ((assignSingleTask s clk userId productId manualBonus customPrice).1.balance_events
        = s.balance_events ++ [adjustmentEvent clk userId p.name
            (deadband (differenceOf p (levelOr1 u.level) manualBonus customPrice (some ex)))]
      ↔ deadband (differenceOf p (levelOr1 u.level) manualBonus customPrice (some ex)) ≠ 0) ∧
    (deadband (differenceOf p (levelOr1 u.level) manualBonus customPrice (some ex)) = 0
      ↔ |differenceOf p (levelOr1 u.level) manualBonus customPrice (some ex)| < 5 / 1000) ∧
    (deadband (differenceOf p (levelOr1 u.level) manualBonus customPrice (some ex)) = 0 →
      (assignSingleTask s clk userId productId manualBonus customPrice).1.balance_events
        = s.balance_events ∧
      (assignSingleTask s clk userId productId manualBonus customPrice).1.users = s.users) ∧
    (∀ (s0 : Store) (uid : Nat) (name : String),
      applyDifference s0 clk uid name (deadband (4 / 1000)) = s0) ∧
    (∀ (s0 : Store) (uid : Nat) (name : String),
      applyDifference s0 clk uid name (deadband (6 / 1000)) =
        insertEvent
          (updateUser s0 uid (fun u => { u with wallet_balance := u.wallet_balance - 6 / 1000 }))
          { user_id := uid, type := .manual_adjustment, amount := 6 / 1000,
            reference_date := some clk.today, details := .manualAssignment name }) ∧
    (∀ (s0 : Store) (uid : Nat) (name : String),
      applyDifference s0 clk uid name (deadband (round2 (4 / 1000))) = s0) ∧
    (∀ (s0 : Store) (uid : Nat) (name : String),
      applyDifference s0 clk uid name (deadband (round2 (6 / 1000))) =
        insertEvent
          (updateUser s0 uid (fun u => { u with wallet_balance := u.wallet_balance - 1 / 100 }))
          { user_id := uid, type := .manual_adjustment, amount := 1 / 100,
            reference_date := some clk.today, details := .manualAssignment name }) ∧
    ((assignSingleTask customPriceStore sampleClock 1 7 none (.num (2501 / 250))).2 = .ok ∧
      (assignSingleTask customPriceStore sampleClock 1 7 none
        (.num (2501 / 250))).1.balance_events = [] ∧
      walletOf (assignSingleTask customPriceStore sampleClock 1 7 none
        (.num (2501 / 250))).1 1 = some 0) ∧
    ((assignSingleTask customPriceStore sampleClock 1 7 none (.num (5003 / 500))).2 = .ok ∧
      (assignSingleTask customPriceStore sampleClock 1 7 none
        (.num (5003 / 500))).1.balance_events
        = [{ user_id := 1, type := .manual_adjustment, amount := 1 / 100,
             reference_date := some 100, details := .manualAssignment "P" }] ∧
      walletOf (assignSingleTask customPriceStore sampleClock 1 7 none
        (.num (5003 / 500))).1 1 = some (-1 / 100)) := by
  obtain ⟨u1, p1, hu1, hp1, _, _, _, _, e⟩ := assignSingleTask_ok hok
  rw [hu] at hu1
  rw [hp] at hp1
  injection hu1 with hu1
  injection hp1 with hp1
  subst hu1 hp1
  rw [upsertAssignment_deadband, computedDifference_eq, storedCustomPrice_eq,
    findUser_id hu, findProduct_id hp, hex] at e
  have hev : (assignSingleTask s clk userId productId manualBonus customPrice).1.balance_events
      = s.balance_events ++
          (if deadband (differenceOf p (levelOr1 u.level) manualBonus customPrice (some ex)) = 0
           then []
           else [adjustmentEvent clk userId p.name
             (deadband (differenceOf p (levelOr1 u.level) manualBonus customPrice
               (some ex)))]) := by
    rw [e]
    dsimp only
    rw [applyDifference_events, upsertRows_events]
  refine ⟨rfl, differenceOf_exact p _ manualBonus customPrice (some ex), ?_, hev, ?_,
    deadband_eq_zero_iff _, ?_, ?_, ?_, ?_, ?_, by decide!, by decide!⟩
  · rw [e]
    dsimp only
    unfold walletOf
    rw [findUser_applyDifference _ _ _ _ _ u (by
      unfold findUser at hu ⊢
      rw [upsertRows_users]
      exact hu)]
    rfl
  · rw [hev]
    constructor
    · intro h hz
      rw [if_pos hz] at h
      have := congrArg List.length h
      simp at this
    · intro hz
      rw [if_neg hz]
  · intro hz
    rw [e]
    dsimp only
    rw [hz, applyDifference_zero]
    exact ⟨upsertRows_events _ _ _ _ _ _, upsertRows_users _ _ _ _ _ _⟩
  · intro s0 uid name
    have h : deadband (4 / 1000) = 0 := by decide!
    rw [h, applyDifference_zero]
  · intro s0 uid name
    have h : deadband (6 / 1000) = 6 / 1000 := by decide!
    rw [h, applyDifference_of_ne _ _ _ _ _ (by norm_num)]
    have he : adjustmentEvent clk uid name (6 / 1000) =
        { user_id := uid, type := .manual_adjustment, amount := 6 / 1000,
          reference_date := some clk.today, details := .manualAssignment name } := by
      unfold adjustmentEvent
      rw [abs_of_pos (by norm_num), if_pos (by norm_num)]
    rw [he]
  · intro s0 uid name
    have h : deadband (round2 (4 / 1000)) = 0 := by decide!
    rw [h, applyDifference_zero]
  · intro s0 uid name
    have h : deadband (round2 (6 / 1000)) = 1 / 100 := by decide!
    rw [h, applyDifference_of_ne _ _ _ _ _ (by norm_num)]
    have he : adjustmentEvent clk uid name (1 / 100) =
        { user_id := uid, type := .manual_adjustment, amount := 1 / 100,
          reference_date := some clk.today, details := .manualAssignment name } := by
      unfold adjustmentEvent
      rw [abs_of_pos (by norm_num), if_pos (by norm_num)]
    rw [he]

/-- C15 on the row of `customPriceStore` (custom price 10.00, no bonus),
re-assigned at the custom price 10.006: the new base amount is 10.01, the
computed difference 0.01 passes the deadband, the wallet goes from 0 to -0.01
and one event of 0.01 is appended. -/
theorem deadband_decides_event_witness :
    findExisting customPriceStore sampleClock 1 7
      = some { sampleAssignment with custom_price := some 10, is_manual := true } ∧
    (assignSingleTask customPriceStore sampleClock 1 7 none (.num (5003 / 500))).2 = .ok ∧
    differenceOf sampleProduct (levelOr1 sampleUser.level) none (.num (5003 / 500))
      (some { sampleAssignment with custom_price := some 10, is_manual := true }) = 1 / 100 ∧
    walletOf (assignSingleTask customPriceStore sampleClock 1 7 none (.num (5003 / 500))).1 1
      = some (sampleUser.wallet_balance
          - deadband (differenceOf sampleProduct (levelOr1 sampleUser.level) none
              (.num (5003 / 500))
              (some { sampleAssignment with custom_price := some 10, is_manual := true }))) ∧
    (assignSingleTask customPriceStore sampleClock 1 7 none
        (.num (5003 / 500))).1.balance_events
      = customPriceStore.balance_events ++
          (if deadband (differenceOf sampleProduct (levelOr1 sampleUser.level) none
              (.num (5003 / 500))
              (some { sampleAssignment with custom_price := some 10, is_manual := true })) = 0
           then []
           else [adjustmentEvent sampleClock 1 sampleProduct.name
             (deadband (differenceOf sampleProduct (levelOr1 sampleUser.level) none
               (.num (5003 / 500))
               (some { sampleAssignment with custom_price := some 10,
                                             is_manual := true })))]) :=
  ⟨by decide, by decide!, by decide!,
   (deadband_decides_event customPriceStore sampleClock 1 7 none (.num (5003 / 500)) sampleUser
     sampleProduct { sampleAssignment with custom_price := some 10, is_manual := true }
     rfl rfl (by decide) (by decide!)).2.2.1,
   (deadband_decides_event customPriceStore sampleClock 1 7 none (.num (5003 / 500)) sampleUser
     sampleProduct { sampleAssignment with custom_price := some 10, is_manual := true }
     rfl rfl (by decide) (by decide!)).2.2.2.1⟩

/-! ## C16: the price validation of the single assignment -/

theorem levelPrice_eq_resolved (p : Product) (userLevel : Nat) :
    levelPrice p userLevel = resolvedPrice none p userLevel := by
  unfold levelPrice resolvedPrice
  rw [jsNumber_jsOr_zero]
  cases hc : p.priceColumn userLevel with
  | none => simp [jsOr]
  | some v =>
    by_cases h : v = 0
    · simp [jsOr, h]
    · simp [jsOr, h, jsNumber]

/-- C16, as stated, fails: in `fallbackStore` the product's price at the
user's level 2 is 0, yet assigning it without a custom price succeeds (the
level-1 price 10.00 is used). -/
theorem zero_level_price_assignable :
    findUser fallbackStore 1 = some sampleUser ∧
    findProduct fallbackStore 7
      = some { sampleProduct with level1_price := some 10, level2_price := some 0 } ∧
    Product.priceColumn { sampleProduct with level1_price := some 10, level2_price := some 0 }
      (levelOr1 sampleUser.level) = some 0 ∧
    (assignSingleTask fallbackStore sampleClock 1 7 none .absent).2 = .ok := by
  decide!

/-- C16, amended: for an existing user and an active product, a custom price
that is not a number or is negative is refused with `InvalidPrice`, and any
other custom price, 0 included, is accepted and stored in the row as its
column keeps it, rounded to 2 decimals; without a
custom price the call is refused exactly when the level price (the price
column of the user's level if set and not 0, else the level-1 price, else 0)
is not positive; and whatever the arguments, a call that does not answer `ok`
returns the store unchanged. -/
theorem price_validation (s : Store) (clk : Clock) (userId productId : Nat)
    (manualBonus : Option ℚ) (u : User) (p : Product)
    (hu : findUser s userId = some u) (hp : findProduct s productId = some p)
    (hact : p.status = .active) (hu0 : userId ≠ 0) (hp0 : productId ≠ 0) :
    assignSingleTask s clk userId productId manualBonus .notANumber
      = (s, .invalidCustomPrice) ∧
    (∀ q : ℚ, q < 0 →
      assignSingleTask s clk userId productId manualBonus (.num q)
        = (s, .invalidCustomPrice)) ∧
    (∀ q : ℚ, 0 ≤ q →
      (assignSingleTask s clk userId productId manualBonus (.num q)).2 = .ok ∧
      ∃ ex, findExisting (assignSingleTask s clk userId productId manualBonus (.num q)).1
          clk userId productId = some ex ∧ ex.custom_price = some (round2 q)) ∧
    (¬ (0 < resolvedPrice none p (levelOr1 u.level)) →
      assignSingleTask s clk userId productId manualBonus .absent
        = (s, .invalidProductPrice)) ∧
    (0 < resolvedPrice none p (levelOr1 u.level) →
      (assignSingleTask s clk userId productId manualBonus .absent).2 = .ok ∧
      ∃ ex, findExisting (assignSingleTask s clk userId productId manualBonus .absent).1
          clk userId productId = some ex ∧ ex.custom_price = none) ∧
    (∀ (uid pid : Nat) (bonus : Option ℚ) (customPrice : PriceArg),
      (assignSingleTask s clk uid pid bonus customPrice).2 ≠ .ok →
      (assignSingleTask s clk uid pid bonus customPrice).1 = s) := by
  have hacc := fun c => assignSingleTask_accepted s clk userId productId manualBonus c u p
    hu hp hact hu0 hp0
  have hrow : ∀ c, (assignSingleTask s clk userId productId manualBonus c).2 = .ok →
      ∃ ex, findExisting (assignSingleTask s clk userId productId manualBonus c).1
          clk userId productId = some ex ∧ ex.custom_price = storedCustomPrice c := by
    intro c hok
    obtain ⟨_, _, ⟨ex, hex, _, hc⟩, _⟩ := assignSingleTask_step hu hp hok
    exact ⟨ex, hex, hc⟩
  refine ⟨?_, ?_, ?_, ?_, ?_, ?_⟩
  · exact (hacc .notANumber).2 rfl
  · intro q hq
    exact (hacc (.num q)).2 (by simp [priceAccepted, hq])
  · intro q hq
    have e := (hacc (.num q)).1 (by simp [priceAccepted, hq])
    have hok : (assignSingleTask s clk userId productId manualBonus (.num q)).2 = .ok := by
      rw [e]
    exact ⟨hok, hrow _ hok⟩
  · intro hq
    rw [← levelPrice_eq_resolved] at hq
    exact (hacc .absent).2 (by simp [priceAccepted]; exact not_lt.mp hq)
  · intro hq
    rw [← levelPrice_eq_resolved] at hq
    have e := (hacc .absent).1 (by simp [priceAccepted, hq])
    have hok : (assignSingleTask s clk userId productId manualBonus .absent).2 = .ok := by
      rw [e]
    exact ⟨hok, hrow _ hok⟩
  · intro uid pid bonus customPrice hne
    rcases assignSingleTask_cases s clk uid pid bonus customPrice with
      ⟨h, _⟩ | ⟨_, _, _, _, _, _, _, h⟩
    · exact h
    · rw [h] at hne
      exact absurd rfl hne

/-- C16, amended, at the scenario store: its product (level price 10.00) and
user pass the validation as stated. -/
theorem price_validation_witness :
    assignSingleTask scenarioStore sampleClock 1 7 none .notANumber
      = (scenarioStore, .invalidCustomPrice) ∧
    (∀ q : ℚ, q < 0 →
      assignSingleTask scenarioStore sampleClock 1 7 none (.num q)
        = (scenarioStore, .invalidCustomPrice)) ∧
    (∀ q : ℚ, 0 ≤ q →
      (assignSingleTask scenarioStore sampleClock 1 7 none (.num q)).2 = .ok ∧
      ∃ ex, findExisting (assignSingleTask scenarioStore sampleClock 1 7 none (.num q)).1
          sampleClock 1 7 = some ex ∧ ex.custom_price = some (round2 q)) ∧
    (¬ (0 < resolvedPrice none sampleProduct (levelOr1 sampleUser.level)) →
      assignSingleTask scenarioStore sampleClock 1 7 none .absent
        = (scenarioStore, .invalidProductPrice)) ∧
    (0 < resolvedPrice none sampleProduct (levelOr1 sampleUser.level) →
      (assignSingleTask scenarioStore sampleClock 1 7 none .absent).2 = .ok ∧
      ∃ ex, findExisting (assignSingleTask scenarioStore sampleClock 1 7 none .absent).1
          sampleClock 1 7 = some ex ∧ ex.custom_price = none) ∧
    (∀ (uid pid : Nat) (bonus : Option ℚ) (customPrice : PriceArg),
      (assignSingleTask scenarioStore sampleClock uid pid bonus customPrice).2 ≠ .ok →
      (assignSingleTask scenarioStore sampleClock uid pid bonus customPrice).1
        = scenarioStore) :=
  price_validation scenarioStore sampleClock 1 7 none sampleUser sampleProduct rfl rfl rfl
    (by decide) (by decide)

/-! ## C17: the single assignment over an existing row -/

/-- C17, as stated, fails: re-assigning the row of `customPriceStore` with
`manualBonus = -3` and `customPrice = 5` succeeds and leaves the row with
`manual_bonus = 0`, not the -3 of the arguments. -/
theorem reassignment_clamps_bonus :
    findExisting customPriceStore sampleClock 1 7
      = some { sampleAssignment with custom_price := some 10, is_manual := true } ∧
    (assignSingleTask customPriceStore sampleClock 1 7 (some (-3)) (.num 5)).2 = .ok ∧
    (assignSingleTask customPriceStore sampleClock 1 7 (some (-3)) (.num 5)).1.user_products =
      [{ sampleAssignment with manual_bonus := 0, custom_price := some 5, is_manual := true }] := by
  decide!

/-- C17, amended: when a row exists for (user, product, today) and assignment
ids are keys, a successful single assignment rewrites that row in place and
inserts none: the row keeps its id, user and product and becomes pending and
manual, dated today, with the custom price of the arguments (or null), with
the bonus the handler keeps (the given bonus rounded when positive, else 0),
both amounts 0 and `submitted_at` cleared, whatever it was before; every
other row is unchanged. -/
theorem reassignment_in_place (s : Store) (clk : Clock) (userId productId : Nat)
    (manualBonus : Option ℚ) (customPrice : PriceArg) (ex : UserProduct)
    (hid : (s.user_products.map (fun r => r.id)).Nodup)
    (hex : findExisting s clk userId productId = some ex)
    (hok : (assignSingleTask s clk userId productId manualBonus customPrice).2 = .ok) :
    (assignSingleTask s clk userId productId manualBonus customPrice).1.user_products =
      s.user_products.map (fun r =>
        if r = ex then
          { ex with status := .pending, is_manual := true, assigned_date := clk.today,
                    manual_bonus := cleanBonus manualBonus,
                    custom_price := storedCustomPrice customPrice,
                    amount_earned := 0, commission_earned := 0, submitted_at := none }
        else r) ∧
    (∀ x, manualBonus = some x →
      cleanBonus manualBonus = if 0 < x then round2 (fl x) else 0) ∧
    (manualBonus = none → cleanBonus manualBonus = 0) ∧
    (∀ q, customPrice = .num q → storedCustomPrice customPrice = some (round2 q)) ∧
    (customPrice = .absent → storedCustomPrice customPrice = none) ∧
    (∀ r ∈ s.user_products, r ≠ ex →
      r ∈ (assignSingleTask s clk userId productId manualBonus customPrice).1.user_products) := by
  have hexm := (findExisting_some hex).1
  have hrows : (assignSingleTask s clk userId productId manualBonus customPrice).1.user_products
      = s.user_products.map (fun r =>
        if r = ex then resetRow clk (cleanBonus manualBonus) (storedCustomPrice customPrice) ex
        else r) := by
    rw [assignSingleTask_rows hok]
    unfold upsertRows
    rw [hex]
    simp only [updateUserProduct]
    apply List.map_congr_left
    intro r hr
    by_cases h : r = ex
    · rw [if_pos h, if_pos (by rw [h]), h]
    · rw [if_neg h, if_neg (fun e => h (List.inj_on_of_nodup_map hid hr hexm e))]
  refine ⟨?_, ?_, ?_, ?_, ?_, ?_⟩
  · rw [hrows]
    rfl
  · intro x hx
    rw [hx, cleanBonus_some]
  · intro hx
    rw [hx]
    decide!
  · intro q hq
    rw [hq]
    rfl
  · intro hq
    rw [hq]
    rfl
  · intro r hr hne
    rw [hrows]
    exact List.mem_map.mpr ⟨r, hr, by rw [if_neg hne]⟩

/-- C17, amended, at `completedStore`: the completed row 3 is rewritten in
place by the assignment of product 7 to user 1 with bonus 1.50. -/
theorem reassignment_in_place_witness :
    (assignSingleTask completedStore sampleClock 1 7 (some (3 / 2)) .absent).1.user_products =
      completedStore.user_products.map (fun r =>
        if r = { sampleAssignment with
                 status := .completed, amount_earned := 10, commission_earned := 1 / 2,
                 submitted_at := some 4000 } then
          { ({ sampleAssignment with
               status := .completed, amount_earned := 10, commission_earned := 1 / 2,
               submitted_at := some 4000 } : UserProduct) with
            status := .pending, is_manual := true, assigned_date := sampleClock.today,
            manual_bonus := cleanBonus (some (3 / 2)),
            custom_price := storedCustomPrice .absent,
            amount_earned := 0, commission_earned := 0, submitted_at := none }
        else r) ∧
    (∀ x, some (3 / 2 : ℚ) = some x →
      cleanBonus (some (3 / 2)) = if 0 < x then round2 (fl x) else 0) ∧
    (some (3 / 2 : ℚ) = none → cleanBonus (some (3 / 2)) = 0) ∧
    (∀ q, PriceArg.absent = .num q → storedCustomPrice .absent = some (round2 q)) ∧
    (PriceArg.absent = .absent → storedCustomPrice .absent = none) ∧
    (∀ r ∈ completedStore.user_products,
      r ≠ { sampleAssignment with
            status := .completed, amount_earned := 10, commission_earned := 1 / 2,
            submitted_at := some 4000 } →
      r ∈ (assignSingleTask completedStore sampleClock 1 7 (some (3 / 2))
        .absent).1.user_products) :=
  reassignment_in_place completedStore sampleClock 1 7 (some (3 / 2)) .absent
    { sampleAssignment with
      status := .completed, amount_earned := 10, commission_earned := 1 / 2,
      submitted_at := some 4000 }
    (by decide) rfl (by decide!)

/-! ## Lemmas on the rows and events of the bulk loop -/

theorem insertIgnore_added (s : Store) (clk : Clock) (userId productId : Nat) :
    ∃ added, (insertIgnore s clk userId productId).1 =
        { s with user_products := s.user_products ++ added } ∧
      added.length = (if (insertIgnore s clk userId productId).2 then 1 else 0) ∧
      (∀ r ∈ added, r.user_id = userId ∧ r.assigned_date = clk.today ∧
        r.is_manual = false ∧ r.status = .pending) ∧
      ((s.user_products.map keyOf).Nodup → ((s.user_products ++ added).map keyOf).Nodup) := by
  unfold insertIgnore
  split
  · exact ⟨[], by simp, by simp, by simp, by simp⟩
  · rename_i h
    refine ⟨_, rfl, by simp, ?_, ?_⟩
    · intro r hr
      rw [List.mem_singleton] at hr
      subst hr
      exact ⟨rfl, rfl, rfl, rfl⟩
    · intro hnd
      rw [List.map_append, List.map_singleton]
      apply List.Nodup.append hnd (List.nodup_singleton _)
      intro k hk1 hk2
      rw [List.mem_singleton] at hk2
      obtain ⟨r, hr, hrk⟩ := List.mem_map.mp hk1
      apply h
      rw [List.any_eq_true]
      refine ⟨r, hr, ?_⟩
      rw [hk2] at hrk
      simp only [keyOf, Prod.mk.injEq] at hrk
      simp [hrk.1, hrk.2.1, hrk.2.2]

theorem insertSlots_added (clk : Clock) (rnd : Nat → Nat) (p0 : Product) (rest : List Product)
    (userId : Nat) (n k : Nat) (s : Store) :
    ∃ added, (insertSlots clk rnd p0 rest userId n k s).1 =
        { s with user_products := s.user_products ++ added } ∧
      added.length = (insertSlots clk rnd p0 rest userId n k s).2 ∧
      added.length ≤ n ∧
      (∀ r ∈ added, r.user_id = userId ∧ r.assigned_date = clk.today ∧
        r.is_manual = false ∧ r.status = .pending) ∧
      ((s.user_products.map keyOf).Nodup → ((s.user_products ++ added).map keyOf).Nodup) := by
  induction n generalizing k s with
  | zero => exact ⟨[], by simp [insertSlots], by simp [insertSlots], by simp, by simp, by simp⟩
  | succ n ih =>
    obtain ⟨a1, h1, hl1, hp1, hk1⟩ :=
      insertIgnore_added s clk userId (pickProduct p0 rest (rnd k)).id
    obtain ⟨a2, h2, hl2, hb2, hp2, hk2⟩ :=
      ih (k + 1) (insertIgnore s clk userId (pickProduct p0 rest (rnd k)).id).1
    have hs : insertSlots clk rnd p0 rest userId (n + 1) k s =
        ((insertSlots clk rnd p0 rest userId n (k + 1)
            (insertIgnore s clk userId (pickProduct p0 rest (rnd k)).id).1).1,
         (if (insertIgnore s clk userId (pickProduct p0 rest (rnd k)).id).2 then 1 else 0)
          + (insertSlots clk rnd p0 rest userId n (k + 1)
            (insertIgnore s clk userId (pickProduct p0 rest (rnd k)).id).1).2) := rfl
    rw [hs]
    have hup : (insertIgnore s clk userId (pickProduct p0 rest (rnd k)).id).1.user_products
        = s.user_products ++ a1 := by rw [h1]
    refine ⟨a1 ++ a2, ?_, ?_, ?_, ?_, ?_⟩
    · dsimp only
      rw [h2, h1]
      simp
    · dsimp only
      rw [List.length_append, hl1, hl2]
    · rw [List.length_append, hl1]
      split <;> omega
    · intro r hr
      rcases List.mem_append.mp hr with h | h
      · exact hp1 r h
      · exact hp2 r h
    · intro hnd
      have := hk2 (by rw [hup]; exact hk1 hnd)
      rw [hup, List.append_assoc] at this
      exact this

theorem debitUser_rows {s s2 : Store} {clk : Clock} {user : User} {dailyLimit : Int}
    (h : debitUser s clk user dailyLimit = .ok s2) :
    s2.user_products = s.user_products ∧ s2.products = s.products ∧
      s2.level_settings = s.level_settings := by
  rcases debitUser_cases h with e | ⟨_, t, _, e⟩
  · rw [e]; exact ⟨rfl, rfl, rfl⟩
  · rw [e]; exact ⟨rfl, rfl, rfl⟩

theorem dailyLimitOf_congr {s s1 : Store} (h : s1.level_settings = s.level_settings)
    (level : Option Nat) : dailyLimitOf s1 level = dailyLimitOf s level := by
  unfold dailyLimitOf
  rw [h]

theorem filter_user_eq_nil_of_not_listed {users : List User} {added : List UserProduct}
    {v : Nat} (h : ∀ r ∈ added, ∃ u ∈ users, r.user_id = u.id)
    (hv : v ∉ users.map (fun u => u.id)) :
    added.filter (fun r => r.user_id = v) = [] := by
  apply List.filter_eq_nil_iff.mpr
  intro r hr
  obtain ⟨u, hu, hru⟩ := h r hr
  simp only [decide_eq_true_eq]
  intro e
  exact hv (List.mem_map.mpr ⟨u, hu, by rw [← hru, e]⟩)

/-- The rows the user loop appends: their number is what the loop adds to its
count, they are pending automatic rows of today for listed users, the index
key stays a key, products and level settings are left alone, and when the
listed users have distinct ids each gets at most as many rows as its daily
limit. -/
theorem assignLoop_added (clk : Clock) (rnd : Nat → Nat) (p0 : Product) (rest : List Product)
    (users : List User) (k total : Nat) (s : Store) :
    ∃ added, (assignLoop clk rnd p0 rest users k total s).1.user_products
        = s.user_products ++ added ∧
      (∀ n, (assignLoop clk rnd p0 rest users k total s).2 = .ok n →
        n = total + added.length) ∧
      (∀ r ∈ added, (∃ u ∈ users, r.user_id = u.id) ∧ r.assigned_date = clk.today ∧
        r.is_manual = false ∧ r.status = .pending) ∧
      ((s.user_products.map keyOf).Nodup → ((s.user_products ++ added).map keyOf).Nodup) ∧
      (assignLoop clk rnd p0 rest users k total s).1.products = s.products ∧
      (assignLoop clk rnd p0 rest users k total s).1.level_settings = s.level_settings ∧
      ((users.map (fun u => u.id)).Nodup → ∀ u ∈ users,
        (added.filter (fun r => r.user_id = u.id)).length
          ≤ (dailyLimitOf s u.level).toNat) := by
  induction users generalizing k total s with
  | nil =>
    refine ⟨[], by simp [assignLoop], ?_, by simp, by simp, rfl, rfl, by simp⟩
    intro n hn
    simp only [assignLoop] at hn
    injection hn with hn
    simp [hn]
  | cons user users ih =>
    rw [assignLoop_cons]
    split
    · obtain ⟨added, h1, h2, h3, h4, h5, h6, h7⟩ := ih k total s
      refine ⟨added, h1, h2, ?_, h4, h5, h6, ?_⟩
      · intro r hr
        obtain ⟨⟨u, hu, hru⟩, hrest⟩ := h3 r hr
        exact ⟨⟨u, List.mem_cons_of_mem _ hu, hru⟩, hrest⟩
      · intro hnd u hu
        rw [List.map_cons, List.nodup_cons] at hnd
        rcases List.mem_cons.mp hu with e | e
        · rw [e, filter_user_eq_nil_of_not_listed (fun r hr => (h3 r hr).1) hnd.1]
          exact Nat.zero_le _
        · exact h7 hnd.2 u e
    · obtain ⟨a1, h1, hl1, hb1, hp1, hk1⟩ := insertSlots_added clk rnd p0 rest user.id
        (dailyLimitOf s user.level).toNat k s
      have hup : (insertSlots clk rnd p0 rest user.id
          (dailyLimitOf s user.level).toNat k s).1.user_products = s.user_products ++ a1 := by
        rw [h1]
      have hpr : (insertSlots clk rnd p0 rest user.id
          (dailyLimitOf s user.level).toNat k s).1.products = s.products := by rw [h1]
      have hls : (insertSlots clk rnd p0 rest user.id
          (dailyLimitOf s user.level).toNat k s).1.level_settings = s.level_settings := by
        rw [h1]
      have hp1u : ∀ r ∈ a1, (∃ u ∈ user :: users, r.user_id = u.id) ∧
          r.assigned_date = clk.today ∧ r.is_manual = false ∧ r.status = .pending := by
        intro r hr
        obtain ⟨hr1, hr2⟩ := hp1 r hr
        exact ⟨⟨user, List.mem_cons_self _ _, hr1⟩, hr2⟩
      have hhead : (a1.filter (fun r => r.user_id = user.id)).length
          ≤ (dailyLimitOf s user.level).toNat :=
        le_trans (List.length_filter_le _ _) hb1
      have hother : ∀ u ∈ users, (user :: users).map (fun u => u.id) |>.Nodup →
          a1.filter (fun r => r.user_id = u.id) = [] := by
        intro u hu hnd
        rw [List.map_cons, List.nodup_cons] at hnd
        apply List.filter_eq_nil_iff.mpr
        intro r hr
        simp only [decide_eq_true_eq]
        intro e
        exact hnd.1 (List.mem_map.mpr ⟨u, hu, by rw [← e, (hp1 r hr).1]⟩)
      split
      · refine ⟨a1, hup, ?_, hp1u, hk1, hpr, hls, ?_⟩
        · intro n hn
          cases hn
        · intro hnd u hu
          rcases List.mem_cons.mp hu with e | e
          · rw [e]; exact hhead
          · rw [hother u e hnd]; exact Nat.zero_le _
      · rename_i s2 hs2
        obtain ⟨hr2, hpr2, hls2⟩ := debitUser_rows hs2
        obtain ⟨a2, g1, g2, g3, g4, g5, g6, g7⟩ := ih (k + (dailyLimitOf s user.level).toNat)
          (total + (insertSlots clk rnd p0 rest user.id
            (dailyLimitOf s user.level).toNat k s).2) s2
        refine ⟨a1 ++ a2, ?_, ?_, ?_, ?_, ?_, ?_, ?_⟩
        · rw [g1, hr2, hup, List.append_assoc]
        · intro n hn
          rw [g2 n hn, List.length_append, hl1]
          omega
        · intro r hr
          rcases List.mem_append.mp hr with h | h
          · exact hp1u r h
          · obtain ⟨⟨u, hu, hru⟩, hrest⟩ := g3 r h
            exact ⟨⟨u, List.mem_cons_of_mem _ hu, hru⟩, hrest⟩
        · intro hnd
          have := g4 (by rw [hr2, hup]; exact hk1 hnd)
          rw [hr2, hup, List.append_assoc] at this
          exact this
        · rw [g5, hpr2, hpr]
        · rw [g6, hls2, hls]
        · intro hnd u hu
          have hnd2 := hnd
          rw [List.map_cons, List.nodup_cons] at hnd2
          rw [List.filter_append, List.length_append]
          rcases List.mem_cons.mp hu with e | e
          · rw [e, filter_user_eq_nil_of_not_listed (fun r hr => (g3 r hr).1) hnd2.1]
            exact hhead
          · rw [hother u e hnd, List.length_nil, Nat.zero_add]
            have := g7 hnd2.2 u e
            rw [dailyLimitOf_congr (hls2.trans hls)] at this
            exact this

theorem assignedTotal_congr {s1 s2 : Store} (clk : Clock) (v lv : Nat)
    (added : List UserProduct) (hp : s2.products = s1.products)
    (hu : s2.user_products = s1.user_products ++ added)
    (hv : ∀ r ∈ added, r.user_id ≠ v) :
    assignedTotal s2 clk v lv = assignedTotal s1 clk v lv := by
  unfold assignedTotal joinProducts
  rw [hp, hu, List.filter_append]
  have hnil : added.filter (fun up => decide (up.user_id = v ∧ up.assigned_date = clk.today ∧
      up.is_manual = false)) = [] := by
    apply List.filter_eq_nil_iff.mpr
    intro r hr
    simp only [decide_eq_true_eq, not_and]
    intro e
    exact absurd e (hv r hr)
  rw [hnil, List.append_nil]

theorem appendedEvents_of_append {s s1 : Store} {l : List BalanceEvent}
    (h : s1.balance_events = s.balance_events ++ l) : appendedEvents s s1 = l := by
  unfold appendedEvents
  rw [h, List.drop_left]

theorem appendedRows_of_append {s s1 : Store} {l : List UserProduct}
    (h : s1.user_products = s.user_products ++ l) : appendedRows s s1 = l := by
  unfold appendedRows
  rw [h, List.drop_left]

/-- The debit step of one user, seen from a store `s` that has the users and
events of the store `s1` the step starts from. -/
theorem debitStep {s s1 s2 : Store} {clk : Clock} {user : User} {d : Int}
    (hU : s1.users = s.users) (hE : s1.balance_events = s.balance_events)
    (h : debitUser s1 clk user d = .ok s2) :
    ∃ l1, s2.balance_events = s.balance_events ++ l1 ∧
      (∀ e ∈ l1, e.user_id = user.id ∧ e.type = .assignment_debit ∧
        e.reference_date = some clk.today ∧ debitExists s clk e.user_id = false) ∧
      l1.length ≤ 1 ∧
      (l1 ≠ [] → debitExists s2 clk user.id = true) ∧
      (∀ v, debitExists s2 clk v = false → debitExists s clk v = false) ∧
      (∀ v, v ≠ user.id →
        walletOf s2 v = walletOf s v ∧ debitExists s2 clk v = debitExists s clk v) ∧
      (debitExists s clk user.id = true →
        l1 = [] ∧ walletOf s2 user.id = walletOf s user.id) ∧
      (debitExists s clk user.id = false → ∃ lv, user.level = some lv ∧ 1 ≤ lv ∧ lv ≤ 5 ∧
        (0 < assignedTotal s1 clk user.id lv →
          l1 = [debitEvent clk user.id d (assignedTotal s1 clk user.id lv)] ∧
          walletOf s2 user.id
            = (walletOf s user.id).map (fun w => w - assignedTotal s1 clk user.id lv)) ∧
        (¬ 0 < assignedTotal s1 clk user.id lv →
          l1 = [] ∧ walletOf s2 user.id = walletOf s user.id)) := by
  have hD : ∀ v, debitExists s1 clk v = debitExists s clk v := debitExists_congr hE clk
  have hW : ∀ v, walletOf s1 v = walletOf s v := walletOf_congr hU
  have hsame : s2 = s1 → ∃ l1, s2.balance_events = s.balance_events ++ l1 ∧
      (∀ e ∈ l1, e.user_id = user.id ∧ e.type = .assignment_debit ∧
        e.reference_date = some clk.today ∧ debitExists s clk e.user_id = false) ∧
      l1.length ≤ 1 ∧
      (l1 ≠ [] → debitExists s2 clk user.id = true) ∧
      (∀ v, debitExists s2 clk v = false → debitExists s clk v = false) ∧
      (∀ v, v ≠ user.id →
        walletOf s2 v = walletOf s v ∧ debitExists s2 clk v = debitExists s clk v) ∧
      l1 = [] ∧ walletOf s2 user.id = walletOf s user.id := by
    intro e
    subst e
    exact ⟨[], by rw [hE]; simp, by simp, by simp, by simp, fun v hv => by rw [← hD]; exact hv,
      fun v _ => ⟨hW v, hD v⟩, rfl, hW _⟩
  unfold debitUser at h
  by_cases hd : debitExists s1 clk user.id = true
  · rw [if_pos hd] at h
    injection h with h
    obtain ⟨l1, g1, g2, g3, g4, g5, g6, g7, g8⟩ := hsame h.symm
    refine ⟨l1, g1, g2, g3, g4, g5, g6, fun _ => ⟨g7, g8⟩, fun hf => ?_⟩
    rw [← hD, hd] at hf
    cases hf
  · rw [if_neg hd] at h
    have hdf : debitExists s clk user.id = false := by
      rw [← hD]; simpa using hd
    cases hl : user.level with
    | none => rw [hl] at h; cases h
    | some lv =>
      rw [hl] at h
      simp only at h
      by_cases hr : 1 ≤ lv ∧ lv ≤ 5
      · rw [if_pos hr] at h
        by_cases ht : assignedTotal s1 clk user.id lv > 0
        · rw [if_pos ht] at h
          injection h with h
          have hw2 : ∀ v, walletOf s2 v = if v = user.id then
              (walletOf s v).map (fun w => w - assignedTotal s1 clk user.id lv)
              else walletOf s v := by
            intro v
            rw [← h, walletOf_debit, hW]
          have hd2 : ∀ v, debitExists s2 clk v
              = (debitExists s clk v || decide (user.id = v)) := by
            intro v
            rw [← h, debitExists_after_debit, hD]
          refine ⟨[debitEvent clk user.id d (assignedTotal s1 clk user.id lv)], ?_, ?_, ?_, ?_,
            ?_, ?_, ?_, ?_⟩
          · rw [← h]
            simp only [insertEvent, updateUser, hE]
            rfl
          · intro e he
            rw [List.mem_singleton] at he
            subst he
            exact ⟨rfl, rfl, rfl, hdf⟩
          · simp
          · intro _
            rw [hd2]
            simp
          · intro v hv
            rw [hd2] at hv
            exact (Bool.or_eq_false_iff.mp hv).1
          · intro v hv
            refine ⟨by rw [hw2, if_neg hv], ?_⟩
            rw [hd2]
            have : decide (user.id = v) = false := by
              simpa using fun e : user.id = v => hv e.symm
            rw [this, Bool.or_false]
          · intro hf
            rw [hdf] at hf
            cases hf
          · intro _
            refine ⟨lv, rfl, hr.1, hr.2, fun _ => ⟨rfl, by rw [hw2, if_pos rfl]⟩, fun hn => ?_⟩
            exact absurd ht hn
        · rw [if_neg ht] at h
          injection h with h
          obtain ⟨l1, g1, g2, g3, g4, g5, g6, g7, g8⟩ := hsame h.symm
          refine ⟨l1, g1, g2, g3, g4, g5, g6, fun _ => ⟨g7, g8⟩, fun _ => ?_⟩
          exact ⟨lv, rfl, hr.1, hr.2, fun hp => absurd hp ht, fun _ => ⟨g7, g8⟩⟩
      · rw [if_neg hr] at h
        cases h

theorem filter_event_user_append (l1 l2 : List BalanceEvent) (v : Nat) :
    (l1 ++ l2).filter (fun e => e.user_id = v)
      = l1.filter (fun e => e.user_id = v) ++ l2.filter (fun e => e.user_id = v) :=
  List.filter_append _ _

theorem filter_event_user_all {l : List BalanceEvent} {v : Nat}
    (h : ∀ e ∈ l, e.user_id = v) : l.filter (fun e => e.user_id = v) = l := by
  apply List.filter_eq_self.mpr
  intro e he
  simp [h e he]

theorem filter_event_user_none {l : List BalanceEvent} {v : Nat}
    (h : ∀ e ∈ l, e.user_id ≠ v) : l.filter (fun e => e.user_id = v) = [] := by
  apply List.filter_eq_nil_iff.mpr
  intro e he
  simp [h e he]

/-- The events the user loop appends and what they mean for each user: they
are debits of today for listed users that had none, at most one per user;
wallets of users not listed are untouched; and when the listed users have
distinct ids and the loop succeeds, every user with a positive daily limit has
the outcome `DebitOutcome`. -/
theorem assignLoop_debits (clk : Clock) (rnd : Nat → Nat) (p0 : Product) (rest : List Product)
    (users : List User) (k total : Nat) (s : Store) :
    ∃ l, (assignLoop clk rnd p0 rest users k total s).1.balance_events
        = s.balance_events ++ l ∧
      (∀ e ∈ l, (∃ u ∈ users, e.user_id = u.id) ∧ e.type = .assignment_debit ∧
        e.reference_date = some clk.today ∧ debitExists s clk e.user_id = false) ∧
      (∀ v, (l.filter (fun e => e.user_id = v)).length ≤ 1) ∧
      (∀ v, v ∉ users.map (fun u => u.id) →
        walletOf (assignLoop clk rnd p0 rest users k total s).1 v = walletOf s v) ∧
      ((users.map (fun u => u.id)).Nodup →
        ∀ n, (assignLoop clk rnd p0 rest users k total s).2 = .ok n →
        ∀ u ∈ users, 0 < dailyLimitOf s u.level →
          DebitOutcome clk s (assignLoop clk rnd p0 rest users k total s).1 l u) := by
  induction users generalizing k total s with
  | nil =>
    exact ⟨[], by simp [assignLoop], by simp, by simp, fun v _ => rfl,
      fun _ _ _ u hu => absurd hu (List.not_mem_nil u)⟩
  | cons user users ih =>
    rw [assignLoop_cons]
    split
    · rename_i hskip
      obtain ⟨l, h1, h2, h3, h4, h5⟩ := ih k total s
      refine ⟨l, h1, ?_, h3, ?_, ?_⟩
      · intro e he
        obtain ⟨⟨u, hu, heu⟩, hrest⟩ := h2 e he
        exact ⟨⟨u, List.mem_cons_of_mem _ hu, heu⟩, hrest⟩
      · intro v hv
        exact h4 v (fun hm => hv (by rw [List.map_cons]; exact List.mem_cons_of_mem _ hm))
      · intro hnd n hn u hu hlim
        rw [List.map_cons, List.nodup_cons] at hnd
        rcases List.mem_cons.mp hu with e | e
        · rw [e] at hlim
          exact absurd hlim (not_lt.mpr hskip)
        · exact h5 hnd.2 n hn u e hlim
    · obtain ⟨a1, f1, _, _, fp1, _⟩ := insertSlots_added clk rnd p0 rest user.id
        (dailyLimitOf s user.level).toNat k s
      have hU : (insertSlots clk rnd p0 rest user.id
          (dailyLimitOf s user.level).toNat k s).1.users = s.users := by rw [f1]
      have hE : (insertSlots clk rnd p0 rest user.id
          (dailyLimitOf s user.level).toNat k s).1.balance_events = s.balance_events := by
        rw [f1]
      have hL : (insertSlots clk rnd p0 rest user.id
          (dailyLimitOf s user.level).toNat k s).1.level_settings = s.level_settings := by
        rw [f1]
      split
      · refine ⟨[], by rw [hE]; simp, by simp, by simp, fun v _ => walletOf_congr hU v, ?_⟩
        intro _ n hn
        cases hn
      · rename_i s2 hs2
        obtain ⟨hr2, hpr2, hls2⟩ := debitUser_rows hs2
        obtain ⟨l1, d1, d2, d3, d4, d5, d6, d7, d8⟩ := debitStep hU hE hs2
        obtain ⟨l2, h1, h2, h3, h4, h5⟩ := ih (k + (dailyLimitOf s user.level).toNat)
          (total + (insertSlots clk rnd p0 rest user.id
            (dailyLimitOf s user.level).toNat k s).2) s2
        obtain ⟨a2, r1, _, r3, _, r5, _, _⟩ := assignLoop_added clk rnd p0 rest users
          (k + (dailyLimitOf s user.level).toNat)
          (total + (insertSlots clk rnd p0 rest user.id
            (dailyLimitOf s user.level).toNat k s).2) s2
        have hl1u : ∀ e ∈ l1, e.user_id = user.id := fun e he => (d2 e he).1
        have hl2u : l1 ≠ [] → ∀ e ∈ l2, e.user_id ≠ user.id := by
          intro hne e he heq
          have hf := (h2 e he).2.2.2
          rw [heq, d4 hne] at hf
          cases hf
        refine ⟨l1 ++ l2, ?_, ?_, ?_, ?_, ?_⟩
        · rw [h1, d1, List.append_assoc]
        · intro e he
          rcases List.mem_append.mp he with hm | hm
          · obtain ⟨g1, g2, g3, g4⟩ := d2 e hm
            exact ⟨⟨user, List.mem_cons_self _ _, g1⟩, g2, g3, g4⟩
          · obtain ⟨⟨u, hu, heu⟩, g2, g3, g4⟩ := h2 e hm
            exact ⟨⟨u, List.mem_cons_of_mem _ hu, heu⟩, g2, g3, d5 _ g4⟩
        · intro v
          rw [filter_event_user_append, List.length_append]
          by_cases hv : v = user.id
          · by_cases hne : l1 = []
            · rw [hne]
              simpa using h3 v
            · rw [hv, filter_event_user_none (hl2u hne), List.length_nil, Nat.add_zero]
              exact le_trans (List.length_filter_le _ _) d3
          · rw [filter_event_user_none (fun e he heq => hv (by rw [← heq, hl1u e he])),
              List.length_nil, Nat.zero_add]
            exact h3 v
        · intro v hv
          rw [List.map_cons, List.mem_cons, not_or] at hv
          rw [h4 v hv.2]
          exact (d6 v hv.1).1
        · intro hnd n hn u hu hlim
          have hnd2 := hnd
          rw [List.map_cons, List.nodup_cons] at hnd2
          have htail : ∀ e ∈ l2, e.user_id ≠ user.id := by
            intro e he heq
            obtain ⟨⟨u1, hu1, heu1⟩, _⟩ := h2 e he
            exact hnd2.1 (List.mem_map.mpr ⟨u1, hu1, by rw [← heu1, heq]⟩)
          rcases List.mem_cons.mp hu with e | e
          · subst e
            have hfl : (l1 ++ l2).filter (fun e => e.user_id = u.id) = l1 := by
              rw [filter_event_user_append, filter_event_user_all hl1u,
                filter_event_user_none htail, List.append_nil]
            have hwal : walletOf (assignLoop clk rnd p0 rest users
                (k + (dailyLimitOf s u.level).toNat)
                (total + (insertSlots clk rnd p0 rest u.id
                  (dailyLimitOf s u.level).toNat k s).2) s2).1 u.id = walletOf s2 u.id :=
              h4 u.id hnd2.1
            have htot : ∀ lv, assignedTotal (assignLoop clk rnd p0 rest users
                (k + (dailyLimitOf s u.level).toNat)
                (total + (insertSlots clk rnd p0 rest u.id
                  (dailyLimitOf s u.level).toNat k s).2) s2).1 clk u.id lv
                = assignedTotal (insertSlots clk rnd p0 rest u.id
                  (dailyLimitOf s u.level).toNat k s).1 clk u.id lv := by
              intro lv
              rw [assignedTotal_congr clk u.id lv a2 r5 r1 (fun r hr heq => by
                obtain ⟨⟨u1, hu1, hru1⟩, _⟩ := r3 r hr
                exact hnd2.1 (List.mem_map.mpr ⟨u1, hu1, by rw [← hru1, heq]⟩))]
              exact assignedTotal_congr clk u.id lv [] hpr2 (by rw [hr2]; simp) (by simp)
            unfold DebitOutcome
            rw [hfl, hwal]
            refine ⟨d7, fun hf => ?_⟩
            obtain ⟨lv, g1, g2, g3, g4, g5⟩ := d8 hf
            refine ⟨lv, g1, g2, g3, ?_, ?_⟩
            · rw [htot]; exact g4
            · rw [htot]; exact g5
          · have hne : u.id ≠ user.id := by
              intro heq
              exact hnd2.1 (List.mem_map.mpr ⟨u, e, heq⟩)
            have hlim2 : 0 < dailyLimitOf s2 u.level := by
              rw [dailyLimitOf_congr (hls2.trans hL)]; exact hlim
            have hout := h5 hnd2.2 n hn u e hlim2
            have hfl : (l1 ++ l2).filter (fun e => e.user_id = u.id)
                = l2.filter (fun e => e.user_id = u.id) := by
              rw [filter_event_user_append,
                filter_event_user_none (fun x hx heq => hne (by rw [← heq, hl1u x hx])),
                List.nil_append]
            unfold DebitOutcome at hout ⊢
            rw [(d6 u.id hne).1, (d6 u.id hne).2,
              dailyLimitOf_congr (hls2.trans hL) u.level] at hout
            rw [hfl]
            exact hout

/-! ## Lemmas on the whole bulk run -/

theorem pickProduct_single (p0 : Product) (r : Nat) : pickProduct p0 [] r = p0 := by
  simp [pickProduct, Nat.mod_one]

theorem insertSlots_single (clk : Clock) (rnd : Nat → Nat) (p0 : Product) (userId : Nat)
    (n k : Nat) (s : Store) :
    insertSlots clk rnd p0 [] userId n k s = insertSlots clk (fun _ => 0) p0 [] userId n k s := by
  induction n generalizing k s with
  | zero => rfl
  | succ n ih =>
    simp only [insertSlots, pickProduct_single, ih]

theorem assignLoop_single (clk : Clock) (rnd : Nat → Nat) (p0 : Product) (users : List User)
    (k total : Nat) (s : Store) :
    assignLoop clk rnd p0 [] users k total s
      = assignLoop clk (fun _ => 0) p0 [] users k total s := by
  induction users generalizing k total s with
  | nil => rfl
  | cons user users ih =>
    rw [assignLoop_cons, assignLoop_cons, insertSlots_single]
    split
    · exact ih k total s
    · split
      · rfl
      · exact ih _ _ _

/-- With a single eligible product the run does not depend on the draws. -/
theorem assignProducts_single (s : Store) (clk : Clock) (rnd : Nat → Nat)
    (productIds : List Int) (p0 : Product) (h : eligibleProducts s productIds = .ok [p0]) :
    assignProductsToAllUsers s clk rnd productIds
      = assignProductsToAllUsers s clk (fun _ => 0) productIds := by
  unfold assignProductsToAllUsers
  simp only [h, assignLoop_single clk rnd]

theorem activeUsers_nodup {s : Store} (h : (s.users.map (fun u => u.id)).Nodup) :
    ((activeUsers s).map (fun u => u.id)).Nodup :=
  List.Nodup.sublist (List.Sublist.map _ (List.filter_sublist _)) h

/-- A successful bulk run is the run of the user loop over the selected
users, or no run at all when no user is selected. -/
theorem assignProducts_ok {s : Store} {clk : Clock} {rnd : Nat → Nat} {productIds : List Int}
    {counts : AssignCounts}
    (hok : (assignProductsToAllUsers s clk rnd productIds).2 = .ok counts) :
    counts.usersAssigned = (activeUsers s).length ∧
    (((activeUsers s) = [] ∧ counts.assignments = 0 ∧
        (assignProductsToAllUsers s clk rnd productIds).1 = s) ∨
      ∃ p0 rest, (assignLoop clk rnd p0 rest (activeUsers s) 0 0 s).2 = .ok counts.assignments ∧
        (assignProductsToAllUsers s clk rnd productIds).1
          = (assignLoop clk rnd p0 rest (activeUsers s) 0 0 s).1) := by
  unfold assignProductsToAllUsers at hok ⊢
  simp only at hok ⊢
  by_cases hu : (activeUsers s).length = 0
  · rw [if_pos hu] at hok ⊢
    injection hok with hok
    rw [← hok]
    exact ⟨hu.symm, Or.inl ⟨List.length_eq_zero.mp hu, rfl, rfl⟩⟩
  · rw [if_neg hu] at hok ⊢
    cases he : eligibleProducts s productIds with
    | error e => rw [he] at hok; cases hok
    | ok ps =>
      cases ps with
      | nil => rw [he] at hok; cases hok
      | cons p0 rest =>
        rw [he] at hok
        simp only at hok ⊢
        cases hl : (assignLoop clk rnd p0 rest (activeUsers s) 0 0 s).2 with
        | error e => rw [hl] at hok; cases hok
        | ok n =>
          rw [hl] at hok
          simp only at hok
          injection hok with hok
          rw [← hok]
          exact ⟨rfl, Or.inr ⟨p0, rest, hl, rfl⟩⟩

theorem debitCount_zero_iff (s : Store) (clk : Clock) (v : Nat) :
    debitExists s clk v = false ↔ debitCount s v clk.today = 0 := by
  unfold debitExists debitCount
  rw [List.length_eq_zero, List.filter_eq_nil_iff, ← Bool.not_eq_true, List.any_eq_true]
  constructor
  · intro h e he hp
    exact h ⟨e, he, hp⟩
  · rintro h ⟨e, he, hp⟩
    exact h e he hp

/-- A bulk run leaves no user with more debit events for a day than one, if
none had more before. -/
theorem assignProducts_debitCount (s : Store) (clk : Clock) (rnd : Nat → Nat)
    (productIds : List Int) (v day : Nat) (h : debitCount s v day ≤ 1) :
    debitCount (assignProductsToAllUsers s clk rnd productIds).1 v day ≤ 1 := by
  rcases assignProducts_cases s clk rnd productIds with e | ⟨p0, rest, e⟩
  · rw [e]; exact h
  · rw [e]
    obtain ⟨l, h1, h2, h3, _, _⟩ := assignLoop_debits clk rnd p0 rest (activeUsers s) 0 0 s
    unfold debitCount at h ⊢
    rw [h1, List.filter_append, List.length_append]
    by_cases hday : day = clk.today
    · subst hday
      by_cases hd : debitExists s clk v = true
      · have : l.filter (fun e => decide (e.user_id = v ∧ e.type = .assignment_debit ∧
            e.reference_date = some clk.today)) = [] := by
          apply List.filter_eq_nil_iff.mpr
          intro e he
          simp only [decide_eq_true_eq, not_and]
          intro heq
          have := (h2 e he).2.2.2
          rw [heq, hd] at this
          cases this
        rw [this, List.length_nil, Nat.add_zero]
        exact h
      · rw [Bool.not_eq_true] at hd
        have h0 := (debitCount_zero_iff s clk v).mp hd
        unfold debitCount at h0
        rw [h0, Nat.zero_add]
        refine le_trans ?_ (h3 v)
        apply List.Sublist.length_le
        apply List.monotone_filter_right
        intro e he
        simp only [decide_eq_true_eq] at he ⊢
        exact he.1
    · have : l.filter (fun e => decide (e.user_id = v ∧ e.type = .assignment_debit ∧
          e.reference_date = some day)) = [] := by
        apply List.filter_eq_nil_iff.mpr
        intro e he
        simp only [decide_eq_true_eq, not_and]
        intro _ _ hdate
        have := (h2 e he).2.2.1
        rw [this] at hdate
        injection hdate with hdate
        exact hday hdate.symm
      rw [this, List.length_nil, Nat.add_zero]
      exact h

/-! ## C18: the daily quota of bulk assignment -/

/-- C18 fails on the code: `daily_task_limit || 1` turns a limit of 0 into 1
before the test `dailyLimit <= 0`, so no stored limit ever yields a quota of 0.
In `limitZeroStore` the level of user 1 has `daily_task_limit = 0`; whatever
the draws, the run does not skip the user: it inserts one row for product 7,
debits 10.00 and writes the `assignment_debit` event. -/
theorem zero_limit_not_skipped :
    (∀ (s : Store) (level : Option Nat), dailyLimitOf s level ≠ 0) ∧
    limitZeroStore.level_settings = [{ level := 2, daily_task_limit := some 0 }] ∧
    ∀ rnd : Nat → Nat,
      (assignProductsToAllUsers limitZeroStore sampleClock rnd []).2
        = .ok { usersAssigned := 1, assignments := 1 } ∧
      (assignProductsToAllUsers limitZeroStore sampleClock rnd []).1.user_products
        = [{ sampleAssignment with id := 1 }] ∧
      (assignProductsToAllUsers limitZeroStore sampleClock rnd []).1.balance_events
        = [debitEvent sampleClock 1 1 10] ∧
      walletOf (assignProductsToAllUsers limitZeroStore sampleClock rnd []).1 1 = some (-10) := by
  refine ⟨?_, rfl, ?_⟩
  · intro s level
    unfold dailyLimitOf
    split
    · exact one_ne_zero
    · split
      · split
        · split
          · exact one_ne_zero
          · assumption
        · exact one_ne_zero
      · exact one_ne_zero
  · intro rnd
    rw [assignProducts_single limitZeroStore sampleClock rnd [] sampleProduct rfl]
    decide!

/-! ## C19: the debit of bulk assignment -/

/-- C19, as stated, fails: in `unpricedLevelStore` user 1 is of level 3, at
which product 7 has no price, and has no debit event today; the run processes
the user and inserts a row, but the total is 0 and no `assignment_debit` event
is appended. -/
theorem unpriced_rows_write_no_debit :
    debitExists unpricedLevelStore sampleClock 1 = false ∧
    ∀ rnd : Nat → Nat,
      (assignProductsToAllUsers unpricedLevelStore sampleClock rnd []).2
        = .ok { usersAssigned := 1, assignments := 1 } ∧
      (assignProductsToAllUsers unpricedLevelStore sampleClock rnd []).1.user_products
        = [{ sampleAssignment with id := 1 }] ∧
      assignedTotal (assignProductsToAllUsers unpricedLevelStore sampleClock rnd []).1
        sampleClock 1 3 = 0 ∧
      (assignProductsToAllUsers unpricedLevelStore sampleClock rnd []).1.balance_events = [] := by
  refine ⟨by decide!, ?_⟩
  intro rnd
  rw [assignProducts_single unpricedLevelStore sampleClock rnd [] sampleProduct rfl]
  decide!

/-- C19, amended: in a successful bulk run over users with distinct ids, every
selected user with a positive daily limit has the outcome `DebitOutcome`:
with an `assignment_debit` event already dated today, no event is appended for
the user and the wallet is unchanged; without one, the user's level is a price
column 1..5 and, `T` being the sum of the product price at that level over the
user's rows of today with `is_manual = 0`, exactly one `assignment_debit`
event of amount `T` is appended and the wallet decreases by `T` when `T > 0`,
while nothing is appended and the wallet is unchanged when `T` is not
positive.  No run appends more than one event for a user, and none leaves a
user with more than one `assignment_debit` event for a day if none had more
before. -/
theorem bulk_debit (s : Store) (clk : Clock) (rnd : Nat → Nat) (productIds : List Int) :
    ((s.users.map (fun u => u.id)).Nodup →
      ∀ counts, (assignProductsToAllUsers s clk rnd productIds).2 = .ok counts →
      ∀ u ∈ activeUsers s, 0 < dailyLimitOf s u.level →
        DebitOutcome clk s (assignProductsToAllUsers s clk rnd productIds).1
          (appendedEvents s (assignProductsToAllUsers s clk rnd productIds).1) u) ∧
    (∀ v, ((appendedEvents s (assignProductsToAllUsers s clk rnd productIds).1).filter
      (fun e => e.user_id = v)).length ≤ 1) ∧
    (∀ v day, debitCount s v day ≤ 1 →
      debitCount (assignProductsToAllUsers s clk rnd productIds).1 v day ≤ 1) := by
  refine ⟨?_, ?_, fun v day h => assignProducts_debitCount s clk rnd productIds v day h⟩
  · intro hnd counts hok u hu hlim
    obtain ⟨_, h | ⟨p0, rest, hl, e⟩⟩ := assignProducts_ok hok
    · rw [h.1] at hu
      cases hu
    · rw [e]
      obtain ⟨l, h1, _, _, _, h5⟩ := assignLoop_debits clk rnd p0 rest (activeUsers s) 0 0 s
      rw [appendedEvents_of_append h1]
      exact h5 (activeUsers_nodup hnd) _ hl u hu hlim
  · intro v
    rcases assignProducts_cases s clk rnd productIds with e | ⟨p0, rest, e⟩
    · rw [e]
      simp [appendedEvents]
    · rw [e]
      obtain ⟨l, h1, _, h3, _, _⟩ := assignLoop_debits clk rnd p0 rest (activeUsers s) 0 0 s
      rw [appendedEvents_of_append h1]
      exact h3 v

/-- C19, amended, at the scenario store without assignments (level-2 price
10.00, no limit row, so a quota of 1). -/
theorem bulk_debit_witness :
    ((unassignedStore.users.map (fun u => u.id)).Nodup →
      ∀ counts, (assignProductsToAllUsers unassignedStore sampleClock (fun _ => 0) []).2
        = .ok counts →
      ∀ u ∈ activeUsers unassignedStore, 0 < dailyLimitOf unassignedStore u.level →
        DebitOutcome sampleClock unassignedStore
          (assignProductsToAllUsers unassignedStore sampleClock (fun _ => 0) []).1
          (appendedEvents unassignedStore
            (assignProductsToAllUsers unassignedStore sampleClock (fun _ => 0) []).1) u) ∧
    (∀ v, ((appendedEvents unassignedStore
        (assignProductsToAllUsers unassignedStore sampleClock (fun _ => 0) []).1).filter
      (fun e => e.user_id = v)).length ≤ 1) ∧
    (∀ v day, debitCount unassignedStore v day ≤ 1 →
      debitCount (assignProductsToAllUsers unassignedStore sampleClock (fun _ => 0) []).1
        v day ≤ 1) :=
  bulk_debit unassignedStore sampleClock (fun _ => 0) []

/-! ## C20: the counts and the rows of bulk assignment -/

/-- The counts and the rows of a bulk run.  A successful run returns the
number of selected users (the users the loop goes through) and the number of
rows it inserted; the rows it inserts are pending automatic rows of today for
selected users, appended to the table; with distinct user ids no user gets
more rows than the quota the loop uses for the user's level; and the index key
(user, product, day) stays a key, so no second automatic row is created for
one of them.  In `limitThreeStore` (one active user with limit 3, one active
product priced 10.00) the run is three insert attempts followed by the debit,
whatever the draws: it returns 1 user and 1 inserted row, ends with at most 3
rows, and its single `assignment_debit` event has amount (rows present) x
10.00. -/
theorem bulk_counts (s : Store) (clk : Clock) (rnd : Nat → Nat) (productIds : List Int) :
    (∀ counts, (assignProductsToAllUsers s clk rnd productIds).2 = .ok counts →
      counts.usersAssigned = (activeUsers s).length ∧
      counts.assignments
        = (appendedRows s (assignProductsToAllUsers s clk rnd productIds).1).length) ∧
    (assignProductsToAllUsers s clk rnd productIds).1.user_products
      = s.user_products ++ appendedRows s (assignProductsToAllUsers s clk rnd productIds).1 ∧
    (∀ r ∈ appendedRows s (assignProductsToAllUsers s clk rnd productIds).1,
      (∃ u ∈ activeUsers s, r.user_id = u.id) ∧ r.assigned_date = clk.today ∧
      r.is_manual = false ∧ r.status = .pending) ∧
    ((s.users.map (fun u => u.id)).Nodup → ∀ u ∈ activeUsers s,
      ((appendedRows s (assignProductsToAllUsers s clk rnd productIds).1).filter
        (fun r => r.user_id = u.id)).length ≤ (dailyLimitOf s u.level).toNat) ∧
    ((s.user_products.map keyOf).Nodup →
      ((assignProductsToAllUsers s clk rnd productIds).1.user_products.map keyOf).Nodup) ∧
    (∀ draws : Nat → Nat,
      debitUser (insertSlots sampleClock draws sampleProduct [] 1 3 0 limitThreeStore).1
          sampleClock sampleUser 3
        = .ok (assignProductsToAllUsers limitThreeStore sampleClock draws []).1 ∧
      (assignProductsToAllUsers limitThreeStore sampleClock draws []).2
        = .ok { usersAssigned := 1, assignments := 1 } ∧
      (assignProductsToAllUsers limitThreeStore sampleClock draws []).1.user_products.length
        ≤ 3 ∧
      (assignProductsToAllUsers limitThreeStore sampleClock draws []).1.balance_events =
        [debitEvent sampleClock 1 3
          (((assignProductsToAllUsers limitThreeStore sampleClock draws
              []).1.user_products.length : ℚ) * 10)]) := by
  have hself : appendedRows s s = [] := by simp [appendedRows]
  refine ⟨?_, ?_, ?_, ?_, ?_, ?_⟩
  · intro counts hok
    obtain ⟨hc, h | ⟨p0, rest, hl, e⟩⟩ := assignProducts_ok hok
    · rw [h.2.2, hself]
      exact ⟨hc, h.2.1⟩
    · obtain ⟨added, g1, g2, _⟩ := assignLoop_added clk rnd p0 rest (activeUsers s) 0 0 s
      rw [e, appendedRows_of_append g1, g2 _ hl, Nat.zero_add]
      exact ⟨hc, rfl⟩
  · rcases assignProducts_cases s clk rnd productIds with e | ⟨p0, rest, e⟩
    · rw [e, hself, List.append_nil]
    · obtain ⟨added, g1, _⟩ := assignLoop_added clk rnd p0 rest (activeUsers s) 0 0 s
      rw [e, appendedRows_of_append g1, g1]
  · rcases assignProducts_cases s clk rnd productIds with e | ⟨p0, rest, e⟩
    · rw [e, hself]
      intro r hr
      cases hr
    · obtain ⟨added, g1, _, g3, _⟩ := assignLoop_added clk rnd p0 rest (activeUsers s) 0 0 s
      rw [e, appendedRows_of_append g1]
      exact g3
  · intro hnd u hu
    rcases assignProducts_cases s clk rnd productIds with e | ⟨p0, rest, e⟩
    · rw [e, hself]
      exact Nat.zero_le _
    · obtain ⟨added, g1, _, _, _, _, _, g7⟩ :=
        assignLoop_added clk rnd p0 rest (activeUsers s) 0 0 s
      rw [e, appendedRows_of_append g1]
      exact g7 (activeUsers_nodup hnd) u hu
  · intro hk
    rcases assignProducts_cases s clk rnd productIds with e | ⟨p0, rest, e⟩
    · rw [e]; exact hk
    · obtain ⟨added, g1, _, _, g4, _⟩ := assignLoop_added clk rnd p0 rest (activeUsers s) 0 0 s
      rw [e, g1]
      exact g4 hk
  · intro draws
    rw [assignProducts_single limitThreeStore sampleClock draws [] sampleProduct rfl,
      insertSlots_single]
    decide!

/-- C20 fails on the code where the stored limit is 0: in `limitZeroStore` the
level of user 1 has `daily_task_limit = 0`, and whatever the draws the run
inserts one row for the user, more than that limit, and reports it in its
counts.  (The quota is `daily_task_limit || 1`, the defect of C18.) -/
theorem zero_limit_row_inserted :
    limitZeroStore.level_settings = [{ level := 2, daily_task_limit := some 0 }] ∧
    activeUsers limitZeroStore = [sampleUser] ∧
    ∀ rnd : Nat → Nat,
      (appendedRows limitZeroStore
          (assignProductsToAllUsers limitZeroStore sampleClock rnd []).1).filter
        (fun r => r.user_id = 1) = [{ sampleAssignment with id := 1 }] ∧
      (assignProductsToAllUsers limitZeroStore sampleClock rnd []).2
        = .ok { usersAssigned := 1, assignments := 1 } := by
  refine ⟨rfl, by decide, ?_⟩
  intro rnd
  rw [assignProducts_single limitZeroStore sampleClock rnd [] sampleProduct rfl]
  decide!

/-! ## Lemmas on the withdrawal handlers -/

theorem approveWithdrawal_found {s : Store} {id : Nat} {w : Withdrawal} (clk : Clock)
    (h : s.withdrawals.find? (fun x => x.id = id) = some w) :
    approveWithdrawal s clk id
      = (updateWithdrawal
          (updateUser s w.user_id (fun u =>
            { u with wallet_balance := u.wallet_balance - w.amount })) id
          (fun x => { x with status := .approved, processed_date := some clk.now }), true) := by
  unfold approveWithdrawal
  rw [h]

theorem walletOf_updateWithdrawal (s : Store) (id : Nat) (f : Withdrawal → Withdrawal)
    (v : Nat) : walletOf (updateWithdrawal s id f) v = walletOf s v := rfl

theorem approveWithdrawal_wallet {s : Store} {id : Nat} {w : Withdrawal} (clk : Clock)
    (h : s.withdrawals.find? (fun x => x.id = id) = some w) (v : Nat) :
    walletOf (approveWithdrawal s clk id).1 v
      = if v = w.user_id then (walletOf s v).map (fun b => b - w.amount) else walletOf s v := by
  rw [approveWithdrawal_found clk h]
  dsimp only
  rw [walletOf_updateWithdrawal]
  exact walletOf_updateUser s w.user_id v _ (fun b => b - w.amount) (fun _ => rfl) (fun _ => rfl)

theorem find?_updateWithdrawal (s : Store) (id k : Nat) (f : Withdrawal → Withdrawal)
    (hf : ∀ x, (f x).id = x.id) :
    (updateWithdrawal s id f).withdrawals.find? (fun x => x.id = k)
      = (s.withdrawals.find? (fun x => x.id = k)).map (fun x => if x.id = id then f x else x) := by
  unfold updateWithdrawal
  apply find?_map_of_stable
  intro a
  by_cases h : a.id = id <;> simp [h, hf]

theorem mem_updateWithdrawal {s : Store} {id : Nat} {f : Withdrawal → Withdrawal}
    {x : Withdrawal}
    (hx : x ∈ (updateWithdrawal s id f).withdrawals) (hid : x.id = id) :
    ∃ y ∈ s.withdrawals, y.id = id ∧ x = f y := by
  unfold updateWithdrawal at hx
  obtain ⟨y, hy, rfl⟩ := List.mem_map.mp hx
  by_cases h : y.id = id
  · rw [if_pos h]
    exact ⟨y, hy, h, rfl⟩
  · rw [if_neg h] at hid
    exact absurd hid h

theorem approveWithdrawal_find {s : Store} {id : Nat} {w : Withdrawal} (clk : Clock)
    (h : s.withdrawals.find? (fun x => x.id = id) = some w) :
    (approveWithdrawal s clk id).1.withdrawals.find? (fun x => x.id = id)
      = some { w with status := .approved, processed_date := some clk.now } := by
  have hid : w.id = id := by simpa using List.find?_some h
  have e := find?_updateWithdrawal
    (updateUser s w.user_id (fun u => { u with wallet_balance := u.wallet_balance - w.amount }))
    id id (fun x => { x with status := .approved, processed_date := some clk.now })
    (fun _ => rfl)
  have hw : (updateUser s w.user_id (fun u =>
      { u with wallet_balance := u.wallet_balance - w.amount })).withdrawals = s.withdrawals := rfl
  rw [hw, h] at e
  rw [approveWithdrawal_found clk h]
  dsimp only
  rw [e]
  simp [hid]

theorem rejectWithdrawal_find {s : Store} {id : Nat} {w : Withdrawal} (clk : Clock)
    (adminNotes : String) (h : s.withdrawals.find? (fun x => x.id = id) = some w) :
    (rejectWithdrawal s clk id adminNotes).withdrawals.find? (fun x => x.id = id)
      = some { w with status := .rejected, processed_date := some clk.now,
                      admin_notes := adminNotes } := by
  have hid : w.id = id := by simpa using List.find?_some h
  have e := find?_updateWithdrawal s id id
    (fun x => { x with status := .rejected, processed_date := some clk.now,
                       admin_notes := adminNotes })
    (fun _ => rfl)
  rw [h] at e
  unfold rejectWithdrawal
  rw [e]
  simp [hid]

/-! ## C21: approving and rejecting a withdrawal -/

/-- C21: for a withdrawal that exists, approval answers success, lowers the
wallet of the requesting user by the amount of the withdrawal, leaves every
other wallet as it was and leaves every withdrawal with that id approved;
rejection leaves the users table, hence every wallet, as it was and leaves
every withdrawal with that id rejected, the first of them otherwise unchanged
but for the processing date and the notes. -/
theorem withdrawal_decisions (s : Store) (clk : Clock) (id : Nat) (adminNotes : String)
    (w : Withdrawal) (h : s.withdrawals.find? (fun x => x.id = id) = some w) :
    ((approveWithdrawal s clk id).2 = true ∧
      walletOf (approveWithdrawal s clk id).1 w.user_id
        = (walletOf s w.user_id).map (fun b => b - w.amount) ∧
      (∀ v, v ≠ w.user_id → walletOf (approveWithdrawal s clk id).1 v = walletOf s v) ∧
      (∀ x ∈ (approveWithdrawal s clk id).1.withdrawals, x.id = id → x.status = .approved) ∧
      (approveWithdrawal s clk id).1.withdrawals.find? (fun x => x.id = id)
        = some { w with status := .approved, processed_date := some clk.now }) ∧
    ((rejectWithdrawal s clk id adminNotes).users = s.users ∧
      (∀ v, walletOf (rejectWithdrawal s clk id adminNotes) v = walletOf s v) ∧
      (∀ x ∈ (rejectWithdrawal s clk id adminNotes).withdrawals,
        x.id = id → x.status = .rejected) ∧
      (rejectWithdrawal s clk id adminNotes).withdrawals.find? (fun x => x.id = id)
        = some { w with status := .rejected, processed_date := some clk.now,
                        admin_notes := adminNotes }) := by
  refine ⟨⟨?_, ?_, ?_, ?_, approveWithdrawal_find clk h⟩,
    rfl, fun v => rfl, ?_, rejectWithdrawal_find clk adminNotes h⟩
  · rw [approveWithdrawal_found clk h]
  · rw [approveWithdrawal_wallet clk h, if_pos rfl]
  · intro v hv
    rw [approveWithdrawal_wallet clk h, if_neg hv]
  · intro x hx hid
    rw [approveWithdrawal_found clk h] at hx
    obtain ⟨y, _, _, rfl⟩ := mem_updateWithdrawal hx hid
    rfl
  · intro x hx hid
    obtain ⟨y, _, _, rfl⟩ := mem_updateWithdrawal hx hid
    rfl

/-- C21 at `withdrawalStore`: approving the pending withdrawal of 4.00 takes
the wallet of user 1 from 0 to -4.00; rejecting it leaves the wallet at 0. -/
theorem withdrawal_decisions_witness :
    walletOf withdrawalStore 1 = some 0 ∧
    walletOf (approveWithdrawal withdrawalStore sampleClock 1).1 1 = some (-4) ∧
    walletOf (rejectWithdrawal withdrawalStore sampleClock 1 "no") 1 = some 0 ∧
    (rejectWithdrawal withdrawalStore sampleClock 1 "no").withdrawals
      = [{ id := 1, user_id := 1, amount := 4, status := .rejected,
           processed_date := some 5000, admin_notes := "no" }] := by
  have h := withdrawal_decisions withdrawalStore sampleClock 1 "no"
    { id := 1, user_id := 1, amount := 4, status := .pending,
      processed_date := none, admin_notes := "" } (by decide)
  refine ⟨by decide!, ?_, ?_, by decide!⟩
  · rw [h.1.2.1]
    decide!
  · rw [h.2.2.1]
    decide!

/-! ## C29: approval has no guard -/

/-- C29: approval tests neither the status of the withdrawal nor the balance
of the user.  For a withdrawal that exists, whatever its status, each approval
answers success and lowers the wallet of its user by its amount: a second
approval lowers it by the amount again, and so does an approval that follows
a rejection.  In `withdrawalStore` two approvals of the withdrawal of 4.00
take the wallet of user 1 from 0 to -8.00. -/
theorem approval_unguarded (s : Store) (clk : Clock) (id : Nat) (w : Withdrawal)
    (h : s.withdrawals.find? (fun x => x.id = id) = some w) :
    ((approveWithdrawal s clk id).2 = true ∧
      walletOf (approveWithdrawal s clk id).1 w.user_id
        = (walletOf s w.user_id).map (fun b => b - w.amount)) ∧
    ((approveWithdrawal (approveWithdrawal s clk id).1 clk id).2 = true ∧
      walletOf (approveWithdrawal (approveWithdrawal s clk id).1 clk id).1 w.user_id
        = (walletOf s w.user_id).map (fun b => b - w.amount - w.amount)) ∧
    (∀ adminNotes,
      (approveWithdrawal (rejectWithdrawal s clk id adminNotes) clk id).2 = true ∧
      walletOf (approveWithdrawal (rejectWithdrawal s clk id adminNotes) clk id).1 w.user_id
        = (walletOf s w.user_id).map (fun b => b - w.amount)) ∧
    (walletOf withdrawalStore 1 = some 0 ∧
      walletOf (approveWithdrawal
        (approveWithdrawal withdrawalStore sampleClock 1).1 sampleClock 1).1 1 = some (-8)) := by
  have h1 := approveWithdrawal_find clk h
  refine ⟨⟨?_, ?_⟩, ⟨?_, ?_⟩, ?_, by decide!⟩
  · rw [approveWithdrawal_found clk h]
  · rw [approveWithdrawal_wallet clk h, if_pos rfl]
  · rw [approveWithdrawal_found clk h1]
  · rw [approveWithdrawal_wallet clk h1]
    dsimp only
    rw [if_pos rfl, approveWithdrawal_wallet clk h, if_pos rfl]
    cases walletOf s w.user_id <;> rfl
  · intro adminNotes
    have h2 := rejectWithdrawal_find clk adminNotes h
    refine ⟨?_, ?_⟩
    · rw [approveWithdrawal_found clk h2]
    · rw [approveWithdrawal_wallet clk h2]
      dsimp only
      rw [if_pos rfl]
      rfl

/-- C29 at a withdrawal that is already rejected, of a user whose wallet is
empty: approving it still answers success and takes the wallet to -4.00. -/
theorem approval_unguarded_witness :
    (approveWithdrawal (rejectWithdrawal withdrawalStore sampleClock 1 "no") sampleClock 1).2
      = true ∧
    walletOf (approveWithdrawal
        (rejectWithdrawal withdrawalStore sampleClock 1 "no") sampleClock 1).1 1
      = some (-4) := by
  have h := (approval_unguarded
    (rejectWithdrawal withdrawalStore sampleClock 1 "no") sampleClock 1
    { id := 1, user_id := 1, amount := 4, status := .rejected,
      processed_date := some 5000, admin_notes := "no" } (by decide)).1
  refine ⟨h.1, ?_⟩
  rw [h.2]
  decide!

/-! ## C26: the deadband after the rounding -/

theorem computedDifference_rounded (s : Store) (clk : Clock) (u : User) (p : Product)
    (price bonus : ℚ) : ∃ x, computedDifference s clk u p price bonus = round2 x := by
  unfold computedDifference
  cases findExisting s clk u.id p.id with
  | none => exact ⟨_, rfl⟩
  | some ex => exact ⟨_, rfl⟩

theorem abs_round2_lt_iff (x : ℚ) : |round2 x| < 5 / 1000 ↔ round2 x = 0 := by
  constructor
  · intro h
    have e := deadband_round2 x
    unfold deadband at e
    rw [if_pos h] at e
    exact e.symm
  · intro h
    rw [h]
    norm_num

/-- C26: the difference the single assignment computes is a value rounded to
2 decimals, both when it is `round2 (newBase - previousBase)` for an existing
row, the difference being taken exactly or in doubles, and when it is the
base amount of a fresh row.  For such a value the test
`|amountDifference| < 0.005` holds exactly when the value is 0, so the
deadband returns it unchanged, and the upsert applies the computed difference
itself. -/
theorem deadband_redundant :
    (∀ newBase previousBase : ℚ,
      (|round2 (newBase - previousBase)| < 5 / 1000 ↔ round2 (newBase - previousBase) = 0) ∧
      deadband (round2 (newBase - previousBase)) = round2 (newBase - previousBase)) ∧
    (∀ newBase previousBase : ℚ,
      (|round2 (jsSub newBase previousBase)| < 5 / 1000
        ↔ round2 (jsSub newBase previousBase) = 0) ∧
      deadband (round2 (jsSub newBase previousBase))
        = round2 (jsSub newBase previousBase)) ∧
    (∀ (s : Store) (clk : Clock) (u : User) (p : Product) (price bonus : ℚ),
      (|computedDifference s clk u p price bonus| < 5 / 1000
        ↔ computedDifference s clk u p price bonus = 0) ∧
      deadband (computedDifference s clk u p price bonus)
        = computedDifference s clk u p price bonus) ∧
    (∀ (s : Store) (clk : Clock) (u : User) (p : Product) (price bonus : ℚ)
        (priceToUse : Option ℚ),
      upsertAssignment s clk u p price bonus priceToUse
        = applyDifference (upsertRows s clk u.id p.id bonus (priceToUse.map decimal2)) clk
            u.id p.name (computedDifference s clk u p price bonus)) := by
  refine ⟨fun a b => ⟨abs_round2_lt_iff _, deadband_round2 _⟩,
    fun a b => ⟨abs_round2_lt_iff _, deadband_round2 _⟩, ?_, ?_⟩
  · intro s clk u p price bonus
    obtain ⟨x, hx⟩ := computedDifference_rounded s clk u p price bonus
    rw [hx]
    exact ⟨abs_round2_lt_iff _, deadband_round2 _⟩
  · intro s clk u p price bonus priceToUse
    obtain ⟨x, hx⟩ := computedDifference_rounded s clk u p price bonus
    rw [upsertAssignment_deadband, hx, deadband_round2]

/-! ## C28: a completed task assigned again -/

/-- C28: from `fundedStore` (wallet 100.00), assigning product 7 to user 1,
submitting the row, assigning again with the same arguments and submitting
again succeeds at every step.  The first assignment debits the base amount
10.00 and the first submission credits 10.50, a net gain of the commission
0.50.  The second assignment changes no user and writes no event while the
completed row becomes pending again, and the second submission credits 10.50
once more: over the four steps the wallet rises by 11.00, the base amount plus
twice the commission. -/
theorem reassignment_credits_twice :
    walletOf fundedStore 1 = some 100 ∧
    (reassignRun fundedStore sampleClock 1 7 1 none .absent).assigned.2 = .ok ∧
    walletOf (reassignRun fundedStore sampleClock 1 7 1 none .absent).assigned.1 1
      = some 90 ∧
    (reassignRun fundedStore sampleClock 1 7 1 none .absent).submitted.2
      = .ok (21 / 2) 10 (1 / 2) 0 ∧
    walletOf (reassignRun fundedStore sampleClock 1 7 1 none .absent).submitted.1 1
      = some (100 + 1 / 2) ∧
    (reassignRun fundedStore sampleClock 1 7 1 none .absent).submitted.1.user_products
      = [{ sampleAssignment with
           id := 1, is_manual := true, status := .completed, amount_earned := 10,
           commission_earned := 1 / 2, submitted_at := some 5000 }] ∧
    (reassignRun fundedStore sampleClock 1 7 1 none .absent).reassigned.2 = .ok ∧
    (reassignRun fundedStore sampleClock 1 7 1 none .absent).reassigned.1.users
      = (reassignRun fundedStore sampleClock 1 7 1 none .absent).submitted.1.users ∧
    (reassignRun fundedStore sampleClock 1 7 1 none .absent).reassigned.1.balance_events
      = (reassignRun fundedStore sampleClock 1 7 1 none .absent).submitted.1.balance_events ∧
    (reassignRun fundedStore sampleClock 1 7 1 none .absent).reassigned.1.user_products
      = [{ sampleAssignment with id := 1, is_manual := true }] ∧
    (reassignRun fundedStore sampleClock 1 7 1 none .absent).resubmitted.2
      = .ok (21 / 2) 10 (1 / 2) 0 ∧
    walletOf (reassignRun fundedStore sampleClock 1 7 1 none .absent).resubmitted.1 1
      = some (100 + 10 + 2 * (1 / 2)) := by
  decide!

/-! ## C30: a second bulk run on the same day -/

/-- C30: in `twoProductStore` (one active user with a quota of 1, two active
products priced 10.00 and 20.00) a first run whose draw picks product 7
inserts one row and writes the debit of 10.00.  A second run on the same day
whose draw picks product 8 inserts a new automatic row for the user and leaves
the users table and the balance events as they were: the day's only debit is
10.00 while the level-priced cost of the user's automatic rows of the day is
30.00. -/
theorem second_run_undebited :
    twoProductStore.products.length = 2 ∧
    (assignProductsToAllUsers twoProductStore sampleClock (fun _ => 0) []).2
      = .ok { usersAssigned := 1, assignments := 1 } ∧
    afterFirstRun.user_products = [{ sampleAssignment with id := 1 }] ∧
    afterFirstRun.balance_events = [debitEvent sampleClock 1 1 10] ∧
    walletOf afterFirstRun 1 = some (-10) ∧
    (assignProductsToAllUsers afterFirstRun sampleClock (fun _ => 1) []).2
      = .ok { usersAssigned := 1, assignments := 1 } ∧
    (assignProductsToAllUsers afterFirstRun sampleClock (fun _ => 1) []).1.user_products
      = afterFirstRun.user_products ++ [{ sampleAssignment with id := 2, product_id := 8 }] ∧
    (assignProductsToAllUsers afterFirstRun sampleClock (fun _ => 1) []).1.users
      = afterFirstRun.users ∧
    (assignProductsToAllUsers afterFirstRun sampleClock (fun _ => 1) []).1.balance_events
      = afterFirstRun.balance_events ∧
    assignedTotal (assignProductsToAllUsers afterFirstRun sampleClock (fun _ => 1) []).1
      sampleClock 1 2 = 30 ∧
    (10 : ℚ) < assignedTotal
      (assignProductsToAllUsers afterFirstRun sampleClock (fun _ => 1) []).1 sampleClock 1 2 := by
  decide!

/-! ## Lemmas on a fresh row and its submission -/

theorem lt_freshId (rows : List UserProduct) : ∀ r ∈ rows, r.id < freshId rows := by
  unfold freshId
  induction rows with
  | nil => intro r hr; cases hr
  | cons a t ih =>
    intro r hr
    simp only [List.map_cons, List.foldr_cons]
    rcases List.mem_cons.mp hr with rfl | h
    · exact Nat.lt_succ_of_le (le_max_left _ _)
    · exact lt_of_lt_of_le (ih r h) (Nat.succ_le_succ (le_max_right _ _))

theorem head?_filter_eq_find? {α : Type} (q : α → Bool) (l : List α) :
    (l.filter q).head? = l.find? q := by
  induction l with
  | nil => rfl
  | cons a t ih =>
    rw [List.filter_cons, List.find?_cons]
    cases q a <;> simp [ih]

/-- The lookup of the single submission for a row appended with a fresh id:
it finds that row, joined with the first product of its product id. -/
theorem submitOneLookup_fresh {s s1 : Store} {r : UserProduct} {p : Product}
    (hrows : s1.user_products = s.user_products ++ [r]) (hprod : s1.products = s.products)
    (hid : r.id = freshId s.user_products)
    (hp : findProduct s r.product_id = some p) :
    submitOneLookup s1 r.user_id (freshId s.user_products) = some (r, p) := by
  unfold submitOneLookup joinProducts
  rw [hrows, hprod, List.filter_append]
  have h1 : s.user_products.filter
      (fun up => decide (up.id = freshId s.user_products ∧ up.user_id = r.user_id)) = [] := by
    rw [List.filter_eq_nil_iff]
    intro a ha hc
    have := lt_freshId s.user_products a ha
    simp only [decide_eq_true_eq] at hc
    omega
  have h2 : [r].filter
      (fun up => decide (up.id = freshId s.user_products ∧ up.user_id = r.user_id)) = [r] := by
    simp [hid]
  rw [h1, h2, List.nil_append, List.flatMap_singleton, List.head?_map, head?_filter_eq_find?]
  unfold findProduct at hp
  rw [hp]
  rfl

theorem resolvedPrice_stored (p : Product) (userLevel : Nat) (customPrice : PriceArg)
    (hacc : priceAccepted p userLevel customPrice = true)
    (hcp : ∀ q, customPrice = .num q → twoDecimals q = true) :
    resolvedPrice (storedCustomPrice customPrice) p userLevel
      = requestedPrice p userLevel customPrice := by
  cases customPrice with
  | notANumber => simp [priceAccepted] at hacc
  | num q => exact decimal2_of_cents (hundredths_of_twoDecimals (hcp q rfl))
  | absent => exact (levelPrice_eq_resolved p userLevel).symm

/-- A first single assignment of the day for a found user and an active
product with an accepted price: the fresh row is appended and the base amount
is applied as the difference. -/
theorem assignSingleTask_fresh (s : Store) (clk : Clock) (userId productId : Nat)
    (manualBonus : Option ℚ) (customPrice : PriceArg) (u : User) (p : Product)
    (hu : findUser s userId = some u) (hp : findProduct s productId = some p)
    (hact : p.status = .active) (hu0 : userId ≠ 0) (hp0 : productId ≠ 0)
    (hacc : priceAccepted p (levelOr1 u.level) customPrice = true)
    (hfresh : findExisting s clk userId productId = none) :
    assignSingleTask s clk userId productId manualBonus customPrice =
      (applyDifference
        { s with user_products := s.user_products ++
            [freshRow s clk userId productId (cleanBonus manualBonus)
              (storedCustomPrice customPrice)] }
        clk userId p.name (requestedBase p (levelOr1 u.level) manualBonus customPrice), .ok) := by
  rw [(assignSingleTask_accepted s clk userId productId manualBonus customPrice u p hu hp hact
    hu0 hp0).1 hacc, upsertAssignment_eq, computedDifference_eq, storedCustomPrice_eq,
    findUser_id hu, findProduct_id hp, hfresh]
  unfold upsertRows
  rw [hfresh]
  rfl

theorem rateOf_congr {s s1 : Store} (h : s1.commission_rates = s.commission_rates) (l : Nat) :
    rateOf s1 l = rateOf s l := by
  unfold rateOf findRate
  rw [h]

theorem applyDifference_rates (s : Store) (clk : Clock) (userId : Nat)
    (productName : String) (d : ℚ) :
    (applyDifference s clk userId productName d).commission_rates = s.commission_rates := by
  unfold applyDifference
  split <;> rfl

/-! ## C25: a fresh assignment and its submission -/

/-- C25, as stated, fails: user 1 of `fundedStore` holds 100.00 and is
assigned product 7 at the custom price 1.005 without bonus.  The assignment
debits 1.00 and stores the custom price 1.01; the submission of the row
credits the base amount 1.01 and the commission 0.05, so the wallet ends at
100.06, which is 0.01 above the initial value plus the commission.  And at the
custom price 4.10 the wallet ends at 100.20, the commission being 0.20 and not
`round2 (4.10 * 0.05) = 0.21`. -/
theorem refund_exceeds_debit :
    walletOf fundedStore 1 = some 100 ∧
    findExisting fundedStore sampleClock 1 7 = none ∧
    (assignSingleTask fundedStore sampleClock 1 7 none (.num (201 / 200))).2 = .ok ∧
    walletOf (assignSingleTask fundedStore sampleClock 1 7 none (.num (201 / 200))).1 1
      = some 99 ∧
    (submitOne (assignSingleTask fundedStore sampleClock 1 7 none (.num (201 / 200))).1
        sampleClock 1 (freshId fundedStore.user_products)).2
      = .ok (53 / 50) (101 / 100) (1 / 20) 0 ∧
    walletOf (submitOne (assignSingleTask fundedStore sampleClock 1 7 none
        (.num (201 / 200))).1 sampleClock 1 (freshId fundedStore.user_products)).1 1
      = some (5003 / 50) ∧
    round2 ((201 / 200 : ℚ) * rateOf fundedStore 2) = 1 / 20 ∧
    walletOf (submitOne (assignSingleTask fundedStore sampleClock 1 7 none
        (.num (41 / 10))).1 sampleClock 1 (freshId fundedStore.user_products)).1 1
      = some (501 / 5) ∧
    round2 ((41 / 10 : ℚ) * rateOf fundedStore 2) = 21 / 100 := by
  decide!

/-- C25, amended: let a user be found whose wallet is at least the base
amount of a single assignment, for an active product at an accepted price,
with no row of the user for that product today, the custom price, if one is
given, having at most 2 decimals, and the base amount and the commission
adding up to at most 10^13 in absolute value.  The assignment succeeds,
appends the fresh row and lowers the wallet by the base amount; the single
submission of that row then succeeds with the same base amount and the
commission, the product in doubles of the price and the rate rounded to 2
decimals, and credits their sum, which leaves the wallet at its initial value
plus exactly that commission. -/
theorem assign_then_submit_refunds (s : Store) (clk : Clock) (userId productId : Nat)
    (manualBonus : Option ℚ) (customPrice : PriceArg) (u : User) (p : Product)
    (hu : findUser s userId = some u) (hp : findProduct s productId = some p)
    (hact : p.status = .active) (hu0 : userId ≠ 0) (hp0 : productId ≠ 0)
    (hacc : priceAccepted p (levelOr1 u.level) customPrice = true)
    (hfresh : findExisting s clk userId productId = none)
    (hw : requestedBase p (levelOr1 u.level) manualBonus customPrice ≤ u.wallet_balance)
    (hcp : ∀ q, customPrice = .num q → twoDecimals q = true)
    (hbd : |requestedBase p (levelOr1 u.level) manualBonus customPrice|
      + |round2 (jsMul (requestedPrice p (levelOr1 u.level) customPrice)
          (rateOf s (levelOr1 u.level)))| ≤ 10 ^ 13) :
    (assignSingleTask s clk userId productId manualBonus customPrice).2 = .ok ∧
    (assignSingleTask s clk userId productId manualBonus customPrice).1.user_products
      = s.user_products ++ [freshRow s clk userId productId (cleanBonus manualBonus)
          (storedCustomPrice customPrice)] ∧
    walletOf (assignSingleTask s clk userId productId manualBonus customPrice).1 userId
      = some (u.wallet_balance - requestedBase p (levelOr1 u.level) manualBonus customPrice) ∧
    (submitOne (assignSingleTask s clk userId productId manualBonus customPrice).1 clk userId
        (freshId s.user_products)).2
      = .ok (requestedBase p (levelOr1 u.level) manualBonus customPrice
              + round2 (jsMul (requestedPrice p (levelOr1 u.level) customPrice)
                  (rateOf s (levelOr1 u.level))))
            (requestedBase p (levelOr1 u.level) manualBonus customPrice)
            (round2 (jsMul (requestedPrice p (levelOr1 u.level) customPrice)
              (rateOf s (levelOr1 u.level))))
            (cleanBonus manualBonus) ∧
    walletOf (submitOne (assignSingleTask s clk userId productId manualBonus customPrice).1
        clk userId (freshId s.user_products)).1 userId
      = some (u.wallet_balance
          + round2 (jsMul (requestedPrice p (levelOr1 u.level) customPrice)
              (rateOf s (levelOr1 u.level)))) := by
  have eA := assignSingleTask_fresh s clk userId productId manualBonus customPrice u p hu hp
    hact hu0 hp0 hacc hfresh
  have hrows : (assignSingleTask s clk userId productId manualBonus customPrice).1.user_products
      = s.user_products ++ [freshRow s clk userId productId (cleanBonus manualBonus)
          (storedCustomPrice customPrice)] := by
    rw [eA]
    exact applyDifference_user_products _ _ _ _ _
  have hprod : (assignSingleTask s clk userId productId manualBonus customPrice).1.products
      = s.products := by
    rw [eA]
    exact applyDifference_products _ _ _ _ _
  have hrate : (assignSingleTask s clk userId productId manualBonus customPrice).1.commission_rates
      = s.commission_rates := by
    rw [eA]
    exact applyDifference_rates _ _ _ _ _
  have hfu : findUser (assignSingleTask s clk userId productId manualBonus customPrice).1 userId
      = some { u with wallet_balance := u.wallet_balance
          - requestedBase p (levelOr1 u.level) manualBonus customPrice } := by
    rw [eA]
    exact findUser_applyDifference _ _ _ _ _ u hu
  have hl := submitOneLookup_fresh (s := s)
    (r := freshRow s clk userId productId (cleanBonus manualBonus)
      (storedCustomPrice customPrice)) hrows hprod rfl hp
  have hS := submitOne_of_lookup _ clk userId (freshId s.user_products) _ p hl
  have hnot : ¬ (u.wallet_balance
      - requestedBase p (levelOr1 u.level) manualBonus customPrice < 0) := by
    linarith
  have hprice : submitOnePrice (joinStar (freshRow s clk userId productId
      (cleanBonus manualBonus) (storedCustomPrice customPrice)) p) (levelOr1 u.level)
      = requestedPrice p (levelOr1 u.level) customPrice := by
    rw [submitOnePrice_eq_resolved]
    exact resolvedPrice_stored p _ customPrice hacc hcp
  simp only [hfu, hprice, if_neg hnot, rateOf_congr hrate] at hS
  have hbase : round2 (jsAdd (requestedPrice p (levelOr1 u.level) customPrice)
      (freshRow s clk userId productId (cleanBonus manualBonus)
          (storedCustomPrice customPrice)).manual_bonus)
      = requestedBase p (levelOr1 u.level) manualBonus customPrice := rfl
  rw [hbase] at hS
  have hearn : round2 (jsAdd (requestedBase p (levelOr1 u.level) manualBonus customPrice)
      (round2 (jsMul (requestedPrice p (levelOr1 u.level) customPrice)
        (rateOf s (levelOr1 u.level)))))
      = requestedBase p (levelOr1 u.level) manualBonus customPrice
        + round2 (jsMul (requestedPrice p (levelOr1 u.level) customPrice)
            (rateOf s (levelOr1 u.level))) :=
    @round2_jsAdd_cents (requestedBase p (levelOr1 u.level) manualBonus customPrice) _
      (round2_hundredths _) (round2_hundredths _) hbd
  rw [hearn] at hS
  refine ⟨by rw [eA], hrows, ?_, ?_, ?_⟩
  · unfold walletOf
    rw [hfu]
    rfl
  · rw [hS]
    rfl
  · rw [hS]
    dsimp only
    rw [walletOf_updateUser _ userId userId _
      (fun b => b + (requestedBase p (levelOr1 u.level) manualBonus customPrice
        + round2 (jsMul (requestedPrice p (levelOr1 u.level) customPrice)
            (rateOf s (levelOr1 u.level)))))]
    · rw [if_pos rfl]
      unfold walletOf
      rw [findUser_updateUserProduct, hfu]
      simp only [Option.map_some']
      congr 1
      ring
    · intro _; rfl
    · intro _; rfl

/-- C25, amended, at `fundedStore`: user 1 holds 100.00, is assigned product
7 at the custom price 4.10 with the bonus 1.50 and submits the row; the
assignment debits 5.60, the submission credits 5.80 and the wallet ends at
100.20, the commission being 0.20. -/
theorem assign_then_submit_refunds_witness :
    walletOf fundedStore 1 = some 100 ∧
    requestedBase sampleProduct 2 (some (3 / 2)) (.num (41 / 10)) = 28 / 5 ∧
    round2 (jsMul (requestedPrice sampleProduct 2 (.num (41 / 10))) (rateOf fundedStore 2))
      = 1 / 5 ∧
    walletOf (submitOne (assignSingleTask fundedStore sampleClock 1 7 (some (3 / 2))
        (.num (41 / 10))).1 sampleClock 1 (freshId fundedStore.user_products)).1 1
      = some (100 + round2 (jsMul (requestedPrice sampleProduct 2 (.num (41 / 10)))
          (rateOf fundedStore 2))) :=
  ⟨by decide!, by decide!, by decide!,
   (assign_then_submit_refunds fundedStore sampleClock 1 7 (some (3 / 2)) (.num (41 / 10))
      { sampleUser with wallet_balance := 100 } sampleProduct (by decide!) (by decide!) rfl
      (by decide) (by decide) (by decide!) (by decide!) (by decide!)
      (fun q h => by injection h with h; subst h; decide!) (by decide!)).2.2.2.2⟩

/-! ## Lemmas on amounts of 2 decimals -/

theorem find?_id_of_nodup {l : List UserProduct} (hnd : (l.map (fun r => r.id)).Nodup)
    {up : UserProduct} (hup : up ∈ l) : l.find? (fun r => r.id = up.id) = some up := by
  induction l with
  | nil => cases hup
  | cons a t ih =>
    rw [List.map_cons, List.nodup_cons] at hnd
    rw [List.find?_cons]
    rcases List.mem_cons.mp hup with rfl | h
    · simp
    · have hne : a.id ≠ up.id := by
        intro e
        exact hnd.1 (e ▸ List.mem_map_of_mem (fun r => r.id) h)
      simp only [hne, decide_False]
      exact ih hnd.2 h

/-- With two decimals in every price and bonus and a magnitude of at most
10^13, the credit of the batch is the plain sum over the rows of the base
amount and the commission written to each. -/
theorem batch_credit_exact (rows : List (UserProduct × Product)) (userLevel : Nat) (rate : ℚ)
    (hdec : ∀ row ∈ rows, twoDecimals (batchRowPrice row.1 row.2 userLevel) = true ∧
      twoDecimals row.1.manual_bonus = true)
    (hb : batchMagnitude rows userLevel rate ≤ 10 ^ 13) :
    round2 (fl (jsAdd
        (round2 (jsSumFrom 0 (rows.map (fun row => batchRowPrice row.1 row.2 userLevel))))
        (round2 (jsSumFrom 0 (rows.map (fun row => row.1.manual_bonus))))
        + fl (round2 (jsSumFrom 0 (rows.map (batchRowCommission userLevel rate))))))
      = (rows.map (fun row => batchRowBase userLevel row
          + batchRowCommission userLevel rate row)).sum ∧
    ∀ row ∈ rows,
      batchRowBase userLevel row = batchRowPrice row.1 row.2 userLevel + row.1.manual_bonus ∧
      |batchRowBase userLevel row| + |batchRowCommission userLevel rate row| ≤ 10 ^ 13 := by
  obtain ⟨e1, e2, e3, e4⟩ := batch_totals_exact rows userLevel rate hdec hb
  obtain ⟨hT, _⟩ := batch_total_le rows userLevel rate hb
  rw [← sum_map_add3] at hT
  have hrow : ∀ row ∈ rows,
      batchRowBase userLevel row = batchRowPrice row.1 row.2 userLevel + row.1.manual_bonus ∧
      |batchRowBase userLevel row| + |batchRowCommission userLevel rate row| ≤ 10 ^ 13 := by
    intro row hr
    have hg := le_sum_map_of_mem rows (fun row =>
      |batchRowPrice row.1 row.2 userLevel| + |row.1.manual_bonus|
        + |batchRowCommission userLevel rate row|)
      (fun a _ => by positivity) hr
    dsimp only at hg
    have hc := abs_nonneg (batchRowCommission userLevel rate row)
    have hbase : batchRowBase userLevel row
        = batchRowPrice row.1 row.2 userLevel + row.1.manual_bonus := by
      unfold batchRowBase
      exact round2_jsAdd_cents (hundredths_of_twoDecimals (hdec row hr).1)
        (hundredths_of_twoDecimals (hdec row hr).2) (by linarith)
    refine ⟨hbase, ?_⟩
    rw [hbase]
    have := abs_add (batchRowPrice row.1 row.2 userLevel) row.1.manual_bonus
    linarith
  refine ⟨?_, hrow⟩
  rw [e1, e2, e3, e4, ← sum_map_add3]
  apply sum_map_congr
  intro row hr
  rw [(hrow row hr).1]

/-- The credit recorded in a selected row after the batch, when assignment
ids and product ids are unique. -/
theorem writtenCredit_after_batch (s : Store) (clk : Clock) (userId : Nat) (u : User)
    (hu : findUser s userId = some u) (hrows : submitTodayRows s clk userId ≠ [])
    (hup : (s.user_products.map (fun r => r.id)).Nodup)
    (hpr : (s.products.map (fun p => p.id)).Nodup)
    (row : UserProduct × Product) (hrow : row ∈ submitTodayRows s clk userId) :
    writtenCredit (submitAllToday s clk userId).1 row.1.id
      = batchRowBase (levelOr1 u.level) row
        + batchRowCommission (levelOr1 u.level) (rateOf s (levelOr1 u.level)) row := by
  have hmem : row.1 ∈ s.user_products := (mem_joinProducts.mp hrow).1
  have hrowsT : (submitAllToday s clk userId).1.user_products
      = s.user_products.map (batchRowAfter clk (levelOr1 u.level) (rateOf s (levelOr1 u.level))
          (submitTodayRows s clk userId)) := by
    rw [submitAllToday_of_rows s clk userId u hu hrows]
    rfl
  have hfind := find?_map_of_stable s.user_products (fun r => decide (r.id = row.1.id))
    (batchRowAfter clk (levelOr1 u.level) (rateOf s (levelOr1 u.level))
      (submitTodayRows s clk userId))
    (fun a => by simp only [batchRowAfter_id])
  rw [find?_id_of_nodup hup hmem] at hfind
  unfold writtenCredit
  rw [hrowsT, hfind]
  have hsel := batchRowAfter_selected clk (levelOr1 u.level) (rateOf s (levelOr1 u.level))
    (submitTodayRows s clk userId) row hrow (joinProducts_unique hup hpr row hrow)
  simp only [Option.map_some', hsel]
  rfl

/-! ## C27: the batch credit against the rows -/

/-- C27: let a batch submission select at least one row for a found user, the
price and the manual bonus of every selected row having at most 2 decimals
and the magnitude of the batch (the number of rows times the total of the
absolute prices, bonuses and commissions) being at most 10^13.  Then the
`totalCredit` it answers, adds to the wallet and records in its event is the
sum over the selected rows of the `amount_earned` and `commission_earned`
computed for them; with unique assignment and product ids these are the
values stored in those rows afterwards; and where the single submission
resolves the same price for every selected row, it is the sum of what the
single submission would credit for each. -/
theorem batch_total_is_row_sum (s : Store) (clk : Clock) (userId : Nat) (u : User)
    (hu : findUser s userId = some u) (hrows : submitTodayRows s clk userId ≠ [])
    (hdec : ∀ row ∈ submitTodayRows s clk userId,
      twoDecimals (batchRowPrice row.1 row.2 (levelOr1 u.level)) = true ∧
      twoDecimals row.1.manual_bonus = true)
    (hb : batchMagnitude (submitTodayRows s clk userId) (levelOr1 u.level)
      (rateOf s (levelOr1 u.level)) ≤ 10 ^ 13) :
    ∃ totalPrice totalManualBonus totalCommission totalCredit : ℚ,
      (submitAllToday s clk userId).2
        = .ok (submitTodayRows s clk userId).length totalPrice totalManualBonus
            totalCommission totalCredit ∧
      walletOf (submitAllToday s clk userId).1 userId
        = some (u.wallet_balance + totalCredit) ∧
      totalCredit = ((submitTodayRows s clk userId).map (fun row =>
        batchRowBase (levelOr1 u.level) row
          + batchRowCommission (levelOr1 u.level) (rateOf s (levelOr1 u.level)) row)).sum ∧
      ((s.user_products.map (fun r => r.id)).Nodup → (s.products.map (fun p => p.id)).Nodup →
        totalCredit = ((submitTodayRows s clk userId).map (fun row =>
          writtenCredit (submitAllToday s clk userId).1 row.1.id)).sum) ∧
      ((∀ row ∈ submitTodayRows s clk userId,
          submitOnePrice (joinStar row.1 row.2) (levelOr1 u.level)
            = batchRowPrice row.1 row.2 (levelOr1 u.level)) →
        totalCredit = ((submitTodayRows s clk userId).map (fun row =>
          submitOneEarned row (levelOr1 u.level) (rateOf s (levelOr1 u.level)))).sum) := by
  obtain ⟨hex, hrow⟩ := batch_credit_exact (submitTodayRows s clk userId) (levelOr1 u.level)
    (rateOf s (levelOr1 u.level)) hdec hb
  refine ⟨round2 (jsSumFrom 0 ((submitTodayRows s clk userId).map
      (fun row => batchRowPrice row.1 row.2 (levelOr1 u.level)))),
    round2 (jsSumFrom 0 ((submitTodayRows s clk userId).map (fun row => row.1.manual_bonus))),
    round2 (jsSumFrom 0 ((submitTodayRows s clk userId).map
      (batchRowCommission (levelOr1 u.level) (rateOf s (levelOr1 u.level))))),
    _, ?_, ?_, hex, ?_, ?_⟩
  · rw [submitAllToday_of_rows s clk userId u hu hrows]
  · rw [submitAllToday_of_rows s clk userId u hu hrows]
    dsimp only
    unfold walletOf
    rw [findUser_insertEvent, findUser_updateUser]
    · change Option.map _ (Option.map _ (findUser s userId)) = _
      rw [hu]
      simp only [Option.map_some', if_pos (findUser_id hu)]
    · intro _; rfl
  · intro hup hpr
    rw [hex]
    apply sum_map_congr
    intro row hrow1
    exact (writtenCredit_after_batch s clk userId u hu hrows hup hpr row hrow1).symm
  · intro hagree
    rw [hex]
    apply sum_map_congr
    intro row hrow1
    have h := @round2_jsAdd_cents (batchRowBase (levelOr1 u.level) row)
      (batchRowCommission (levelOr1 u.level) (rateOf s (levelOr1 u.level)) row)
      (round2_hundredths _) (round2_hundredths _) (hrow row hrow1).2
    unfold submitOneEarned
    rw [hagree row hrow1]
    exact h.symm

/-- C27 at a batch of two rows priced 10.00 and 2.90 without bonus at the
rate 0.05: the batch credits 13.54, which is the sum of what the two rows
store (10.00 and 0.50, 2.90 and 0.14) and of what the single submission would
credit for each (10.50 and 3.04). -/
theorem batch_total_is_row_sum_witness :
    findUser twoRowStore 1 = some sampleUser ∧
    (submitTodayRows twoRowStore sampleClock 1).length = 2 ∧
    batchMagnitude (submitTodayRows twoRowStore sampleClock 1) (levelOr1 sampleUser.level)
      (rateOf twoRowStore (levelOr1 sampleUser.level)) ≤ 10 ^ 13 ∧
    writtenCredit (submitAllToday twoRowStore sampleClock 1).1 3 = 21 / 2 ∧
    writtenCredit (submitAllToday twoRowStore sampleClock 1).1 4 = 76 / 25 ∧
    ∃ totalPrice totalManualBonus totalCommission totalCredit : ℚ,
      (submitAllToday twoRowStore sampleClock 1).2
        = .ok 2 totalPrice totalManualBonus totalCommission totalCredit ∧
      walletOf (submitAllToday twoRowStore sampleClock 1).1 1 = some (0 + totalCredit) ∧
      totalCredit = ((submitTodayRows twoRowStore sampleClock 1).map (fun row =>
        writtenCredit (submitAllToday twoRowStore sampleClock 1).1 row.1.id)).sum ∧
      totalCredit = ((submitTodayRows twoRowStore sampleClock 1).map (fun row =>
        submitOneEarned row 2 (5 / 100))).sum ∧
      totalCredit = 677 / 50 := by
  obtain ⟨tp, tb, tc, t, h1, h2, _, h4, h5⟩ :=
    batch_total_is_row_sum twoRowStore sampleClock 1 sampleUser rfl (by decide) (by decide!)
      (by decide!)
  refine ⟨rfl, by decide, by decide!, by decide!, by decide!, tp, tb, tc, t, h1, h2,
    h4 (by decide) (by decide), h5 (by decide!), ?_⟩
  rw [h5 (by decide!)]
  decide!

/-! ## Lemmas on the product edit -/

theorem editedProduct_id (productId : Nat) (e : ProductEdit) (p : Product) :
    (editedProduct productId e p).id = p.id := by
  unfold editedProduct
  split <;> rfl

theorem editedProduct_status (productId : Nat) (e : ProductEdit) (p : Product) :
    (editedProduct productId e p).status = p.status := by
  unfold editedProduct
  split <;> rfl

theorem applyEdit_of_no_field {e : ProductEdit}
    (h : e.name = none ∧ e.hasImage = false ∧ e.level1Price = none ∧ e.level2Price = none ∧
      e.level3Price = none ∧ e.level4Price = none ∧ e.level5Price = none) (p : Product) :
    applyEdit e p = p := by
  obtain ⟨h0, _, h1, h2, h3, h4, h5⟩ := h
  unfold applyEdit
  rw [h0, h1, h2, h3, h4, h5]
  rfl

/-- The edit rewrites the products table and nothing else. -/
theorem editProduct_tables (s : Store) (productId : Nat) (e : ProductEdit) :
    (editProduct s productId e).1 =
      { s with products := s.products.map (editedProduct productId e) } := by
  unfold editProduct
  split
  · rename_i h
    have hid : s.products.map (editedProduct productId e) = s.products := by
      conv_rhs => rw [← List.map_id s.products]
      apply List.map_congr_left
      intro p _
      unfold editedProduct
      rw [applyEdit_of_no_field h]
      simp
    rw [hid]
  · rfl

theorem filter_map_edited (productId : Nat) (e : ProductEdit) (l : List Product) (k : Nat) :
    (l.map (editedProduct productId e)).filter (fun p => decide (p.id = k))
      = (l.filter (fun p => decide (p.id = k))).map (editedProduct productId e) := by
  induction l with
  | nil => rfl
  | cons a t ih =>
    rw [List.map_cons, List.filter_cons, List.filter_cons, editedProduct_id]
    by_cases h : a.id = k
    · simp only [h, decide_True, if_true, List.map_cons, ih]
    · simp only [h, decide_False, Bool.false_eq_true, if_false, ih]

/-- The join after an edit: the same assignments, each with its product as
the edit leaves it. -/
theorem joinProducts_edit (s : Store) (productId : Nat) (e : ProductEdit)
    (cond : UserProduct → Bool) :
    joinProducts (editProduct s productId e).1 cond
      = (joinProducts s cond).map (fun r => (r.1, editedProduct productId e r.2)) := by
  rw [editProduct_tables]
  unfold joinProducts
  dsimp only
  generalize s.user_products.filter cond = rows
  induction rows with
  | nil => rfl
  | cons a t ih =>
    rw [List.flatMap_cons, List.flatMap_cons, List.map_append, ih, filter_map_edited,
      List.map_map, List.map_map]
    rfl

theorem submitOneLookup_edit (s : Store) (productId : Nat) (e : ProductEdit)
    (userId assignmentId : Nat) :
    submitOneLookup (editProduct s productId e).1 userId assignmentId
      = (submitOneLookup s userId assignmentId).map
          (fun r => (r.1, editedProduct productId e r.2)) := by
  unfold submitOneLookup
  rw [joinProducts_edit, List.head?_map]

theorem submitTodayRows_edit (s : Store) (clk : Clock) (productId : Nat) (e : ProductEdit)
    (userId : Nat) :
    submitTodayRows (editProduct s productId e).1 clk userId
      = (submitTodayRows s clk userId).map (fun r => (r.1, editedProduct productId e r.2)) := by
  unfold submitTodayRows
  rw [joinProducts_edit]

theorem findUser_edit (s : Store) (productId : Nat) (e : ProductEdit) (userId : Nat) :
    findUser (editProduct s productId e).1 userId = findUser s userId := by
  rw [editProduct_tables]
  rfl

theorem rateOf_edit (s : Store) (productId : Nat) (e : ProductEdit) (l : Nat) :
    rateOf (editProduct s productId e).1 l = rateOf s l := by
  rw [editProduct_tables]
  rfl

/-- The answer of the single submission once its row and its user are
found. -/
theorem submitOne_answer {s : Store} {userId assignmentId : Nat} {up : UserProduct}
    {p : Product} {u : User} (clk : Clock)
    (hl : submitOneLookup s userId assignmentId = some (up, p))
    (hu : findUser s userId = some u) :
    (submitOne s clk userId assignmentId).2
      = submitOneAnswer (resolvedPrice up.custom_price p (levelOr1 u.level)) up.manual_bonus
          u.wallet_balance (rateOf s (levelOr1 u.level)) := by
  rw [submitOne_of_lookup s clk userId assignmentId up p hl]
  simp only [hu, submitOnePrice_eq_resolved]
  unfold submitOneAnswer
  split <;> rfl

/-- The answer of the batch submission once the user is found and rows are
selected. -/
theorem submitAllToday_answer {s : Store} {userId : Nat} {u : User} (clk : Clock)
    (hu : findUser s userId = some u) (hrows : submitTodayRows s clk userId ≠ []) :
    (submitAllToday s clk userId).2
      = .ok (submitTodayRows s clk userId).length
          (round2 (jsSumFrom 0 ((submitTodayRows s clk userId).map
            (fun row => batchRowPrice row.1 row.2 (levelOr1 u.level)))))
          (round2 (jsSumFrom 0
            ((submitTodayRows s clk userId).map (fun row => row.1.manual_bonus))))
          (round2 (jsSumFrom 0 ((submitTodayRows s clk userId).map
            (batchRowCommission (levelOr1 u.level) (rateOf s (levelOr1 u.level))))))
          (batchCredit (submitTodayRows s clk userId) (levelOr1 u.level)
            (rateOf s (levelOr1 u.level))) := by
  rw [submitAllToday_of_rows s clk userId u hu hrows]
  rfl

theorem resolvedPrice_custom {up : UserProduct} (h : up.custom_price ≠ none) (p q : Product)
    (userLevel : Nat) :
    resolvedPrice up.custom_price p userLevel = resolvedPrice up.custom_price q userLevel := by
  unfold resolvedPrice
  cases hc : up.custom_price with
  | none => exact absurd hc h
  | some c => rfl

theorem batchRowPrice_custom {up : UserProduct} (h : up.custom_price ≠ none) (p q : Product)
    (userLevel : Nat) : batchRowPrice up p userLevel = batchRowPrice up q userLevel := by
  unfold batchRowPrice
  cases hc : up.custom_price with
  | none => exact absurd hc h
  | some c => rfl

/-! ## C24: a price edit between assignment and submission -/

/-- C24, as stated, fails: in the scenario store the pending assignment 3 has
no custom price; submitted as it is, it credits 10.50 by either path, and
submitted after the level-2 price of its product is edited from 10.00 to
20.00 it credits 21.00. -/
theorem price_edit_changes_credit :
    scenarioStore.user_products = [sampleAssignment] ∧
    sampleAssignment.custom_price = none ∧ sampleAssignment.status = .pending ∧
    (editProduct scenarioStore 7 sampleEdit).2 = true ∧
    (editProduct scenarioStore 7 sampleEdit).1.user_products = scenarioStore.user_products ∧
    (submitOne scenarioStore sampleClock 1 3).2 = .ok (21 / 2) 10 (1 / 2) 0 ∧
    (submitOne (editProduct scenarioStore 7 sampleEdit).1 sampleClock 1 3).2
      = .ok 21 20 1 0 ∧
    (submitAllToday scenarioStore sampleClock 1).2 = .ok 1 10 0 (1 / 2) (21 / 2) ∧
    (submitAllToday (editProduct scenarioStore 7 sampleEdit).1 sampleClock 1).2
      = .ok 1 20 0 1 21 := by
  decide!

/-- C24, amended: a product edit rewrites the products table only, so no
stored row, wallet or event changes.  A submission after the edit joins each
assignment with its product as the edit left it: the single submission
answers with the amounts computed from the custom price if the row has one
and else from the edited prices, and the batch credits the `totalCredit`
computed over its rows joined with the edited products.  For a row with a
custom price the single submission answers as it would without the edit, and
so does the batch when every selected row has a custom price. -/
theorem price_edit_at_submission (s : Store) (clk : Clock) (productId : Nat)
    (e : ProductEdit) :
    ((editProduct s productId e).1.users = s.users ∧
      (editProduct s productId e).1.user_products = s.user_products ∧
      (editProduct s productId e).1.balance_events = s.balance_events) ∧
    (∀ userId assignmentId up p u,
      submitOneLookup s userId assignmentId = some (up, p) → findUser s userId = some u →
      (submitOne (editProduct s productId e).1 clk userId assignmentId).2
        = submitOneAnswer
            (resolvedPrice up.custom_price (editedProduct productId e p) (levelOr1 u.level))
            up.manual_bonus u.wallet_balance (rateOf s (levelOr1 u.level)) ∧
      (up.custom_price ≠ none →
        (submitOne (editProduct s productId e).1 clk userId assignmentId).2
          = (submitOne s clk userId assignmentId).2)) ∧
    (∀ userId u, findUser s userId = some u → submitTodayRows s clk userId ≠ [] →
      (∃ totalPrice totalManualBonus totalCommission,
        (submitAllToday (editProduct s productId e).1 clk userId).2
          = .ok (submitTodayRows s clk userId).length totalPrice totalManualBonus
              totalCommission
              (batchCredit
                ((submitTodayRows s clk userId).map
                  (fun r => (r.1, editedProduct productId e r.2)))
                (levelOr1 u.level) (rateOf s (levelOr1 u.level)))) ∧
      ((∀ row ∈ submitTodayRows s clk userId, row.1.custom_price ≠ none) →
        (submitAllToday (editProduct s productId e).1 clk userId).2
          = (submitAllToday s clk userId).2)) := by
  refine ⟨?_, ?_, ?_⟩
  · rw [editProduct_tables]
    exact ⟨rfl, rfl, rfl⟩
  · intro userId assignmentId up p u hl hu
    have hl1 : submitOneLookup (editProduct s productId e).1 userId assignmentId
        = some (up, editedProduct productId e p) := by
      rw [submitOneLookup_edit, hl]
      rfl
    have hu1 : findUser (editProduct s productId e).1 userId = some u := by
      rw [findUser_edit, hu]
    have h := submitOne_answer clk hl1 hu1
    rw [rateOf_edit] at h
    refine ⟨h, fun hc => ?_⟩
    rw [h, submitOne_answer clk hl hu, resolvedPrice_custom hc _ p]
  · intro userId u hu hrows
    have hu1 : findUser (editProduct s productId e).1 userId = some u := by
      rw [findUser_edit, hu]
    have hrows1 : submitTodayRows (editProduct s productId e).1 clk userId ≠ [] := by
      rw [submitTodayRows_edit]
      intro hnil
      exact hrows (List.map_eq_nil_iff.mp hnil)
    have h := submitAllToday_answer clk hu1 hrows1
    rw [rateOf_edit, submitTodayRows_edit, List.length_map] at h
    refine ⟨⟨_, _, _, h⟩, fun hc => ?_⟩
    rw [h, submitAllToday_answer clk hu hrows]
    have e1 : ((submitTodayRows s clk userId).map
          (fun r => (r.1, editedProduct productId e r.2))).map
          (fun row => batchRowPrice row.1 row.2 (levelOr1 u.level))
        = (submitTodayRows s clk userId).map
          (fun row => batchRowPrice row.1 row.2 (levelOr1 u.level)) := by
      rw [List.map_map]
      apply List.map_congr_left
      intro row hrow
      exact batchRowPrice_custom (hc row hrow) _ _ _
    have e2 : ((submitTodayRows s clk userId).map
          (fun r => (r.1, editedProduct productId e r.2))).map
          (fun row => row.1.manual_bonus)
        = (submitTodayRows s clk userId).map (fun row => row.1.manual_bonus) := by
      rw [List.map_map]
      rfl
    have e3 : ((submitTodayRows s clk userId).map
          (fun r => (r.1, editedProduct productId e r.2))).map
          (batchRowCommission (levelOr1 u.level) (rateOf s (levelOr1 u.level)))
        = (submitTodayRows s clk userId).map
          (batchRowCommission (levelOr1 u.level) (rateOf s (levelOr1 u.level))) := by
      rw [List.map_map]
      apply List.map_congr_left
      intro row hrow
      show round2 _ = round2 _
      rw [batchRowPrice_custom (hc row hrow) (editedProduct productId e row.2) row.2]
    unfold batchCredit
    rw [e1, e2, e3]

/-- C24, amended, at the stores of the scenario: after the level-2 price is
edited to 20.00 the pending row without custom price is credited 21.00, and
the row of `customPriceStore`, with custom price 10.00, is credited 10.50 as
without the edit. -/
theorem price_edit_at_submission_witness :
    (submitOne (editProduct scenarioStore 7 sampleEdit).1 sampleClock 1 3).2
      = submitOneAnswer 20 0 0 (5 / 100) ∧
    submitOneAnswer 20 0 0 (5 / 100) = .ok 21 20 1 0 ∧
    (submitOne (editProduct customPriceStore 7 sampleEdit).1 sampleClock 1 3).2
      = (submitOne customPriceStore sampleClock 1 3).2 ∧
    (submitOne customPriceStore sampleClock 1 3).2 = .ok (21 / 2) 10 (1 / 2) 0 :=
  ⟨((price_edit_at_submission scenarioStore sampleClock 7 sampleEdit).2.1 1 3
      sampleAssignment sampleProduct sampleUser (by decide!) (by decide!)).1,
   by decide!,
   ((price_edit_at_submission customPriceStore sampleClock 7 sampleEdit).2.1 1 3
      { sampleAssignment with custom_price := some 10, is_manual := true } sampleProduct
      sampleUser (by decide!) (by decide!)).2 (by decide),
   by decide!⟩

/-! ## Lemmas on the handlers under a storage failure -/

theorem submitOneFaulty_none (s : Store) (clk : Clock) (userId assignmentId : Nat) :
    submitOneFaulty s clk userId assignmentId none
      = ((submitOne s clk userId assignmentId).1, some (submitOne s clk userId assignmentId).2) := by
  unfold submitOneFaulty submitOne rollback
  simp only [reduceCtorEq, if_false]
  cases submitOneLookup s userId assignmentId with
  | none => rfl
  | some r =>
    dsimp only
    by_cases hs : (joinStar r.1 r.2).status = "completed"
    · simp only [if_pos hs]
    · simp only [if_neg hs]
      cases findUser s userId with
      | none =>
        dsimp only
        by_cases hb : (0 : ℚ) < 0
        · simp only [if_pos hb]
        · simp only [if_neg hb]
      | some u =>
        dsimp only
        by_cases hb : u.wallet_balance < 0
        · simp only [if_pos hb]
        · simp only [if_neg hb]

/-- A single submission under a storage failure is rolled back whole or is
the submission without failure. -/
theorem submitOneFaulty_cases (s : Store) (clk : Clock) (userId assignmentId : Nat)
    (fault : Option Nat) :
    submitOneFaulty s clk userId assignmentId fault = (s, none) ∨
    submitOneFaulty s clk userId assignmentId fault
      = ((submitOne s clk userId assignmentId).1, some (submitOne s clk userId assignmentId).2) := by
  rw [← submitOneFaulty_none]
  unfold submitOneFaulty rollback
  simp only [reduceCtorEq, if_false]
  by_cases h0 : fault = some 0
  · rw [if_pos h0]
    exact Or.inl rfl
  · rw [if_neg h0]
    cases submitOneLookup s userId assignmentId with
    | none => exact Or.inr rfl
    | some r =>
      dsimp only
      by_cases hs : (joinStar r.1 r.2).status = "completed"
      · rw [if_pos hs, if_pos hs]
        exact Or.inr rfl
      · rw [if_neg hs, if_neg hs]
        by_cases h1 : fault = some 1
        · rw [if_pos h1]
          exact Or.inl rfl
        · rw [if_neg h1]
          split
          · exact Or.inr rfl
          · by_cases h2 : fault = some 2
            · rw [if_pos h2]
              exact Or.inl rfl
            · rw [if_neg h2]
              by_cases h3 : fault = some 3
              · rw [if_pos h3]
                exact Or.inl rfl
              · rw [if_neg h3]
                by_cases h4 : fault = some 4
                · rw [if_pos h4]
                  exact Or.inl rfl
                · rw [if_neg h4]
                  by_cases h5 : fault = some 5
                  · rw [if_pos h5]
                    exact Or.inl rfl
                  · rw [if_neg h5]
                    exact Or.inr rfl

theorem submitTodayLoopFaulty_cases (clk : Clock) (userLevel : Nat) (rate : ℚ)
    (fault : Option Nat) (rows : List (UserProduct × Product)) (k : Nat)
    (acc : Store × BatchTotals) :
    submitTodayLoopFaulty clk userLevel rate fault rows k acc = none ∨
    submitTodayLoopFaulty clk userLevel rate fault rows k acc
      = some (rows.foldl (submitTodayStep clk userLevel rate) acc) := by
  induction rows generalizing k acc with
  | nil => exact Or.inr rfl
  | cons row rows ih =>
    unfold submitTodayLoopFaulty
    split_ifs
    · exact Or.inl rfl
    · exact ih _ _

theorem submitTodayLoopFaulty_none (clk : Clock) (userLevel : Nat) (rate : ℚ)
    (rows : List (UserProduct × Product)) (k : Nat) (acc : Store × BatchTotals) :
    submitTodayLoopFaulty clk userLevel rate none rows k acc
      = some (rows.foldl (submitTodayStep clk userLevel rate) acc) := by
  induction rows generalizing k acc with
  | nil => rfl
  | cons row rows ih =>
    unfold submitTodayLoopFaulty
    rw [if_neg (by simp)]
    exact ih _ _

theorem submitAllTodayFaulty_none (s : Store) (clk : Clock) (userId : Nat) :
    submitAllTodayFaulty s clk userId none
      = ((submitAllToday s clk userId).1, some (submitAllToday s clk userId).2) := by
  unfold submitAllTodayFaulty submitAllToday rollback
  simp only [reduceCtorEq, if_false]
  cases findUser s userId with
  | none => rfl
  | some u =>
    dsimp only
    rw [submitTodayLoopFaulty_none]
    by_cases hn : (submitTodayRows s clk userId).length = 0
    · simp only [if_pos hn]
    · simp only [if_neg hn]

/-- A batch submission under a storage failure is rolled back whole or is the
submission without failure. -/
theorem submitAllTodayFaulty_cases (s : Store) (clk : Clock) (userId : Nat)
    (fault : Option Nat) :
    submitAllTodayFaulty s clk userId fault = (s, none) ∨
    submitAllTodayFaulty s clk userId fault
      = ((submitAllToday s clk userId).1, some (submitAllToday s clk userId).2) := by
  rw [← submitAllTodayFaulty_none]
  unfold submitAllTodayFaulty rollback
  simp only [reduceCtorEq, if_false]
  by_cases h0 : fault = some 0
  · rw [if_pos h0]
    exact Or.inl rfl
  · rw [if_neg h0]
    cases findUser s userId with
    | none => exact Or.inr rfl
    | some u =>
      dsimp only
      by_cases h1 : fault = some 1
      · rw [if_pos h1]
        exact Or.inl rfl
      · rw [if_neg h1]
        by_cases h2 : fault = some 2
        · rw [if_pos h2]
          exact Or.inl rfl
        · rw [if_neg h2]
          by_cases hn : (submitTodayRows s clk userId).length = 0
          · rw [if_pos hn, if_pos hn]
            exact Or.inr rfl
          · rw [if_neg hn, if_neg hn]
            rw [submitTodayLoopFaulty_none]
            rcases submitTodayLoopFaulty_cases clk (levelOr1 u.level)
              (rateOf s (levelOr1 u.level)) fault (submitTodayRows s clk userId) 3
              (s, ⟨0, 0, 0⟩) with h | h
            · rw [h]
              exact Or.inl rfl
            · rw [h]
              dsimp only
              by_cases h3 : fault = some (3 + (submitTodayRows s clk userId).length)
              · rw [if_pos h3]
                exact Or.inl rfl
              · rw [if_neg h3]
                by_cases h4 : fault = some (3 + (submitTodayRows s clk userId).length + 1)
                · rw [if_pos h4]
                  exact Or.inl rfl
                · rw [if_neg h4]
                  by_cases h5 : fault = some (3 + (submitTodayRows s clk userId).length + 2)
                  · rw [if_pos h5]
                    exact Or.inl rfl
                  · rw [if_neg h5]
                    exact Or.inr rfl

theorem applyDifferenceFaulty_none (s : Store) (clk : Clock) (userId : Nat)
    (productName : String) (d : ℚ) :
    applyDifferenceFaulty s clk userId productName d none
      = (applyDifference s clk userId productName d, true) := by
  unfold applyDifferenceFaulty applyDifference
  split_ifs <;> first | rfl | (exfalso; simp_all)

theorem upsertAssignmentFaulty_none (s : Store) (clk : Clock) (u : User) (p : Product)
    (price bonus : ℚ) (priceToUse : Option ℚ) :
    upsertAssignmentFaulty s clk u p price bonus priceToUse none
      = (upsertAssignment s clk u p price bonus priceToUse, true) := by
  unfold upsertAssignmentFaulty upsertAssignment
  cases findExisting s clk u.id p.id with
  | none =>
    dsimp only
    rw [if_neg (by simp), if_neg (by simp), applyDifferenceFaulty_none]
  | some ex =>
    dsimp only
    rw [if_neg (by simp), if_neg (by simp), applyDifferenceFaulty_none]

/-- Without a storage failure the single assignment is the handler itself. -/
theorem assignSingleTaskFaulty_none (s : Store) (clk : Clock) (userId productId : Nat)
    (manualBonus : Option ℚ) (customPrice : PriceArg) :
    assignSingleTaskFaulty s clk userId productId manualBonus customPrice none
      = ((assignSingleTask s clk userId productId manualBonus customPrice).1,
         some (assignSingleTask s clk userId productId manualBonus customPrice).2) := by
  unfold assignSingleTaskFaulty assignSingleTask
  by_cases h0 : userId = 0 ∨ productId = 0
  · rw [if_pos h0, if_pos h0]
  · rw [if_neg h0, if_neg h0]
    dsimp only
    rw [if_neg (by simp)]
    cases findUser s userId with
    | none => rfl
    | some u =>
      dsimp only
      rw [if_neg (by simp)]
      cases findProduct s productId with
      | none => rfl
      | some p =>
        dsimp only
        by_cases hact : p.status ≠ .active
        · rw [if_pos hact, if_pos hact]
        · rw [if_neg hact, if_neg hact]
          cases customPrice with
          | notANumber => rfl
          | num q =>
            dsimp only
            by_cases hq : q < 0
            · rw [if_pos hq, if_pos hq]
            · rw [if_neg hq, if_neg hq, upsertAssignmentFaulty_none]
              rfl
          | absent =>
            dsimp only
            by_cases hq : ¬ (levelPrice p (levelOr1 u.level) > 0)
            · rw [if_pos hq, if_pos hq]
            · rw [if_neg hq, if_neg hq, upsertAssignmentFaulty_none]
              rfl

/-! ## C22: storage failures in the three mutations -/

/-- C22 fails on the code for the single assignment.  The two submissions run
in a transaction: under any storage failure they are rolled back whole or
are the run without failure, as when the user update of a single submission
or the event insert of a batch fails after the row update.  The single
assignment issues its queries one by one without a transaction: in
`unassignedStore`, when the event insert fails the inserted row and the debit
of 10.00 stay without an event, and when the user update fails the inserted
row stays without a debit. -/
theorem assignment_not_atomic :
    (∀ (s : Store) (clk : Clock) (userId assignmentId : Nat) (fault : Option Nat),
      submitOneFaulty s clk userId assignmentId fault = (s, none) ∨
      submitOneFaulty s clk userId assignmentId fault
        = ((submitOne s clk userId assignmentId).1,
           some (submitOne s clk userId assignmentId).2)) ∧
    (∀ (s : Store) (clk : Clock) (userId : Nat) (fault : Option Nat),
      submitAllTodayFaulty s clk userId fault = (s, none) ∨
      submitAllTodayFaulty s clk userId fault
        = ((submitAllToday s clk userId).1, some (submitAllToday s clk userId).2)) ∧
    (∀ (s : Store) (clk : Clock) (userId productId : Nat) (manualBonus : Option ℚ)
        (customPrice : PriceArg),
      assignSingleTaskFaulty s clk userId productId manualBonus customPrice none
        = ((assignSingleTask s clk userId productId manualBonus customPrice).1,
           some (assignSingleTask s clk userId productId manualBonus customPrice).2)) ∧
    submitOneFaulty scenarioStore sampleClock 1 3 (some 4) = (scenarioStore, none) ∧
    submitAllTodayFaulty scenarioStore sampleClock 1 (some 5) = (scenarioStore, none) ∧
    assignSingleTaskFaulty unassignedStore sampleClock 1 7 none .absent (some 5)
      = ({ unassignedStore with
           users := [{ sampleUser with wallet_balance := -10 }],
           user_products := [{ sampleAssignment with id := 1, is_manual := true }] }, none) ∧
    assignSingleTaskFaulty unassignedStore sampleClock 1 7 none .absent (some 4)
      = ({ unassignedStore with
           user_products := [{ sampleAssignment with id := 1, is_manual := true }] }, none) ∧
    (assignSingleTaskFaulty unassignedStore sampleClock 1 7 none .absent (some 5)).1
      ≠ unassignedStore := by
  refine ⟨submitOneFaulty_cases, submitAllTodayFaulty_cases, assignSingleTaskFaulty_none,
    ?_, ?_, ?_, ?_, ?_⟩ <;> decide!

/-! ## C23: two submissions of one row -/

theorem submitOne_never_alreadyCompleted (s : Store) (clk : Clock)
    (userId assignmentId : Nat) :
    (submitOne s clk userId assignmentId).2 ≠ .alreadyCompleted := by
  cases hl : submitOneLookup s userId assignmentId with
  | none =>
    unfold submitOne
    rw [hl]
    exact fun h => nomatch h
  | some r =>
    rw [submitOne_of_lookup s clk userId assignmentId r.1 r.2 hl]
    dsimp only
    split
    · exact fun h => nomatch h
    · exact fun h => nomatch h

/-- C23 fails on the code already for the interleaving in which one call ends
before the other begins: no call ever answers `alreadyCompleted`, and in the
scenario store two submissions of assignment 3 in a row both answer `ok` and
each credits 10.50, the wallet going from 0 to 21.00. -/
theorem serial_submissions_both_succeed :
    (∀ (s : Store) (clk : Clock) (userId assignmentId : Nat),
      (submitOne s clk userId assignmentId).2 ≠ .alreadyCompleted) ∧
    walletOf scenarioStore 1 = some 0 ∧
    (submitOne scenarioStore sampleClock 1 3).2 = .ok (21 / 2) 10 (1 / 2) 0 ∧
    (∀ r ∈ (submitOne scenarioStore sampleClock 1 3).1.user_products,
      r.status = .completed) ∧
    (submitOne (submitOne scenarioStore sampleClock 1 3).1 sampleClock 1 3).2
      = .ok (21 / 2) 10 (1 / 2) 0 ∧
    walletOf (submitOne (submitOne scenarioStore sampleClock 1 3).1 sampleClock 1 3).1 1
      = some 21 := by
  refine ⟨submitOne_never_alreadyCompleted, ?_, ?_, ?_, ?_, ?_⟩ <;> decide!

end RankScience
